import Mathlib

/-!
# Verification of the video-generation job pipeline

This file gives a shallow embedding, in Lean 4, of the video-generation job
pipeline of the repository (files `backend/app/videoGen/router.py`,
`video_agent.py`, `output_manager.py`, `tts_generator.py`), and proves or
refutes the frozen specification claims about it.

Modelling conventions:
* Python strings are `String` / `List Char`; the concrete regular expressions
  of the source are implemented as ASCII character scanners that follow
  Python `re` backtracking semantics (greedy `\s*` tried longest-first,
  lazy `.+?` tried shortest-first, leftmost match for `re.search`).
* Filesystem paths are plain strings.
* External effects (LLM responses, subprocess outcomes, database writes)
  are inputs supplied by an `Oracle`; every code path of the orchestrator is
  a function of the oracle.
* The background worker `_run_generation` is modelled as a computation in a
  writer/except monad `M` that records every successful `save_state`
  snapshot (the persisted job records) and a ghost event trace (render
  attempts, engine reassignments, narration attempts).
-/

set_option synthInstance.maxSize 1024

namespace VideoGen

/-! ## Basic character classes and string helpers (Python semantics) -/

/-- Python `\s` for the ASCII range: space, tab, newline, CR, VT, FF. -/
def isPyWs (c : Char) : Bool :=
  c = ' ' ∨ c = '\t' ∨ c = '\n' ∨ c = '\r' ∨ c = '\x0b' ∨ c = '\x0c'

/-- The single-quote character (written via its code point). -/
def sq : Char := Char.ofNat 39

/-- Python `str.strip()` on a character list. -/
def pyStrip (l : List Char) : List Char :=
  ((l.dropWhile isPyWs).reverse.dropWhile isPyWs).reverse

/-- Python `str.strip()` on a `String`. -/
def pyStripS (s : String) : String := String.mk (pyStrip s.data)

/-- Match a literal character sequence (case sensitive); returns the rest. -/
def matchStr : List Char → List Char → Option (List Char)
  | [], l => some l
  | _ :: _, [] => none
  | p :: ps, c :: cs => if c = p then matchStr ps cs else none

/-- Match a literal character sequence case-insensitively; returns the rest. -/
def matchCI : List Char → List Char → Option (List Char)
  | [], l => some l
  | _ :: _, [] => none
  | p :: ps, c :: cs => if c.toLower = p.toLower then matchCI ps cs else none

/-- Python `int()` on a digit string. -/
def digitsToNat (l : List Char) : Nat :=
  l.foldl (fun n c => 10 * n + (c.toNat - 48)) 0

/-- Python format `f"{n:02d}"`. -/
def pad2 (n : Nat) : String :=
  if n < 10 then "0" ++ Nat.repr n else Nat.repr n

/-! ## Scene data model (`video_agent.parse_scene_plan` output records) -/

/-- The two render engines. In the source these are the string tags
`"MANIM"` / `"REMOTION"`; `parse_scene_plan` guarantees exactly these two
values, so we use a closed enum. -/
inductive Engine where
  | MANIM
  | REMOTION
deriving DecidableEq, Repr

/-- One scene record as produced by `parse_scene_plan`. -/
structure Scene where
  index : Nat
  title : String
  engine : Engine
  description : String
  narration : String
  class_name : String
  comp_id : String
  comp_name : String
deriving DecidableEq, Repr

/-! ## The scene-plan scanner (`video_agent.parse_scene_plan`)

The source splits the plan on the zero-width pattern `(?=###\s*Scene\s*\d+)`
(case sensitive) and then searches each block for
`###\s*Scene\s*(\d+)\s*:\s*(.+?)\s*\[(MANIM|REMOTION)\]` (case insensitive,
no DOTALL: `.+?` cannot cross a newline), plus a narration pattern
`Narration\**:\s*(.+?)(?=\n\s*-|\Z)` (case insensitive, DOTALL). -/

/-- The zero-width lookahead `###\s*Scene\s*\d+` used by `re.split`
(case sensitive, per the source). -/
def lookScene (l : List Char) : Bool :=
  match l with
  | '#' :: '#' :: '#' :: r =>
    match matchStr "Scene".data (r.dropWhile isPyWs) with
    | some r2 =>
      match r2.dropWhile isPyWs with
      | c :: _ => c.isDigit
      | [] => false
    | none => false
  | _ => false

/-- `re.split(r"(?=###\s*Scene\s*\d+)", plan_text)`: cut before every
position where the lookahead matches (the first chunk may be empty). -/
def splitScenesAux : List Char → List Char → List (List Char)
  | [], acc => [acc.reverse]
  | c :: rest, acc =>
    if lookScene (c :: rest) then acc.reverse :: splitScenesAux rest [c]
    else splitScenesAux rest (c :: acc)

def splitScenes (l : List Char) : List (List Char) := splitScenesAux l []

/-- The tail `\[(MANIM|REMOTION)\]` of the header pattern, preceded by the
greedy `\s*` (whitespace then a literal bracket: deterministic). -/
def engineTail (l : List Char) : Option (Engine × List Char) :=
  match l.dropWhile isPyWs with
  | '[' :: r =>
    (match matchCI "manim".data r with
     | some (']' :: r2) => some (.MANIM, r2)
     | _ =>
       match matchCI "remotion".data r with
       | some (']' :: r2) => some (.REMOTION, r2)
       | _ => none)
  | _ => none

/-- Lazy `(.+?)` for the title: extend one (non-newline) character at a
time, stopping as soon as `\s*\[(MANIM|REMOTION)\]` matches after it.
Returns (title group, engine, rest after the `]`). -/
def lazyTitle : List Char → List Char → Option (List Char × Engine × List Char)
  | _, [] => none
  | acc, c :: rest =>
    if c = '\n' then none
    else
      match engineTail rest with
      | some (e, r) => some ((c :: acc).reverse, e, r)
      | none => lazyTitle (c :: acc) rest

/-- Greedy `\s*` before the title: try consuming `k` whitespace characters,
longest first (regex backtracking order). `ws` is the maximal whitespace
run after the colon and `rest` what follows it. -/
def titleFromK : Nat → List Char → List Char → Option (List Char × Engine × List Char)
  | k, ws, rest =>
    match lazyTitle [] (ws.drop k ++ rest) with
    | some r => some r
    | none =>
      match k with
      | 0 => none
      | k' + 1 => titleFromK k' ws rest

/-- Try to match the full header pattern at the start of `l`. Returns
(scene number, raw title group, engine, rest after the match). -/
def headerAt (l : List Char) : Option (Nat × List Char × Engine × List Char) :=
  match l with
  | '#' :: '#' :: '#' :: r1 =>
    match matchCI "scene".data (r1.dropWhile isPyWs) with
    | some r3 =>
      let r4 := r3.dropWhile isPyWs
      let ds := r4.takeWhile Char.isDigit
      if ds = [] then none
      else
        match (r4.dropWhile Char.isDigit).dropWhile isPyWs with
        | ':' :: r7 =>
          let ws := r7.takeWhile isPyWs
          let r8 := r7.dropWhile isPyWs
          match titleFromK ws.length ws r8 with
          | some (t, e, rest) => some (digitsToNat ds, t, e, rest)
          | none => none
        | _ => none
    | none => none
  | _ => none

/-- `re.search` of the header pattern: leftmost start position wins. -/
def searchHeader : List Char → Option (Nat × List Char × Engine × List Char)
  | [] => none
  | c :: rest =>
    match headerAt (c :: rest) with
    | some r => some r
    | none => searchHeader rest

/-- The narration stop lookahead `(?=\n\s*-|\Z)`. -/
def narrStop : List Char → Bool
  | [] => true
  | '\n' :: r =>
    match r.dropWhile isPyWs with
    | '-' :: _ => true
    | _ => false
  | _ => false

/-- Lazy DOTALL `(.+?)` for the narration: extend one character at a time
until the stop lookahead holds. -/
def lazyNarr : List Char → List Char → Option (List Char)
  | _, [] => none
  | acc, c :: rest =>
    if narrStop rest then some (c :: acc).reverse else lazyNarr (c :: acc) rest

/-- Greedy `\s*` before the narration text, longest first. -/
def narrFromK : Nat → List Char → List Char → Option (List Char)
  | k, ws, rest =>
    match lazyNarr [] (ws.drop k ++ rest) with
    | some r => some r
    | none =>
      match k with
      | 0 => none
      | k' + 1 => narrFromK k' ws rest

/-- Try to match `Narration\**:\s*(.+?)(?=\n\s*-|\Z)` at the start of `l`. -/
def narrAt (l : List Char) : Option (List Char) :=
  match matchCI "narration".data l with
  | some r1 =>
    match r1.dropWhile (· = '*') with
    | ':' :: r3 =>
      let ws := r3.takeWhile isPyWs
      let r4 := r3.dropWhile isPyWs
      narrFromK ws.length ws r4
    | _ => none
  | none => none

/-- `re.search` of the narration pattern: leftmost start wins. -/
def searchNarr : List Char → Option (List Char)
  | [] => none
  | c :: rest =>
    match narrAt (c :: rest) with
    | some r => some r
    | none => searchNarr rest

/-- Post-processing of the narration group: strip, drop one surrounding
quote on each side (double or single), strip again. -/
def cleanNarr (l : List Char) : List Char :=
  let n1 := pyStrip l
  let n2 := match n1 with
    | c :: r => if c = '"' ∨ c = sq then r else n1
    | [] => n1
  let n3 := match n2.reverse with
    | c :: r => if c = '"' ∨ c = sq then r.reverse else n2
    | [] => n2
  pyStrip n3

/-- `safe_title = re.sub(r'[^a-zA-Z0-9]', '', title.replace(' ', ''))[:30]`. -/
def safeTitle (title : List Char) : List Char :=
  ((title.filter (fun c => ¬ (c = ' '))).filter Char.isAlphanum).take 30

/-- Parse one block of the split plan into a scene record (or none if the
block has no recognizable header). -/
def parseBlock (block : List Char) : Option Scene :=
  match searchHeader block with
  | none => none
  | some (idx, titleRaw, eng, rest) =>
    let title := pyStrip titleRaw
    let narration := match searchNarr block with
      | some n => cleanNarr n
      | none => []
    let st := safeTitle title
    some { index := idx
           title := String.mk title
           engine := eng
           description := String.mk (pyStrip rest)
           narration := String.mk narration
           class_name := "Scene" ++ pad2 idx ++ "_" ++ String.mk st
           comp_id := "Scene" ++ pad2 idx
           comp_name := "Scene" ++ pad2 idx ++ "Comp" }

/-- `video_agent.parse_scene_plan`. -/
def parseScenePlan (s : String) : List Scene :=
  (splitScenes s.data).filterMap parseBlock

example :
    (parseScenePlan "### Scene 1: Hi there! [MANIM]\n- Narration: \"hello\"\n- more").map
      (fun s => (s.index, s.class_name, s.narration, s.engine)) =
    [(1, "Scene01_Hithere", "hello", .MANIM)] := by decide

example :
    (parseScenePlan "intro\n### Scene 2: A [remotion]\ntext\n### scene 3 : B  [MANIM]").map
      (fun s => (s.index, s.engine, s.title)) =
    [(2, .REMOTION, "A")] := by decide

example :
    (parseScenePlan "### scene 3 : B  [manim]").map (fun s => (s.index, s.engine, s.title)) =
    [(3, .MANIM, "B")] := by decide

example : parseScenePlan "no scenes here" = [] := by decide

/-! ## Code-block extraction (`video_agent.extract_code_block` and friends) -/

/-- Python `\w` for the ASCII range. -/
def isWordChar (c : Char) : Bool := c.isAlphanum ∨ c = '_'

/-- The `\s*\n` part of the fence pattern: a whitespace run whose matched
tail ends at its last newline (regex backtracking: greedy `\s*`, then a
literal `\n`, backtracking to the last newline inside the run). Returns the
input positioned right after that newline, or none if the run has no
newline. -/
def fenceWsNl (l : List Char) : Option (List Char) :=
  let run := l.takeWhile isPyWs
  if run.any (fun c => c = '\n') then
    some ((run.reverse.takeWhile (fun c => ¬ (c = '\n'))).reverse ++ l.dropWhile isPyWs)
  else none

/-- Lazy `(.*?)` up to the first closing triple backtick; returns the
content group and the rest after the closing fence. -/
def upToFence : List Char → List Char → Option (List Char × List Char)
  | acc, '`' :: '`' :: '`' :: r => some (acc.reverse, r)
  | acc, c :: rest => upToFence (c :: acc) rest
  | _, [] => none

/-- Match ```` ```<lang>\s*\n(.*?)``` ```` at the start of `l`. -/
def ecbLangAt (lang : List Char) (l : List Char) : Option (List Char × List Char) :=
  match matchStr ("```".data ++ lang) l with
  | some r =>
    match fenceWsNl r with
    | some r2 => upToFence [] r2
    | none => none
  | none => none

/-- Match the generic ```` ```\w*\s*\n(.*?)``` ```` at the start of `l`. -/
def ecbAnyAt (l : List Char) : Option (List Char × List Char) :=
  match matchStr "```".data l with
  | some r =>
    match fenceWsNl (r.dropWhile isWordChar) with
    | some r2 => upToFence [] r2
    | none => none
  | none => none

/-- `re.search` for a language-tagged code fence (leftmost). -/
def ecbLangSearch (lang : List Char) : List Char → Option (List Char)
  | [] => none
  | c :: rest =>
    match ecbLangAt lang (c :: rest) with
    | some (content, _) => some content
    | none => ecbLangSearch lang rest

/-- `re.search` for any code fence (leftmost). -/
def ecbAnySearch : List Char → Option (List Char)
  | [] => none
  | c :: rest =>
    match ecbAnyAt (c :: rest) with
    | some (content, _) => some content
    | none => ecbAnySearch rest

/-- `video_agent.extract_code_block`. -/
def extractCodeBlock (text : String) (language : String) : String :=
  let generic :=
    match ecbAnySearch text.data with
    | some c => String.mk (pyStrip c)
    | none => pyStripS text
  if language ≠ "" then
    match ecbLangSearch language.data text.data with
    | some c => String.mk (pyStrip c)
    | none => generic
  else generic

/-- `re.findall` over language-tagged fences, fuelled by the input length
(each match consumes at least one character, so the fuel never runs out). -/
def ecbFindAllAux (lang : List Char) : Nat → List Char → List (List Char)
  | 0, _ => []
  | _ + 1, [] => []
  | fuel + 1, c :: rest =>
    match ecbLangAt lang (c :: rest) with
    | some (content, r) => pyStrip content :: ecbFindAllAux lang fuel r
    | none => ecbFindAllAux lang fuel rest

/-- `video_agent.extract_multiple_code_blocks` (each block `.strip()`ed). -/
def extractMultipleCodeBlocks (text : String) (lang : String) : List String :=
  (ecbFindAllAux lang.data text.data.length text.data).map String.mk

/-! ## `output_manager._detect_composition_ids` and
`video_agent.VideoAgent._default_root_tsx` -/

/-- Match `id=["'](\w+)["']` at the start of `l`; returns the id and the
rest after the match. -/
def detectIdAt (l : List Char) : Option (String × List Char) :=
  match l with
  | 'i' :: 'd' :: '=' :: q :: r =>
    if q = '"' ∨ q = sq then
      let w := r.takeWhile isWordChar
      if w = [] then none
      else
        match r.drop w.length with
        | q2 :: r2 => if q2 = '"' ∨ q2 = sq then some (String.mk w, r2) else none
        | [] => none
    else none
  | _ => none

/-- `re.findall(r'id=["\x27](\w+)["\x27]', content)`, fuelled as above. -/
def detectIdsAux : Nat → List Char → List String
  | 0, _ => []
  | _ + 1, [] => []
  | fuel + 1, c :: rest =>
    match detectIdAt (c :: rest) with
    | some (w, r) => w :: detectIdsAux fuel r
    | none => detectIdsAux fuel rest

/-- `output_manager._detect_composition_ids` (on a content string rather
than a file path). -/
def detectCompositionIds (content : String) : List String :=
  detectIdsAux content.data.length content.data

/-- Python `", ".join(...)` style separator join. -/
def joinSep (sep : String) : List String → String
  | [] => ""
  | [x] => x
  | x :: xs => x ++ sep ++ joinSep sep xs

/-- The single-quote character as a string. -/
def sqS : String := String.singleton sq

/-- One `<Composition .../>` snippet of `_default_root_tsx`. -/
def compositionSnippet (s : Scene) : String :=
  "\n            <Composition\n                id=\"" ++ s.comp_id ++
    "\"\n                component=\x7b" ++ s.comp_name ++
    "\x7d\n                durationInFrames=\x7b300\x7d\n                width=\x7b1920\x7d\n                height=\x7b1080\x7d\n                fps=\x7b30\x7d\n            />"

/-- `VideoAgent._default_root_tsx`: the deterministically generated
`Root.tsx` registering one composition per scene. -/
def defaultRootTsx (scenes : List Scene) : String :=
  let compositions := (scenes.map compositionSnippet).foldl (· ++ ·) ""
  let imports := joinSep ", " (scenes.map (·.comp_name))
  "import \x7bComposition\x7d from " ++ sqS ++ "remotion" ++ sqS ++
    ";\nimport \x7b" ++ imports ++ "\x7d from " ++ sqS ++ "./MyComp" ++ sqS ++
    ";\n\nexport const RemotionRoot: React.FC = () => \x7b\n    return (\n        <>" ++
    compositions ++ "\n        </>\n    );\n\x7d;\n"

/-- `error_text.split("\n")[-30:]` rejoined — the bounded tail of a render
error stream kept as the scene diagnostic. -/
def summarizeError (s : String) : String :=
  let ls := s.splitOn "\n"
  joinSep "\n" (ls.drop (ls.length - 30))

example : extractCodeBlock "hello" "markdown" = "hello" := by decide
example : extractCodeBlock "x\n```python\nprint(1)\n```\ny" "python" = "print(1)" := by decide
example : extractCodeBlock "a\n```\ncode\n```" "markdown" = "code" := by decide
example :
    extractMultipleCodeBlocks "```tsx\nA\n```mid```tsx\nB\n```" "tsx" = ["A", "B"] := by decide
example : extractCodeBlock "" "python" = "" := by decide

/-! ## Python `dict[int, Path]` model

A dict is an insertion-ordered association list with unique keys;
assignment (`d[k] = v`) overwrites in place or appends. `dictOf` replays a
chronological list of assignments, which is how `rendered_clips` /
`narration_audio` / `generated` are built in the source. -/

abbrev Dict := List (Nat × String)

def dlookup (k : Nat) : Dict → Option String
  | [] => none
  | (k', v) :: rest => if k' = k then some v else dlookup k rest

def dmem (k : Nat) (d : Dict) : Bool := (dlookup k d).isSome

def dinsert (k : Nat) (v : String) (d : Dict) : Dict :=
  if dmem k d then d.map (fun p => if p.1 = k then (k, v) else p) else d ++ [(k, v)]

def dictOf (l : List (Nat × String)) : Dict :=
  l.foldl (fun d p => dinsert p.1 p.2 d) []

def dkeys (d : Dict) : List Nat := d.map (·.1)

/-! ## Renderer models (`output_manager.render_manim_scenes` /
`render_remotion_scenes`)

Subprocess outcomes are oracle inputs, keyed by the per-engine invocation
counter. Scenes are carried as `(pos, scene)` where `pos` is the position
of the scene dict in the parsed `scenes` list (Python object identity).
A ghost event trace records each subprocess render attempt and each
`scene["engine"]` reassignment. -/

/-- Outcome of one Manim subprocess invocation.
`noOutput` = exit 0 but no MP4 found; `fail err` = nonzero exit with the
(stripped) stderr-or-stdout text; `notFound` = `FileNotFoundError`. -/
inductive ManimOut where
  | success
  | noOutput
  | fail (err : String)
  | timeout
  | notFound
deriving DecidableEq, Repr

/-- Outcome of one Remotion subprocess invocation. `defaultOut` = nonzero
exit or missing clip but the default `out/<comp>.mp4` exists. -/
inductive RemOut where
  | success
  | defaultOut
  | fail
  | timeout
  | notFound
deriving DecidableEq, Repr

/-- Ghost events: render attempts, engine reassignments, TTS attempts. -/
inductive Ev where
  | attempt (pos : Nat) (eng : Engine)
  | engineSet (pos : Nat) (eng : Engine)
  | ttsAttempt (idx : Nat)
deriving DecidableEq, Repr

/-- `clips/clip_{idx:02d}.mp4` under the job output directory. -/
def clipPath (dir : String) (idx : Nat) : String :=
  dir ++ "/clips/clip_" ++ pad2 idx ++ ".mp4"

/-- The diagnostic used on `FileNotFoundError` in the Manim loop. -/
def manimNotFoundMsg : String := "Manim not installed or not on PATH"

/-- The per-scene loop of `render_manim_scenes`. `full` is the whole
`manim_scenes` list (the `FileNotFoundError` handler marks every member of
the *full* list with a strictly larger scene index, then breaks). -/
def rmAux (dir : String) (full : List (Nat × Scene)) (o : Nat → ManimOut) :
    List (Nat × Scene) → Nat →
      List (Nat × String) × List ((Nat × Scene) × String) × List Ev
  | [], _ => ([], [], [])
  | (p, s) :: rest, k =>
    let e := Ev.attempt p .MANIM
    match o k with
    | .success =>
      let (rd, fl, es) := rmAux dir full o rest (k + 1)
      ((s.index, clipPath dir s.index) :: rd, fl, e :: es)
    | .noOutput =>
      let (rd, fl, es) := rmAux dir full o rest (k + 1)
      (rd, ((p, s), "MP4 file not found after successful render") :: fl, e :: es)
    | .fail err =>
      let (rd, fl, es) := rmAux dir full o rest (k + 1)
      (rd, ((p, s), summarizeError err) :: fl, e :: es)
    | .timeout =>
      let (rd, fl, es) := rmAux dir full o rest (k + 1)
      (rd, ((p, s), "Manim render timed out (>300s)") :: fl, e :: es)
    | .notFound =>
      ([],
       ((p, s), manimNotFoundMsg) ::
         (full.filter (fun q => s.index < q.2.index)).map (fun q => (q, manimNotFoundMsg)),
       [e])

/-- Result of `render_manim_scenes`: either the normal
(rendered, failed-pairs) return, or the ill-typed early return
`return {}, list(manim_scenes)` taken when `scene.py` does not exist
(a list of scene dicts instead of (scene, error) pairs, which makes the
caller's tuple unpacking raise). -/
inductive ManimResult where
  | ok (rendered : List (Nat × String)) (failed : List ((Nat × Scene) × String))
      (events : List Ev)
  | malformed (failed : List (Nat × Scene))
deriving DecidableEq, Repr

def renderManimScenes (dir : String) (scenePyExists : Bool) (o : Nat → ManimOut)
    (ms : List (Nat × Scene)) : ManimResult :=
  if scenePyExists then
    let (rd, fl, es) := rmAux dir ms o ms 0
    .ok rd fl es
  else .malformed ms

/-- The per-scene loop of `render_remotion_scenes`; `k` is the Remotion
invocation counter (threaded across calls within one job). On
`FileNotFoundError` (`npx` missing) the function returns what it has. -/
def rrAux (dir : String) (o : Nat → RemOut) :
    List (Nat × Scene) → Nat → List (Nat × String) × List Ev × Nat
  | [], k => ([], [], k)
  | (p, s) :: rest, k =>
    let e := Ev.attempt p .REMOTION
    match o k with
    | .success =>
      let (rd, es, k') := rrAux dir o rest (k + 1)
      ((s.index, clipPath dir s.index) :: rd, e :: es, k')
    | .defaultOut =>
      let (rd, es, k') := rrAux dir o rest (k + 1)
      ((s.index, clipPath dir s.index) :: rd, e :: es, k')
    | .fail =>
      let (rd, es, k') := rrAux dir o rest (k + 1)
      (rd, e :: es, k')
    | .timeout =>
      let (rd, es, k') := rrAux dir o rest (k + 1)
      (rd, e :: es, k')
    | .notFound => ([], [e], k + 1)

/-- `render_remotion_scenes`: skips everything (no subprocess calls) when
the job's generated `remotion/` directory or the global Remotion project
directory is missing. -/
def renderRemotionScenes (dir : String) (remotionSrcExists remProjExists : Bool)
    (o : Nat → RemOut) (scenes : List (Nat × Scene)) (k : Nat) :
    List (Nat × String) × List Ev × Nat :=
  if remotionSrcExists ∧ remProjExists then rrAux dir o scenes k
  else ([], [], k)

/-! ## Narration model (`tts_generator.generate_scene_narrations`) -/

/-- Outcome of one `generate_narration` call. `failure` = engine error,
missing file or zero-byte file (the function returns `None`); `raiseErr` =
an exception escaping `generate_scene_narrations` itself (e.g. from
`result.stat()`), caught by the router. -/
inductive TtsOut where
  | success
  | failure
  | raiseErr
deriving DecidableEq, Repr

/-- `audio/narration_{idx:02d}.wav` under the job output directory. -/
def audioPath (dir : String) (idx : Nat) : String :=
  dir ++ "/audio/narration_" ++ pad2 idx ++ ".wav"

/-- The loop of `generate_scene_narrations`: scenes with an empty script
are skipped (`if not script: continue`); failures are skipped; `j` counts
actual synthesis attempts. On `raiseErr` the already-emitted events stand
but the whole call errors (partial results are lost by the caller). -/
def gsnAux (dir : String) (o : Nat → TtsOut) (scripts : Dict) :
    List Scene → Nat → Except Unit (List (Nat × String)) × List Ev
  | [], _ => (.ok [], [])
  | s :: rest, j =>
    if (dlookup s.index scripts).getD "" = "" then gsnAux dir o scripts rest j
    else
      match o j with
      | .success =>
        match gsnAux dir o scripts rest (j + 1) with
        | (.ok l, es) =>
          (.ok ((s.index, audioPath dir s.index) :: l), Ev.ttsAttempt s.index :: es)
        | (.error u, es) => (.error u, Ev.ttsAttempt s.index :: es)
      | .failure =>
        match gsnAux dir o scripts rest (j + 1) with
        | (r, es) => (r, Ev.ttsAttempt s.index :: es)
      | .raiseErr => (.error (), [Ev.ttsAttempt s.index])

def generateSceneNarrations (dir : String) (o : Nat → TtsOut) (scenes : List Scene)
    (scripts : Dict) : Except Unit (List (Nat × String)) × List Ev :=
  gsnAux dir o scripts scenes 0

/-! ## Merge model (`output_manager.merge_clips`) -/

/-- `sorted(all_scenes, key=lambda s: s["index"])` — a stable sort by
index (Python's sort is stable; so is `List.insertionSort`). -/
def sceneLE : Scene → Scene → Prop := fun a b => a.index ≤ b.index

instance : DecidableRel sceneLE := fun a b => Nat.decLe a.index b.index

instance : IsTotal Scene sceneLE := ⟨fun a b => Nat.le_total a.index b.index⟩

instance : IsTrans Scene sceneLE := ⟨fun _ _ _ h1 h2 => Nat.le_trans h1 h2⟩

def sortScenes (l : List Scene) : List Scene := List.insertionSort sceneLE l

/-- Result of `merge_clips`, with ghost observability: `ordered` is the
(index, clip) sequence built from the sorted scene list, `concatList` the
(index, normalized clip) sequence written to `concat.txt`, `verbatim`
whether the single-clip `shutil.copy2` branch was taken. -/
structure MergeOut where
  result : Option String
  ordered : List (Nat × String)
  concatList : List (Nat × String)
  verbatim : Bool
deriving DecidableEq, Repr

/-- Oracle for the ffmpeg subprocess calls of `merge_clips`: `norm i`
is the success of the i-th normalization call (exit 0 and output present;
`FileNotFoundError`/timeout count as failure), `concatOk` the success of
the final concat call. -/
structure MergeOracle where
  norm : Nat → Bool
  concatOk : Bool

def normPath (dir : String) (i : Nat) : String :=
  dir ++ "/clips/normalized/norm_" ++ pad2 i ++ ".mp4"

def finalPath (dir : String) : String := dir ++ "/final_video.mp4"

/-- The `ordered_clips`/`ordered_indices` pair of `merge_clips`: the
scenes sorted by index, keeping those whose index has a rendered clip. -/
def orderedOf (allScenes : List Scene) (rendered : Dict) : List (Nat × String) :=
  (sortScenes allScenes).filterMap
    (fun s => (dlookup s.index rendered).map (fun c => (s.index, c)))

/-- `output_manager.merge_clips`. -/
def mergeClips (dir : String) (allScenes : List Scene) (rendered : Dict)
    (narrationAudio : Dict) (o : MergeOracle) : MergeOut :=
  if rendered = [] then ⟨none, [], [], false⟩
  else
    let ordered : List (Nat × String) := orderedOf allScenes rendered
    if ordered.length = 0 then ⟨none, ordered, [], false⟩
    else if ordered.length = 1 ∧ ¬ dmem (ordered.headI.1) narrationAudio then
      ⟨some (finalPath dir), ordered, [], true⟩
    else
      let normalized : List (Nat × String) :=
        (ordered.enum.filter (fun q => o.norm q.1)).map (fun q => (q.2.1, normPath dir q.1))
      if normalized = [] then ⟨none, ordered, normalized, false⟩
      else if o.concatOk then ⟨some (finalPath dir), ordered, normalized, false⟩
      else ⟨none, ordered, normalized, false⟩

example :
    mergeClips "d" [] [] [] ⟨fun _ => true, true⟩ = ⟨none, [], [], false⟩ := by decide

/-! ## The orchestrator (`router._run_generation`)

The worker is modelled in a writer/except monad `M`: a computation maps the
`save_state` call counter to a result (`ok` or a raised exception carrying
the in-memory job state at the raise point), the list of successfully
persisted job snapshots, the ghost event list, and the next counter.
Constant job fields (`job_id`, `user_id`, `created_at`) are omitted from
snapshots. -/

/-- The job `status` strings of the source. -/
inductive Status where
  | queued
  | planning
  | generating
  | rendering
  | tts
  | merging
  | complete
  | failed
deriving DecidableEq, Repr

/-- One persisted job record (the fields `save_state` writes that the
claims talk about). `scenes` is the `[{index, title, engine}]` projection
made at planning time. -/
structure JobSnap where
  status : Status
  topic : String
  progress : String
  scenes : Option (List (Nat × String × Engine))
  outputDir : Option String
  finalVideo : Option String
  error : Option String
deriving DecidableEq, Repr

/-- The in-memory state of the worker: the mutable `job` dict plus the
local variables `topic` and `context`. -/
structure St where
  topicVar : String
  jobTopic : String
  status : Status
  progress : String
  scenes : Option (List (Nat × String × Engine))
  outputDir : Option String
  finalVideo : Option String
  error : Option String
  ctx : String
deriving DecidableEq, Repr

def snapOf (st : St) : JobSnap :=
  { status := st.status, topic := st.jobTopic, progress := st.progress,
    scenes := st.scenes, outputDir := st.outputDir,
    finalVideo := st.finalVideo, error := st.error }

def M (α : Type) : Type :=
  Nat → Except (String × St) α × List JobSnap × List Ev × Nat

def Mpure (a : α) : M α := fun n => (.ok a, [], [], n)

def Mbind (x : M α) (f : α → M β) : M β := fun n =>
  match x n with
  | (.error e, t, ev, n') => (.error e, t, ev, n')
  | (.ok a, t, ev, n') =>
    match f a n' with
    | (r, t2, ev2, n2) => (r, t ++ t2, ev ++ ev2, n2)

instance : Monad M where
  pure := Mpure
  bind := Mbind

/-- Raise a Python exception carrying the current in-memory job state. -/
def Mthrow (st : St) (msg : String) : M α := fun n => (.error (msg, st), [], [], n)

/-- Run an external call that may raise. -/
def MliftE (st : St) : Except String α → M α
  | .ok a => Mpure a
  | .error e => Mthrow st e

/-- Emit ghost events. -/
def Memit (evs : List Ev) : M Unit := fun n => (.ok (), [], evs, n)

/-- A `try: ... except Exception: ...` block; the handler receives the
exception message and the job state at the raise point. -/
def Mcatch (x : M α) (h : String × St → M α) : M α := fun n =>
  match x n with
  | (.ok a, t, ev, n') => (.ok a, t, ev, n')
  | (.error e, t, ev, n') =>
    match h e n' with
    | (r, t2, ev2, n2) => (r, t ++ t2, ev ++ ev2, n2)

def boolToExcept (b : Bool) (msg : String) : Except String Unit :=
  if b then .ok () else .error msg

/-- All external nondeterminism of one `_run_generation` execution. -/
structure Oracle where
  /-- success of the n-th `save_state` call (a failed save persists
  nothing and raises). -/
  save : Nat → Bool
  /-- request `topic`. -/
  topic : String
  /-- request `document_ids`. -/
  docIds : List String
  /-- request `user_id`. -/
  userId : Option String
  /-- `_get_system_prompt()` + `GeminiClient()` construction. -/
  initOk : Except String Unit
  /-- step -1: the collected `"[filename]: summary"` strings (or a raised
  exception anywhere in that block). -/
  docSummaries : Except String (List String)
  /-- step 0: the title-summarization LLM response. -/
  summarizeResp : Except String String
  /-- context retrieval: rows (document_id, filename, content) returned by
  the vector search. -/
  searchRows : Except String (List (String × String × String))
  /-- scene-planning LLM response (`step1_plan_scenes`). -/
  step1Resp : Except String String
  /-- Manim-generation LLM response (`step2_generate_manim`). -/
  step2Resp : Except String String
  /-- Remotion-generation LLM response (`step3_generate_remotion`). -/
  step3Resp : Except String String
  /-- i-th `generate_remotion_fallback` LLM response. -/
  fallbackResp : Nat → Except String String
  /-- success of the i-th fallback `save_remotion_files` write. -/
  fbWriteOk : Nat → Bool
  /-- `create_output_dir` result (the job output directory path). -/
  createDir : Except String String
  /-- `save_scene_plan` write. -/
  writePlanOk : Bool
  /-- `save_manim_code` write. -/
  writeManimOk : Bool
  /-- step-2 `save_remotion_files` write. -/
  writeRemotionOk : Bool
  /-- outcome of the k-th Manim render subprocess. -/
  manim : Nat → ManimOut
  /-- outcome of the k-th Remotion render subprocess. -/
  remotion : Nat → RemOut
  /-- whether the global Remotion project directory exists. -/
  remProjExists : Bool
  /-- outcome of the j-th narration synthesis attempt. -/
  tts : Nat → TtsOut
  /-- outcomes of the ffmpeg normalize/concat calls. -/
  merge : MergeOracle
  /-- the formatted final-video size used in the success progress text. -/
  finalSize : String

def MsaveState (o : Oracle) (st : St) : M Unit := fun n =>
  if o.save n then (.ok (), [snapOf st], [], n + 1)
  else (.error ("job save failed", st), [], [], n + 1)

/-- The initial in-memory job dict (router lines building `job = {...}`). -/
def st0 (o : Oracle) : St :=
  { topicVar := o.topic, jobTopic := o.topic, status := .queued,
    progress := "Initializing generation...", scenes := none,
    outputDir := none, finalVideo := none, error := none, ctx := "" }

/-! ### `VideoAgent.generate_video` -/

def optTruthy : Option String → Bool
  | some s => s ≠ ""
  | none => false

/-- `comp_tsx` selection in `step3_generate_remotion`. -/
def compTsxOf (resp : String) : String :=
  match extractMultipleCodeBlocks resp "tsx" with
  | _ :: b2 :: _ => b2
  | [b] => b
  | [] =>
    let t := extractCodeBlock resp "typescript"
    if t ≠ "" then t else extractCodeBlock resp ""

/-- `comp_tsx` selection in `generate_remotion_fallback`. -/
def compTsxOfFallback (resp : String) : String :=
  match extractMultipleCodeBlocks resp "tsx" with
  | _ :: b2 :: _ => b2
  | [b] => b
  | [] => extractCodeBlock resp ""

def enumScenes (l : List Scene) : List (Nat × Scene) := l.enum

/-- The pure payload of `VideoAgent.generate_video` (its three LLM calls
are orace-supplied; everything else is the source's string processing). -/
structure GenResult where
  scenePlan : String
  scenes : List Scene
  manimScenes : List (Nat × Scene)
  remotionScenes : List (Nat × Scene)
  manimCode : Option String
  rootTsx : Option String
  compTsx : Option String
deriving DecidableEq, Repr

/-- `scene_plan` post-processing of the step-1 LLM response. -/
def scenePlanOf (resp1 : String) : String :=
  let sp0 := extractCodeBlock resp1 "markdown"
  if sp0 = pyStripS resp1 then extractCodeBlock resp1 "md" else sp0

def genVideoResult (o : Oracle) : Except String GenResult := do
  let resp1 ← o.step1Resp
  let scenePlan := scenePlanOf resp1
  let scenes := parseScenePlan scenePlan
  let ms := (enumScenes scenes).filter (fun q => q.2.engine = .MANIM)
  let rs := (enumScenes scenes).filter (fun q => q.2.engine = .REMOTION)
  let manimCode ←
    if ms.isEmpty then pure (none : Option String)
    else do
      let r ← o.step2Resp
      pure (some (extractCodeBlock r "python"))
  let remPair ←
    if rs.isEmpty then pure ((none : Option String), (none : Option String))
    else do
      let r ← o.step3Resp
      pure (some (defaultRootTsx (rs.map (·.2))), some (compTsxOf r))
  pure { scenePlan := scenePlan, scenes := scenes, manimScenes := ms,
         remotionScenes := rs, manimCode := manimCode,
         rootTsx := remPair.1, compTsx := remPair.2 }

/-! ### The pipeline stages -/

/-- Step -1: derive a topic from the selected documents when the request
topic is blank. -/
def stageTopicFromDocs (o : Oracle) (st : St) : M St :=
  if pyStripS st.topicVar = "" ∧ o.docIds ≠ [] ∧ o.userId.isSome then do
    let st1 := { st with progress := "Analyzing selected materials to generate a topic..." }
    MsaveState o st1
    Mcatch
      (do
        let sums ← MliftE st1 o.docSummaries
        if sums ≠ [] then do
          let st2 := { st1 with
            topicVar := String.mk ((joinSep "\n\n" sums).data.take 5000),
            progress := "Topic generated from materials. Continuing..." }
          MsaveState o st2
          pure st2
        else do
          let st2 := { st1 with topicVar := "Educational Overview",
                                progress := "No summaries found. Using generic topic." }
          MsaveState o st2
          pure st2)
      (fun e => pure { e.2 with topicVar := "Educational Overview" })
  else pure st

def isQuote (c : Char) : Bool := c = '"' ∨ c = sq

/-- Python `str.strip('"\x27')`. -/
def stripQuotesBoth (l : List Char) : List Char :=
  ((l.dropWhile isQuote).reverse.dropWhile isQuote).reverse

/-- Step 0: summarize a long topic into a short title. -/
def stageSummarize (o : Oracle) (st : St) : M St :=
  if 50 < st.topicVar.length then do
    let st1 := { st with progress := "Summarizing input text into a title..." }
    MsaveState o st1
    Mcatch
      (do
        let r ← MliftE st1 o.summarizeResp
        let t := String.mk (stripQuotesBoth (pyStrip r.data))
        if t ≠ "" then do
          let st2 := { st1 with jobTopic := t }
          MsaveState o st2
          pure st2
        else pure st1)
      (fun e => pure e.2)
  else pure st

/-- Context retrieval before planning (exceptions swallowed). -/
def stageContext (o : Oracle) (st : St) : M St :=
  if o.docIds ≠ [] ∧ o.userId.isSome then
    Mcatch
      (do
        let rows ← MliftE st o.searchRows
        let valid := rows.filter (fun r => r.1 ∈ o.docIds)
        if valid ≠ [] then do
          let st2 := { st with
            ctx := joinSep "\n\n" (valid.map (fun r => "[" ++ r.2.1 ++ "]: " ++ r.2.2)),
            progress := "Context retrieved. Planning scenes..." }
          MsaveState o st2
          pure st2
        else do
          let st2 := { st with progress := "No matching context found. Using generic planning..." }
          MsaveState o st2
          pure st2)
      (fun e => pure e.2)
  else pure st

/-- The per-failed-scene Remotion fallback loop (router lines 254-282).
`i` is the fallback call counter, `k` the Remotion subprocess counter,
`remSaved` whether `output_dir/remotion` exists yet. Each iteration is
individually wrapped in `try/except`. -/
def fallbackLoop (o : Oracle) (st : St) (dir : String) (remProj : Bool) :
    List ((Nat × Scene) × String) → Nat → Nat → Bool →
      M (List (Nat × String) × Nat × Bool)
  | [], _, k, remSaved => pure ([], k, remSaved)
  | ((p, s), _err) :: rest, i, k, remSaved => do
    let (clips1, k1, remSaved1) ←
      Mcatch
        (do
          let resp ← MliftE st (o.fallbackResp i)
          let root := defaultRootTsx [s]
          let _comp := compTsxOfFallback resp
          let _ ← MliftE st (boolToExcept (o.fbWriteOk i) "failed to write remotion files")
          let ids := detectCompositionIds root
          let s2 := match ids with
            | id0 :: _ => { s with comp_id := id0 }
            | [] => s
          let (clips, evs, k') := renderRemotionScenes dir true remProj o.remotion [(p, s2)] k
          Memit evs
          Memit [Ev.engineSet p .REMOTION]
          pure (clips, k', true))
        (fun _ => pure ([], k, remSaved))
    let (clips2, k2, remSaved2) := (← fallbackLoop o st dir remProj rest (i + 1) k1 remSaved1)
    pure (clips1 ++ clips2, k2, remSaved2)

/-- Tail of the render stage: the `remotion_scenes` batch then the
"Rendered n/m clips" save. `chron` is the chronological list of
`rendered_clips` assignments so far, `k` the Remotion counter. -/
def renderDone (o : Oracle) (st : St) (gv : GenResult)
    (chron : List (Nat × String)) : M (St × List (Nat × String)) := do
  let st1 := { st with progress := ("Rendered " ++ Nat.repr (dictOf chron).length ++ "/" ++ Nat.repr gv.scenes.length ++ " clips") }
  MsaveState o st1
  pure (st1, chron)

def afterManim (o : Oracle) (st : St) (dir : String) (gv : GenResult)
    (remSaved : Bool) (chron : List (Nat × String)) (k : Nat) :
    M (St × List (Nat × String)) :=
  if gv.remotionScenes ≠ [] then do
    let st1 := { st with progress :=
      "Rendering " ++ Nat.repr gv.remotionScenes.length ++ " Remotion scenes..." }
    MsaveState o st1
    let (clips, evs, _) :=
      renderRemotionScenes dir remSaved o.remProjExists o.remotion gv.remotionScenes k
    Memit evs
    renderDone o st1 gv (chron ++ clips)
  else renderDone o st gv chron

/-- The render stage (router step 3). -/
def renderStage (o : Oracle) (st : St) (dir : String) (gv : GenResult)
    (remSaved : Bool) : M (St × List (Nat × String)) :=
  if gv.manimScenes ≠ [] then do
    let st1 := { st with progress :=
      "Rendering " ++ Nat.repr gv.manimScenes.length ++ " Manim scenes..." }
    MsaveState o st1
    match renderManimScenes dir (optTruthy gv.manimCode) o.manim gv.manimScenes with
    | .malformed fs =>
      if fs ≠ [] then do
        let st2 := { st1 with progress := (Nat.repr fs.length ++ " Manim scene(s) failed — falling back to Remotion...") }
        MsaveState o st2
        Mthrow st2 "too many values to unpack (expected 2)"
      else afterManim o st1 dir gv remSaved [] 0
    | .ok rd fl evs => do
      Memit evs
      if fl ≠ [] then do
        let st2 := { st1 with progress := (Nat.repr fl.length ++ " Manim scene(s) failed — falling back to Remotion...") }
        MsaveState o st2
        let (fbClips, k1, remSaved1) := (← fallbackLoop o st2 dir o.remProjExists fl 0 0 remSaved)
        afterManim o st2 dir gv remSaved1 (rd ++ fbClips) k1
      else afterManim o st1 dir gv remSaved rd 0
  else afterManim o st dir gv remSaved [] 0

/-- Tail of the narration stage: `narration_audio` keeps the generated
dict on success and stays `{}` when the stage raised (caught). -/
def ttsFinish (st1 : St) (z : Except Unit (List (Nat × String)) × List Ev) :
    M (St × List (Nat × String)) :=
  match z with
  | (.ok audio, evs) => do
    Memit evs
    pure (st1, audio)
  | (.error _, evs) => do
    Memit evs
    pure (st1, [])

/-- The narration stage (router step 4; exceptions swallowed). -/
def ttsStage (o : Oracle) (st : St) (dir : String) (gv : GenResult) :
    M (St × List (Nat × String)) :=
  let scripts := dictOf
    ((gv.scenes.filter (fun s => s.narration ≠ "")).map (fun s => (s.index, s.narration)))
  if scripts ≠ [] then do
    let st1 := { st with status := .tts,
                         progress := "Generating " ++ Nat.repr scripts.length ++ " narrations..." }
    MsaveState o st1
    ttsFinish st1 (generateSceneNarrations dir o.tts gv.scenes scripts)
  else pure (st, [])

/-- The job state written by the final `complete` save: `final_video` is
set only when the merge produced (and left on disk) a final artifact. -/
def completeSt (finalSize : String) (st1 : St) (chron : List (Nat × String))
    (mo : MergeOut) : St :=
  match mo.result with
  | some p => { st1 with status := .complete, finalVideo := some p,
                         progress := "Complete! Final video: " ++ finalSize ++ " MB" }
  | none => { st1 with status := .complete, progress :=
      "Complete with " ++ Nat.repr (dictOf chron).length ++ " clips (merge may have failed)" }

/-- The merge stage and the final `complete` save (router step 5). -/
def mergeStage (o : Oracle) (st : St) (dir : String) (gv : GenResult)
    (chron audioChron : List (Nat × String)) : M Unit := do
  let st1 := { st with status := .merging, progress := "Merging clips into final video..." }
  MsaveState o st1
  MsaveState o (completeSt o.finalSize st1 chron
    (mergeClips dir gv.scenes (dictOf chron) (dictOf audioChron) o.merge))

/-- Writing `scene.py`, done only when some Manim code was generated
(router: `if manim_code:` around the `scene.py` write). -/
def writeManimStep (o : Oracle) (sH : St) (gv : GenResult) : M Unit :=
  if optTruthy gv.manimCode then
    MliftE sH (boolToExcept o.writeManimOk "failed to write scene.py")
  else pure ()

/-- Writing the Remotion project files, done only when both `Root.tsx` and
the composition were generated; returns whether they were saved. -/
def writeRemotionStep (o : Oracle) (sH : St) (gv : GenResult) : M Bool :=
  if optTruthy gv.rootTsx ∧ optTruthy gv.compTsx then do
    let _ ← MliftE sH (boolToExcept o.writeRemotionOk "failed to write remotion files")
    pure true
  else pure false

/-- The body of the big `try:` in `_run_generation`. -/
def tryBody (o : Oracle) : M Unit := do
  let sA := st0 o
  let _ ← MliftE sA o.initOk
  let sB ← stageTopicFromDocs o sA
  let sC ← stageSummarize o sB
  let sD := { sC with status := .planning, progress := "Planning scenes with context..." }
  MsaveState o sD
  let sE ← stageContext o sD
  let gv ← MliftE sE (genVideoResult o)
  let sF := { sE with
    scenes := some (gv.scenes.map (fun s => (s.index, s.title, s.engine))),
    progress := "Planned " ++ Nat.repr gv.scenes.length ++ " scenes" }
  MsaveState o sF
  let sG := { sF with status := .generating, progress := "Saving generated code..." }
  let dir ← MliftE sG o.createDir
  let sH := { sG with outputDir := some dir }
  MsaveState o sH
  let _ ← MliftE sH (boolToExcept o.writePlanOk "failed to write scenes.md")
  let _ ← writeManimStep o sH gv
  let remSaved ← writeRemotionStep o sH gv
  let sI := { sH with status := .rendering, progress := "Rendering scene clips..." }
  MsaveState o sI
  let (sJ, chron) := (← renderStage o sI dir gv remSaved)
  let (sK, audio) := (← ttsStage o sJ dir gv)
  mergeStage o sK dir gv chron audio

/-- `router._run_generation`: the initial save (outside the `try:`), the
body, and the `except` handler that records the single `failed` snapshot.
Returns the persisted snapshot trace and the ghost event trace. -/
def runGeneration (o : Oracle) : List JobSnap × List Ev :=
  match MsaveState o (st0 o) 0 with
  | (.error _, t, ev, _) => (t, ev)
  | (.ok _, t0, e0, n0) =>
    match tryBody o n0 with
    | (.ok _, t, ev, _) => (t0 ++ t, e0 ++ ev)
    | (.error (msg, stx), t, ev, n) =>
      let stF := { stx with status := .failed, error := some msg,
                            progress := "Failed: " ++ msg }
      match MsaveState o stF n with
      | (_, t2, ev2, _) => (t0 ++ t ++ t2, e0 ++ ev ++ ev2)

/-! ## Derived observables used by the claims -/

/-- Number of render attempts recorded for the scene at position `p`. -/
def attemptCount (evs : List Ev) (p : Nat) : Nat :=
  (evs.filter (fun e => match e with
    | .attempt q _ => q = p
    | _ => false)).length

/-- The parsed scene list of a job (empty if generation raised). -/
def scenesOf (o : Oracle) : List Scene :=
  match genVideoResult o with
  | .ok gv => gv.scenes
  | .error _ => []

/-- The engine originally assigned (by parsing) to the scene at position `p`. -/
def originalEngine (o : Oracle) (p : Nat) : Option Engine :=
  ((scenesOf o).get? p).map (·.engine)

/-- The scene indices of the MANIM-tagged scenes, in list order. -/
def manimIdxList (o : Oracle) : List Nat :=
  (((enumScenes (scenesOf o)).filter (fun q => q.2.engine = .MANIM)).map (fun q => q.2.index))

/-- The persisted snapshot trace of a job. -/
def traceOf (o : Oracle) : List JobSnap := (runGeneration o).1

/-- The ghost event trace of a job. -/
def eventsOf (o : Oracle) : List Ev := (runGeneration o).2

/-! ## Concrete oracles for counterexamples and witnesses -/

/-- A fully "happy" environment; individual scenarios override fields. -/
def oracleBase : Oracle where
  save := fun _ => true
  topic := "T"
  docIds := []
  userId := none
  initOk := .ok ()
  docSummaries := .ok []
  summarizeResp := .ok ""
  searchRows := .ok []
  step1Resp := .ok "### Scene 1: A [MANIM]"
  step2Resp := .ok "code"
  step3Resp := .ok "```tsx\nC\n```"
  fallbackResp := fun _ => .ok "```tsx\nF\n```"
  fbWriteOk := fun _ => true
  createDir := .ok "out"
  writePlanOk := true
  writeManimOk := true
  writeRemotionOk := true
  manim := fun _ => .success
  remotion := fun _ => .success
  remProjExists := true
  tts := fun _ => .success
  merge := ⟨fun _ => true, true⟩
  finalSize := "1.0"

/-- A minimal generation result (no scenes at all), used to exercise the
merge stage with an empty rendered-clips mapping. -/
def c1gv : GenResult :=
  { scenePlan := "", scenes := [], manimScenes := [], remotionScenes := [],
    manimCode := none, rootTsx := none, compTsx := none }

/-- The final persisted snapshot of the `oracleBase` run. -/
def c4snap : JobSnap :=
  { status := .complete, topic := "T", progress := "Complete! Final video: 1.0 MB",
    scenes := some [(1, "A", .MANIM)], outputDir := some "out",
    finalVideo := some "out/final_video.mp4", error := none }

/-- Scenario for claim C1: one MANIM scene, its render fails, the Remotion
fallback generation also raises, so no clip is ever rendered. -/
def c1o : Oracle :=
  { oracleBase with manim := fun _ => .fail "boom",
                    fallbackResp := fun _ => .error "LLM unavailable" }

/-- Scenario for claim C2: the planning response contains no parsable
scene header at all. -/
def c2o : Oracle := { oracleBase with step1Resp := .ok "sorry, cannot help with that" }

/-- Scenario for claim C3: two MANIM scenes with descending indices; the
first fails normally, the second hits `FileNotFoundError`, which re-adds
the first to the failed list, giving it two Remotion fallback attempts. -/
def c3o : Oracle :=
  { oracleBase with
      step1Resp := .ok "### Scene 5: A [MANIM]\n### Scene 3: B [MANIM]",
      manim := fun k => if k = 0 then .fail "err1" else .notFound,
      remotion := fun _ => .success }

/-- Scenario for the amended claim C3: planning raises, so no scene ever
exists and the MANIM scene list is trivially sorted. -/
def c3w : Oracle := { oracleBase with step1Resp := .error "LLM unavailable" }

/-- Scenario for claim C5 (at the `render_manim_scenes` level): scenes with
descending indices and the toolchain missing from the first attempt on. -/
def c5scene (idx : Nat) : Scene :=
  { index := idx, title := "S", engine := .MANIM, description := "",
    narration := "", class_name := "Scene" ++ pad2 idx ++ "_S",
    comp_id := "Scene" ++ pad2 idx, comp_name := "Scene" ++ pad2 idx ++ "Comp" }

def c5scenes : List (Nat × Scene) := [(0, c5scene 2), (1, c5scene 1)]

def c5oracle : Nat → ManimOut := fun _ => .notFound

/-- Ascending variant for the amended claim C5 witness. -/
def c5scenesAsc : List (Nat × Scene) := [(0, c5scene 1), (1, c5scene 2), (2, c5scene 3)]

/-- Scenes and rendered dict for the merge-order claims C6/C7. -/
def c6scene (idx : Nat) : Scene :=
  { index := idx, title := "S", engine := .MANIM, description := "",
    narration := "", class_name := "Scene" ++ pad2 idx ++ "_S",
    comp_id := "Scene" ++ pad2 idx, comp_name := "Scene" ++ pad2 idx ++ "Comp" }

def c6scenes : List Scene := [c6scene 3, c6scene 1, c6scene 2]

def c6rendered : Dict := [(2, "clip2"), (1, "clip1"), (3, "clip3")]

/-- Scenario for the C8 witness: two scenes, one with empty narration, one
whose synthesis fails. -/
def c8scenes : List Scene :=
  [{ c6scene 1 with narration := "" }, { c6scene 2 with narration := "hello" }]

def c8scripts : Dict := [(2, "hello")]

/-- The scene parsed from the C9 witness plan. -/
def c9demoScene : Scene :=
  { index := 1, title := "Hi there!", engine := .MANIM,
    description := "", narration := "", class_name := "Scene01_Hithere",
    comp_id := "Scene01", comp_name := "Scene01Comp" }

/-! ## Auxiliary predicates over `M` computations -/

/-- The status sequence of a snapshot trace. -/
def statusesOf (t : List JobSnap) : List Status := t.map (fun s => s.status)

/-- Two `M` computations that persist the same status sequence, consume
the same number of `save_state` calls, and succeed/raise together, with
results related by `R`. -/
def MRel (R : α → β → Prop) (x : M α) (y : M β) : Prop :=
  ∀ n, statusesOf (x n).2.1 = statusesOf (y n).2.1 ∧
    (x n).2.2.2 = (y n).2.2.2 ∧
    ((∃ a b, (x n).1 = .ok a ∧ (y n).1 = .ok b ∧ R a b) ∨
     (∃ e1 e2, (x n).1 = .error e1 ∧ (y n).1 = .error e2))

/-- A computation that only persists non-terminal snapshots. -/
def EmitsNT (m : M α) : Prop :=
  ∀ n, ∀ s ∈ (m n).2.1, s.status ≠ Status.complete ∧ s.status ≠ Status.failed

/-- A computation whose trace contains a terminal status only as its very
last snapshot, and only when the computation succeeded. -/
def TermOk (m : M α) : Prop :=
  ∀ n i s, (m n).2.1.get? i = some s →
    (s.status = Status.complete ∨ s.status = Status.failed) →
    (i + 1 = (m n).2.1.length ∧ ∃ a, (m n).1 = .ok a)

/-- Postcondition on the success result of a computation. -/
def MPost (m : M α) (P : α → Prop) : Prop :=
  ∀ n a, (m n).1 = .ok a → P a

/-- Postcondition on the payload of a raised exception. -/
def MErr (m : M α) (Q : String × St → Prop) : Prop :=
  ∀ n e, (m n).1 = .error e → Q e

/-- On success, the snapshot trace is nonempty and ends with a `complete`
snapshot. -/
def EndsComplete (m : M α) : Prop :=
  ∀ n a, (m n).1 = .ok a →
    ∃ s, ((m n).2.1).getLast? = some s ∧ s.status = Status.complete

/-- A computation that never raises. -/
def MOk (m : M α) : Prop := ∀ n, ∃ a, (m n).1 = .ok a

/-- A computation that emits no ghost events. -/
def EvNil (m : M α) : Prop := ∀ n, (m n).2.2.1 = []

/-- Every ghost event emitted by the computation satisfies `P`. -/
def EvPred (m : M α) (P : Ev → Prop) : Prop := ∀ n, ∀ e ∈ (m n).2.2.1, P e

/-- The render-attempt events of the computation, per scene position, are
bounded by `k`. -/
def ACB (m : M α) (k : Nat → Nat) : Prop :=
  ∀ n p, attemptCount (m n).2.2.1 p ≤ k p

/-- The per-event invariant of claim C3: an engine reassignment is always
to `REMOTION` and always hits a scene originally parsed as `MANIM`, and a
`MANIM` render attempt only hits a scene originally parsed as `MANIM`. -/
def evOkC3 (o : Oracle) (e : Ev) : Prop :=
  (∀ p eng, e = Ev.engineSet p eng →
    eng = Engine.REMOTION ∧ originalEngine o p = some Engine.MANIM) ∧
  (∀ p, e = Ev.attempt p Engine.MANIM → originalEngine o p = some Engine.MANIM)

/-! # Theorems -/

theorem bind_def (x : M α) (f : α → M β) : x >>= f = Mbind x f := rfl

theorem pureM_def (a : α) : (pure a : M α) = Mpure a := rfl

theorem statusesOf_append (t1 t2 : List JobSnap) :
    statusesOf (t1 ++ t2) = statusesOf t1 ++ statusesOf t2 := List.map_append _ _ _

/-! ## Dictionary lemmas -/

theorem dlookup_isSome_iff (k : Nat) : ∀ d : Dict, dmem k d = true ↔ k ∈ dkeys d := by
  intro d
  induction d with
  | nil => simp [dmem, dlookup, dkeys]
  | cons p rest ih =>
    by_cases h : p.1 = k
    · simp [dmem, dlookup, dkeys, h]
    · simpa [dmem, dlookup, dkeys, h, Ne.symm h] using ih

theorem dkeys_dinsert (k : Nat) (v : String) (d : Dict) :
    dkeys (dinsert k v d) = if dmem k d then dkeys d else dkeys d ++ [k] := by
  unfold dinsert
  by_cases h : dmem k d
  · simp only [h, if_true]
    unfold dkeys
    rw [List.map_map]
    apply List.map_congr_left
    intro p _
    by_cases hp : p.1 = k
    · simp [hp]
    · simp [hp]
  · simp [h, dkeys]

theorem dkeys_dinsert_nodup (k : Nat) (v : String) (d : Dict)
    (h : (dkeys d).Nodup) : (dkeys (dinsert k v d)).Nodup := by
  rw [dkeys_dinsert]
  by_cases hm : dmem k d
  · simpa [hm]
  · have : k ∉ dkeys d := fun hk => hm (((dlookup_isSome_iff k d).2 hk))
    simp [hm, List.nodup_append, this, h]

theorem dictOf_aux_nodup : ∀ (l : List (Nat × String)) (d : Dict),
    (dkeys d).Nodup → (dkeys (l.foldl (fun d p => dinsert p.1 p.2 d) d)).Nodup := by
  intro l
  induction l with
  | nil => intro d h; simpa using h
  | cons p rest ih =>
    intro d h
    exact ih _ (dkeys_dinsert_nodup p.1 p.2 d h)

theorem dictOf_nodupKeys (l : List (Nat × String)) : (dkeys (dictOf l)).Nodup :=
  dictOf_aux_nodup l [] (by simp [dkeys])

theorem dlookup_perm {d d' : Dict} (hp : d.Perm d') (hn : (dkeys d).Nodup) (k : Nat) :
    dlookup k d = dlookup k d' := by
  induction hp with
  | nil => rfl
  | cons x p ih =>
    simp only [dlookup]
    by_cases h : x.1 = k
    · simp [h]
    · simp only [h, if_false]
      exact ih (by simpa [dkeys] using hn.of_cons)
  | swap x y l =>
    simp only [dlookup]
    by_cases hy : y.1 = k
    · by_cases hx : x.1 = k
      · exfalso
        have h2 : (y.1 :: x.1 :: dkeys l).Nodup := hn
        have hne : y.1 ≠ x.1 := by
          intro he
          exact (List.nodup_cons.1 h2).1 (by simp [he])
        exact hne (hy.trans hx.symm)
      · simp [hy, hx]
    · by_cases hx : x.1 = k <;> simp [hy, hx]
  | trans p1 p2 ih1 ih2 =>
    have hn2 : (dkeys _).Nodup := ((p1.map Prod.fst).nodup hn)
    exact (ih1 hn).trans (ih2 hn2)

/-! ## Sanity checks of the embedded string scanners (cross-checked against
the Python `re` behaviour of the source patterns). -/

example :
    (parseScenePlan "### Scene 007: Zero  pad [REMOTION]\n**Narration:** 'quoted'  \n- next").map
      (fun s => (s.index, s.title, s.narration, s.class_name)) =
    [(7, "Zero  pad", "** 'quoted", "Scene07_Zeropad")] := by decide

example :
    (parseScenePlan "### Scene 1: T [X] [MANIM] extra\nNarration: hi there\n  - b").map
      (fun s => (s.title, s.narration)) = [("T [X]", "hi there")] := by decide

/-! ## Claim C10 — parse order, verbatim indices, pass-through of
duplicate/non-sequential indices, one clip per index -/

theorem splitScenesAux_join : ∀ (l acc : List Char),
    (splitScenesAux l acc).foldr (· ++ ·) [] = acc.reverse ++ l := by
  intro l
  induction l with
  | nil => intro acc; simp [splitScenesAux]
  | cons c rest ih =>
    intro acc
    unfold splitScenesAux
    by_cases h : lookScene (c :: rest)
    · simp [h, ih]
    · simp [h, ih]

/-- Claim C10: `parse_scene_plan` emits scenes in the order their headers
appear in the input (the split blocks reassemble the input text in order,
and the scene list is exactly the per-block header matches in block
order); each scene's index is the digits of its own header, so duplicate
or non-sequential indices pass through unchanged (witnessed concretely by
the plan with headers numbered 2, 2, 1); and the rendered-clips dictionary
is keyed by scene index with unique keys, so two scenes sharing an index
can hold at most one clip. -/
theorem parse_order_passthrough :
    (∀ text : String, (splitScenes text.data).foldr (· ++ ·) [] = text.data) ∧
    (∀ text : String, parseScenePlan text = (splitScenes text.data).filterMap parseBlock) ∧
    ((parseScenePlan "### Scene 2: A [MANIM]\n### Scene 2: B [MANIM]\n### Scene 1: C [REMOTION]").map
        (fun s => s.index) = [2, 2, 1]) ∧
    (∀ l : List (Nat × String), (dkeys (dictOf l)).Nodup) := by
  refine ⟨fun text => ?_, fun text => rfl, by decide, dictOf_nodupKeys⟩
  simpa using splitScenesAux_join text.data []

/-! ## Claim C9 — sanitized identifiers -/

/-- Claim C9: every parsed scene's identifier is
`Scene<nn>_<sanitized title>` where the sanitized portion contains only
ASCII alphanumerics and is capped at 30 characters; parsing is a pure
function of the plan text, so identical inputs give identical scene
lists. -/
theorem identifier_sanitized :
    (∀ (text : String) (s : Scene), s ∈ parseScenePlan text →
      ∃ st : List Char,
        s.class_name = "Scene" ++ pad2 s.index ++ "_" ++ String.mk st ∧
        (∀ c ∈ st, c.isAlphanum) ∧ st.length ≤ 30) ∧
    (∀ t1 t2 : String, t1 = t2 → parseScenePlan t1 = parseScenePlan t2) := by
  constructor
  · intro text s hs
    rcases List.mem_filterMap.1 hs with ⟨block, _, hblock⟩
    unfold parseBlock at hblock
    rcases hh : searchHeader block with _ | ⟨idx, titleRaw, eng, rest⟩
    · rw [hh] at hblock; exact absurd hblock (by simp)
    · rw [hh] at hblock
      simp only [Option.some_inj] at hblock
      refine ⟨safeTitle (pyStrip titleRaw), ?_, ?_, ?_⟩
      · rw [← hblock]
      · intro c hc
        have hc' := (List.take_sublist 30 _).subset hc
        exact (List.mem_filter.1 hc').2
      · exact List.length_take_le 30 _
  · intro t1 t2 h
    rw [h]

/-! ## Claim C7 — single eligible clip without narration is copied
verbatim -/

/-- Claim C7: when exactly one clip is merge-eligible (the sorted-and-
filtered clip list is a singleton) and its scene index has no narration
audio, `merge_clips` takes the `shutil.copy2` branch: the final artifact
is that clip verbatim, with no normalization and no concat list. -/
theorem single_clip_verbatim (dir : String) (scenes : List Scene)
    (rendered narr : Dict) (o : MergeOracle) (i : Nat) (c : String)
    (h1 : orderedOf scenes rendered = [(i, c)])
    (h2 : dmem i narr = false) :
    mergeClips dir scenes rendered narr o =
      ⟨some (finalPath dir), [(i, c)], [], true⟩ := by
  have hne : ¬ (rendered = []) := by
    intro h
    subst h
    unfold orderedOf at h1
    rw [List.filterMap_eq_nil_iff.2 (fun s _ => by simp [dlookup])] at h1
    exact absurd h1 (by simp)
  unfold mergeClips
  rw [if_neg hne]
  simp only [h1]
  norm_num [h2, List.headI]

/-- Witness for `single_clip_verbatim` at a concrete input. -/
theorem single_clip_verbatim_witness :
    mergeClips "d" [c6scene 4] [(4, "clip4")] [] ⟨fun _ => true, true⟩ =
      ⟨some (finalPath "d"), [(4, "clip4")], [], true⟩ :=
  single_clip_verbatim "d" [c6scene 4] [(4, "clip4")] [] ⟨fun _ => true, true⟩ 4 "clip4"
    (by decide) (by decide)

/-! ## Claim C6 — merge order is ascending in scene index and independent
of the rendered-clips entry order -/

theorem orderedOf_fst_sorted (scenes : List Scene) (rendered : Dict) :
    ((orderedOf scenes rendered).map Prod.fst).Sorted (· ≤ ·) := by
  have hs : (sortScenes scenes).Sorted sceneLE := List.sorted_insertionSort sceneLE scenes
  unfold orderedOf
  rw [List.map_filterMap]
  show List.Pairwise _ _
  rw [List.pairwise_filterMap]
  refine hs.imp ?_
  intro a b hab x hx y hy
  simp only [Option.map_map, Option.mem_def, Option.map_eq_some'] at hx hy
  rcases hx with ⟨_, _, rfl⟩
  rcases hy with ⟨_, _, rfl⟩
  exact hab

theorem enum_filter_fst_sorted {l : List (Nat × String)}
    (h : (l.map Prod.fst).Sorted (· ≤ ·)) (p : Nat × (Nat × String) → Bool)
    (g : Nat × (Nat × String) → String) :
    (((l.enum.filter p).map (fun q => (q.2.1, g q))).map Prod.fst).Sorted (· ≤ ·) := by
  have h1 : List.Sublist ((l.enum.filter p).map (fun q => q.2)) l := by
    have := (List.filter_sublist (l := l.enum) (p := p)).map (fun q => q.2)
    rwa [List.enum_map_snd] at this
  have h2 : List.Sublist (((l.enum.filter p).map (fun q => q.2)).map Prod.fst)
      (l.map Prod.fst) := h1.map _
  have h3 : List.Pairwise (· ≤ ·) (((l.enum.filter p).map (fun q => q.2)).map Prod.fst) :=
    List.Pairwise.sublist h2 h
  rw [List.map_map] at h3 ⊢
  exact h3

/-- Claim C6: in every branch of `merge_clips`, both the eligible-clip
sequence and the normalized sequence written to `concat.txt` are in
ascending scene-index order, and the whole result is invariant under
permuting the entries of the rendered-clips mapping. -/
theorem merge_order_ascending (dir : String) (scenes : List Scene)
    (rendered narr : Dict) (o : MergeOracle) :
    (((mergeClips dir scenes rendered narr o).ordered.map Prod.fst).Sorted (· ≤ ·)) ∧
    (((mergeClips dir scenes rendered narr o).concatList.map Prod.fst).Sorted (· ≤ ·)) ∧
    (∀ rendered' : Dict, (dkeys rendered).Nodup → rendered.Perm rendered' →
      mergeClips dir scenes rendered narr o = mergeClips dir scenes rendered' narr o) := by
  have hord := orderedOf_fst_sorted scenes rendered
  have hcat := enum_filter_fst_sorted hord (fun q => o.norm q.1)
    (fun q => normPath dir q.1)
  have hshape :
      ((mergeClips dir scenes rendered narr o).ordered = [] ∨
        (mergeClips dir scenes rendered narr o).ordered = orderedOf scenes rendered) ∧
      ((mergeClips dir scenes rendered narr o).concatList = [] ∨
        (mergeClips dir scenes rendered narr o).concatList =
          ((orderedOf scenes rendered).enum.filter (fun q => o.norm q.1)).map
            (fun q => (q.2.1, normPath dir q.1))) := by
    simp only [mergeClips]
    split_ifs <;> simp
  refine ⟨?_, ?_, ?_⟩
  · rcases hshape.1 with h | h <;> rw [h]
    · simp
    · exact hord
  · rcases hshape.2 with h | h <;> rw [h]
    · simp
    · exact hcat
  · intro rendered' hn hp
    have hl : ∀ k, dlookup k rendered = dlookup k rendered' := dlookup_perm hp hn
    have hordeq : orderedOf scenes rendered = orderedOf scenes rendered' := by
      unfold orderedOf
      apply List.filterMap_congr
      intro s _
      rw [hl]
    have hnil : (rendered = []) ↔ (rendered' = []) := by
      constructor <;> intro h
      · exact List.Perm.eq_nil (h ▸ hp.symm)
      · exact List.Perm.eq_nil (h ▸ hp)
    unfold mergeClips
    by_cases h0 : rendered = []
    · rw [if_pos h0, if_pos (hnil.1 h0)]
    · rw [if_neg h0, if_neg (fun h => h0 (hnil.2 h)), hordeq]

/-- Witness for `merge_order_ascending` at a concrete input: three scenes
listed out of order, rendered-clips entries in yet another order. -/
theorem merge_order_ascending_witness :
    (((mergeClips "d" c6scenes c6rendered [] ⟨fun _ => true, true⟩).ordered.map
        Prod.fst).Sorted (· ≤ ·)) ∧
    (dkeys c6rendered).Nodup ∧
    c6rendered.Perm [(1, "clip1"), (2, "clip2"), (3, "clip3")] ∧
    mergeClips "d" c6scenes c6rendered [] ⟨fun _ => true, true⟩ =
      mergeClips "d" c6scenes [(1, "clip1"), (2, "clip2"), (3, "clip3")] []
        ⟨fun _ => true, true⟩ := by
  refine ⟨(merge_order_ascending "d" c6scenes c6rendered [] ⟨fun _ => true, true⟩).1,
    by decide, by decide, ?_⟩
  exact (merge_order_ascending "d" c6scenes c6rendered [] ⟨fun _ => true, true⟩).2.2
    [(1, "clip1"), (2, "clip2"), (3, "clip3")] (by decide) (by decide)

/-! ## Claim C1 — counterexample: a job whose every render fails still
completes -/

/-- Counterexample to claim C1 as stated: in the concrete job `c1o` the
single scene's Manim render fails and the Remotion fallback generation
raises, so the rendered-clip set is empty when the merge stage is reached
(one render attempt total, `Rendered 0/1`); yet the job's final persisted
status is `complete` with `error = None` and `final_video = None` — it is
never `failed`, and no `NoRenderableScenes` error kind exists anywhere in
the code. -/
theorem allRendersFail_completes_cex :
    (scenesOf c1o).length = 1 ∧
    attemptCount (eventsOf c1o) 0 = 1 ∧
    ((traceOf c1o).map (fun s => s.progress)).contains "Rendered 0/1 clips" = true ∧
    (traceOf c1o).getLast?.map (fun s => (s.status, s.error, s.finalVideo)) =
      some (Status.complete, none, none) ∧
    (∀ s ∈ traceOf c1o, s.status ≠ Status.failed) := by decide

/-! ## Claim C2 — counterexample: zero parsed scenes, no fallback, job
completes -/

/-- Counterexample to claim C2 as stated: the planning response of `c2o`
parses to zero scenes; the orchestrator applies no heuristic fallback (the
scene list stays empty) and the job does not fail with `PlanningFailed` —
it runs through every stage and ends `complete` with `scenes = []` and
`error = None`. -/
theorem zeroScenes_completes_cex :
    parseScenePlan (scenePlanOf "no scene plan available") = [] ∧
    (traceOf c2o).getLast?.map (fun s => (s.status, s.scenes, s.error)) =
      some (Status.complete, some [], none) ∧
    (∀ s ∈ traceOf c2o, s.status ≠ Status.failed) := by decide

/-! ## Claim C3 — counterexample: a scene can get three render attempts -/

/-- Counterexample to claim C3 as stated: in `c3o` the MANIM scenes carry
descending indices (5 then 3). Scene position 0 (index 5) fails its Manim
render; scene position 1 (index 3) hits `FileNotFoundError`, whose handler
re-adds every scene with index `> 3` — including the already-attempted
position 0 — to the failed list. Position 0 therefore gets two Remotion
fallback attempts on top of its Manim attempt: three render attempts. -/
theorem attempts_can_exceed_two_cex :
    originalEngine c3o 0 = some Engine.MANIM ∧
    attemptCount (eventsOf c3o) 0 = 3 := by decide

/-! ## Claim C5 — counterexample: "remaining" scenes are selected by index
comparison, not by position -/

/-- Counterexample to claim C5 as stated: `c5scenes` lists scene index 2
first and scene index 1 second. The very first Manim attempt raises
`FileNotFoundError`; the not-yet-attempted second scene (index 1) should,
per the claim, be marked failed with the same diagnostic, but the code
marks only scenes with *strictly larger index* — the failed list contains
only position 0, and position 1 is neither attempted nor marked. -/
theorem toolchain_missing_marks_by_index_cex :
    renderManimScenes "out" true c5oracle c5scenes =
      .ok [] [((0, c5scene 2), manimNotFoundMsg)] [.attempt 0 .MANIM] := by decide

/-- Witness for `identifier_sanitized` at a concrete plan text. -/
theorem identifier_sanitized_witness :
    ∃ st : List Char,
      c9demoScene.class_name = "Scene" ++ pad2 c9demoScene.index ++ "_" ++ String.mk st ∧
      (∀ c ∈ st, c.isAlphanum) ∧ st.length ≤ 30 :=
  identifier_sanitized.1 "### Scene 1: Hi there! [MANIM]" c9demoScene (by decide)

/-! ## Claim C5 (amended) — with strictly increasing indices, a missing
toolchain marks the current and all remaining scenes with one diagnostic
and attempts no further subprocess -/

theorem rmAux_notFound_spec (dir : String) (full : List (Nat × Scene))
    (o : Nat → ManimOut) :
    ∀ (pending : List (Nat × Scene)) (j d : Nat) (hd : d < pending.length),
      o (j + d) = .notFound →
      (∀ m, m < d → o (j + m) ≠ .notFound) →
      ((pending.get ⟨d, hd⟩, manimNotFoundMsg) ∈ (rmAux dir full o pending j).2.1) ∧
      (∀ q ∈ full.filter (fun q => (pending.get ⟨d, hd⟩).2.index < q.2.index),
         (q, manimNotFoundMsg) ∈ (rmAux dir full o pending j).2.1) ∧
      (∀ p e, Ev.attempt p e ∈ (rmAux dir full o pending j).2.2 →
         p ∈ (pending.take (d + 1)).map (fun q => q.1)) := by
  intro pending
  induction pending with
  | nil => intro j d hd; exact absurd hd (by simp)
  | cons q rest ih =>
    intro j d hd hnf hbef
    match d with
    | 0 =>
      simp only [Nat.add_zero] at hnf
      obtain ⟨p, s⟩ := q
      simp only [rmAux, hnf]
      refine ⟨by simp, ?_, ?_⟩
      · intro x hx
        exact List.mem_cons_of_mem _ (List.mem_map_of_mem _ hx)
      · intro pp e he
        simp only [List.mem_singleton] at he
        cases he
        simp
    | d' + 1 =>
      have hne0 : o j ≠ .notFound := by
        have := hbef 0 (Nat.succ_pos d')
        simpa using this
      have hd' : d' < rest.length := Nat.lt_of_succ_lt_succ hd
      have hnf' : o ((j + 1) + d') = .notFound := by
        rw [show (j + 1) + d' = j + (d' + 1) by omega]
        exact hnf
      have hbef' : ∀ m, m < d' → o ((j + 1) + m) ≠ .notFound := by
        intro m hm
        rw [show (j + 1) + m = j + (m + 1) by omega]
        exact hbef (m + 1) (by omega)
      obtain ⟨p, s⟩ := q
      have hget : ((p, s) :: rest).get ⟨d' + 1, hd⟩ = rest.get ⟨d', hd'⟩ := rfl
      rw [hget]
      rcases h3 : rmAux dir full o rest (j + 1) with ⟨rd, fl, es⟩
      have IH := ih (j + 1) d' hd' hnf' hbef'
      rw [h3] at IH
      have IH1 := IH.1
      have IH2 := IH.2.1
      have IH3 := IH.2.2
      -- the current scene's outcome is not `notFound`; every other outcome
      -- recurses, extending the failed list by at most one entry and the
      -- event list by exactly one attempt for the current scene
      rcases houtcome : o j with _ | _ | err | _ | _
      all_goals first
      | (exact absurd houtcome hne0)
      | (simp only [rmAux, houtcome, h3]
         refine ⟨?_, ?_, ?_⟩
         · first
           | exact IH1
           | exact List.mem_cons_of_mem _ IH1
         · intro x hx
           first
           | exact IH2 x hx
           | exact List.mem_cons_of_mem _ (IH2 x hx)
         · intro pp e he
           simp only [List.mem_cons] at he
           rcases he with h | h
           · cases h
             simp
           · have := IH3 pp e h
             simp only [List.take_succ_cons, List.map_cons, List.mem_cons]
             right
             exact this)

/-- Amended claim C5: if the MANIM scene list has strictly increasing
indices and the `k`-th subprocess invocation raises `FileNotFoundError`
(no earlier one did), then the `k`-th scene and every remaining
not-yet-attempted scene are all marked failed with the same diagnostic
"Manim not installed or not on PATH", and no render subprocess is
attempted for any scene after the `k`-th (the loop breaks). -/
theorem toolchain_missing_short_circuit (dir : String) (o : Nat → ManimOut)
    (ms : List (Nat × Scene)) (k : Nat)
    (hasc : (ms.map (fun q => q.2.index)).Pairwise (· < ·))
    (hk : k < ms.length) (hnf : o k = .notFound)
    (hbef : ∀ m, m < k → o m ≠ .notFound) :
    (renderManimScenes dir true o ms =
      .ok (rmAux dir ms o ms 0).1 (rmAux dir ms o ms 0).2.1 (rmAux dir ms o ms 0).2.2) ∧
    (∀ q ∈ ms.drop k, (q, manimNotFoundMsg) ∈ (rmAux dir ms o ms 0).2.1) ∧
    (∀ p e, Ev.attempt p e ∈ (rmAux dir ms o ms 0).2.2 →
      p ∈ (ms.take (k + 1)).map (fun q => q.1)) := by
  have hspec := rmAux_notFound_spec dir ms o ms 0 k hk (by simpa using hnf)
    (by intro m hm; simpa using hbef m hm)
  refine ⟨?_, ?_, hspec.2.2⟩
  · simp only [renderManimScenes, if_true]
  · intro q hq
    rcases List.mem_drop_iff_getElem.1 hq with ⟨i, hi, hqi⟩
    match i with
    | 0 =>
      have hq0 : ms.get ⟨k, hk⟩ = q := by
        rw [← hqi]
        simp [List.get_eq_getElem]
      exact hq0 ▸ hspec.1
    | i' + 1 =>
      apply hspec.2.1
      rw [List.mem_filter]
      constructor
      · rw [← hqi]
        exact List.getElem_mem _
      · have hlt : (ms.get ⟨k, hk⟩).2.index < q.2.index := by
          have hpw := (List.pairwise_map.1 hasc)
          have h2 := List.pairwise_iff_get.1 hpw ⟨k, hk⟩ ⟨k + (i' + 1), by omega⟩
            (by simp only [Fin.mk_lt_mk]; omega)
          rw [← hqi]
          simpa [List.get_eq_getElem] using h2
        simpa using hlt

/-- Witness for `toolchain_missing_short_circuit`: three ascending scenes,
toolchain missing from the first attempt on. -/
theorem toolchain_missing_short_circuit_witness :
    (∀ q ∈ c5scenesAsc, (q, manimNotFoundMsg) ∈
        (rmAux "out" c5scenesAsc c5oracle c5scenesAsc 0).2.1) ∧
    (∀ p e, Ev.attempt p e ∈ (rmAux "out" c5scenesAsc c5oracle c5scenesAsc 0).2.2 →
      p ∈ (c5scenesAsc.take 1).map (fun q => q.1)) := by
  have h := toolchain_missing_short_circuit "out" c5oracle c5scenesAsc 0
    (by decide) (by decide) (by decide) (fun m hm => absurd hm (by omega))
  exact ⟨by simpa using h.2.1, h.2.2⟩

/-! ## Claim C8 — narration synthesis is skipped for empty scripts and is
never fatal -/

theorem gsnAux_skip (dir : String) (o : Nat → TtsOut) (scripts : Dict) :
    ∀ (scenes : List Scene) (j idx : Nat),
      (dlookup idx scripts).getD "" = "" →
      (Ev.ttsAttempt idx ∉ (gsnAux dir o scripts scenes j).2) ∧
      (∀ l, (gsnAux dir o scripts scenes j).1 = .ok l → ∀ c, (idx, c) ∉ l) := by
  intro scenes
  induction scenes with
  | nil =>
    intro j idx h
    refine ⟨by simp [gsnAux], ?_⟩
    intro l hl c
    simp only [gsnAux, Except.ok.injEq] at hl
    rw [← hl]
    simp
  | cons s rest ih =>
    intro j idx h
    by_cases hs : (dlookup s.index scripts).getD "" = ""
    · simp only [gsnAux, hs, if_true]
      exact ih j idx h
    · have hne : idx ≠ s.index := fun he => hs (he ▸ h)
      simp only [gsnAux, hs, if_false]
      rcases ho : o j with _ | _ | _
      · rcases hrec : gsnAux dir o scripts rest (j + 1) with ⟨r, es⟩
        have IH := ih (j + 1) idx h
        rw [hrec] at IH
        rcases r with u | l0
        · simp only []
          refine ⟨?_, ?_⟩
          · intro hmem
            rcases List.mem_cons.1 hmem with hh | hh
            · exact hne (by injection hh)
            · exact IH.1 hh
          · intro l hl c
            exact absurd hl (by simp)
        · simp only []
          refine ⟨?_, ?_⟩
          · intro hmem
            rcases List.mem_cons.1 hmem with hh | hh
            · exact hne (by injection hh)
            · exact IH.1 hh
          · intro l hl c hmem
            simp only [Except.ok.injEq] at hl
            rw [← hl] at hmem
            rcases List.mem_cons.1 hmem with hh | hh
            · exact hne (by injection hh)
            · exact IH.2 l0 rfl c hh
      · rcases hrec : gsnAux dir o scripts rest (j + 1) with ⟨r, es⟩
        have IH := ih (j + 1) idx h
        rw [hrec] at IH
        simp only []
        refine ⟨?_, ?_⟩
        · intro hmem
          rcases List.mem_cons.1 hmem with hh | hh
          · exact hne (by injection hh)
          · exact IH.1 hh
        · intro l hl c
          exact IH.2 l hl c
      · simp only []
        refine ⟨?_, ?_⟩
        · intro hmem
          rcases List.mem_cons.1 hmem with hh | hh
          · exact hne (by injection hh)
          · simp at hh
        · intro l hl c
          exact absurd hl (by simp)

theorem gsnAux_success (dir : String) (o : Nat → TtsOut) (scripts : Dict) :
    ∀ (scenes : List Scene) (j : Nat) (l : List (Nat × String)) (idx : Nat) (c : String),
      (gsnAux dir o scripts scenes j).1 = .ok l → (idx, c) ∈ l →
      c = audioPath dir idx ∧
      ∃ m, (gsnAux dir o scripts scenes j).2.get? m = some (Ev.ttsAttempt idx) ∧
        o (j + m) = .success := by
  intro scenes
  induction scenes with
  | nil =>
    intro j l idx c hl hmem
    simp only [gsnAux, Except.ok.injEq] at hl
    rw [← hl] at hmem
    simp at hmem
  | cons s rest ih =>
    intro j l idx c hl hmem
    by_cases hs : (dlookup s.index scripts).getD "" = ""
    · simp only [gsnAux, hs, if_true] at hl ⊢
      exact ih j l idx c hl hmem
    · simp only [gsnAux, hs, if_false] at hl ⊢
      rcases hrec : gsnAux dir o scripts rest (j + 1) with ⟨r, es⟩
      rw [hrec] at hl
      rcases ho : o j with _ | _ | _
      · rw [ho] at hl
        dsimp only at hl ⊢
        rcases r with u | l0
        · exact absurd hl (by simp)
        · dsimp only at hl ⊢
          simp only [Except.ok.injEq] at hl
          rw [← hl] at hmem
          rcases List.mem_cons.1 hmem with hh | hh
          · rw [Prod.mk.injEq] at hh
            obtain ⟨h1, h2⟩ := hh
            subst h1
            refine ⟨h2, 0, by simp, by simpa using ho⟩
          · have IH := ih (j + 1) l0 idx c (by rw [hrec]) hh
            rcases IH with ⟨hc, m, hev, hsucc⟩
            rw [hrec] at hev
            refine ⟨hc, m + 1, by simpa using hev, ?_⟩
            rw [show j + (m + 1) = (j + 1) + m by omega]
            exact hsucc
      · rw [ho] at hl
        dsimp only at hl ⊢
        have IH := ih (j + 1) l idx c (by rw [hrec]; exact hl) hmem
        rcases IH with ⟨hc, m, hev, hsucc⟩
        rw [hrec] at hev
        refine ⟨hc, m + 1, by simpa using hev, ?_⟩
        rw [show j + (m + 1) = (j + 1) + m by omega]
        exact hsucc
      · rw [ho] at hl
        dsimp only at hl
        exact absurd hl (by simp)

/-! ### Status-trace invariance under the narration oracle -/

theorem MRel_of_eq {x y : M α} (h : x = y) (R : α → α → Prop) (hR : ∀ a, R a a) :
    MRel R x y := by
  subst h
  intro n
  refine ⟨rfl, rfl, ?_⟩
  rcases hx : (x n).1 with e | a
  · exact Or.inr ⟨e, e, rfl, rfl⟩
  · exact Or.inl ⟨a, a, rfl, rfl, hR a⟩

theorem MRel_bind {R : α → α' → Prop} {S : β → β' → Prop}
    {x : M α} {y : M α'} {f : α → M β} {g : α' → M β'}
    (hxy : MRel R x y) (hfg : ∀ a b, R a b → MRel S (f a) (g b)) :
    MRel S (Mbind x f) (Mbind y g) := by
  intro n
  obtain ⟨ht, hn, hres⟩ := hxy n
  rcases hx4 : x n with ⟨r1, t1, ev1, n1⟩
  rcases hy4 : y n with ⟨r2, t2, ev2, n2⟩
  rw [hx4, hy4] at ht hn hres
  dsimp only at ht hn hres
  subst hn
  show statusesOf (Mbind x f n).2.1 = _ ∧ _ ∧ _
  unfold Mbind
  rw [hx4, hy4]
  rcases hres with ⟨a, b, ha, hb, hab⟩ | ⟨e1, e2, he1, he2⟩
  · subst ha
    subst hb
    dsimp only
    obtain ⟨ht2, hn2, hres2⟩ := hfg a b hab n1
    rcases hf4 : f a n1 with ⟨rf, tf, evf, nf⟩
    rcases hg4 : g b n1 with ⟨rg, tg, evg, ng⟩
    simp only [hf4, hg4] at ht2 hn2 hres2
    dsimp only at ht2 hn2 hres2 ⊢
    subst hn2
    exact ⟨by rw [statusesOf_append, statusesOf_append, ht, ht2], rfl, hres2⟩
  · subst he1
    subst he2
    dsimp only
    exact ⟨ht, rfl, Or.inr ⟨e1, e2, rfl, rfl⟩⟩

theorem MRel_MsaveState (o : Oracle) {st2 st2' : St} (h : st2.status = st2'.status) :
    MRel (fun _ _ => True) (MsaveState o st2) (MsaveState o st2') := by
  intro n
  unfold MsaveState
  split_ifs with hsv
  · exact ⟨by simp [statusesOf, snapOf, h], rfl, Or.inl ⟨(), (), rfl, rfl, trivial⟩⟩
  · exact ⟨rfl, rfl, Or.inr ⟨_, _, rfl, rfl⟩⟩

theorem MRel_ttsFinish (st1 : St) (z z' : Except Unit (List (Nat × String)) × List Ev) :
    MRel (fun r1 r2 => r1.1 = r2.1) (ttsFinish st1 z) (ttsFinish st1 z') := by
  rcases z with ⟨r, ev⟩
  rcases z' with ⟨r', ev'⟩
  rcases r with u | a <;> rcases r' with u' | a' <;>
    exact fun n => ⟨rfl, rfl, Or.inl ⟨_, _, rfl, rfl, rfl⟩⟩

theorem MRel_ttsStage (o : Oracle) (t t' : Nat → TtsOut) (st : St) (dir : String)
    (gv : GenResult) :
    MRel (fun r1 r2 => r1.1 = r2.1)
      (ttsStage { o with tts := t } st dir gv) (ttsStage { o with tts := t' } st dir gv) := by
  unfold ttsStage
  simp only [bind_def]
  split_ifs with hscr
  · refine MRel_bind (MRel_of_eq rfl Eq (fun _ => rfl)) ?_
    rintro _ _ rfl
    exact MRel_ttsFinish _ _ _
  · exact MRel_of_eq rfl _ (fun _ => rfl)

theorem completeSt_status (fs : String) (st1 : St) (chron : List (Nat × String))
    (mo : MergeOut) : (completeSt fs st1 chron mo).status = Status.complete := by
  unfold completeSt
  rcases mo.result with _ | p <;> rfl

theorem MRel_mergeStage (o : Oracle) (st : St) (dir : String) (gv : GenResult)
    (chron a a' : List (Nat × String)) :
    MRel (fun _ _ => True)
      (mergeStage o st dir gv chron a) (mergeStage o st dir gv chron a') := by
  unfold mergeStage
  simp only [bind_def]
  refine MRel_bind (MRel_of_eq rfl Eq (fun _ => rfl)) ?_
  rintro _ _ rfl
  apply MRel_MsaveState
  rw [completeSt_status, completeSt_status]

theorem fallbackLoop_ttsEq (o : Oracle) (t t' : Nat → TtsOut) :
    ∀ (st : St) (dir : String) (rp : Bool) (l : List ((Nat × Scene) × String))
      (i k : Nat) (rs : Bool),
      fallbackLoop { o with tts := t } st dir rp l i k rs =
        fallbackLoop { o with tts := t' } st dir rp l i k rs
  | _, _, _, [], _, _, _ => rfl
  | st, dir, rp, ((p, s), err) :: rest, i, k, rs => by
    have ih := fallbackLoop_ttsEq o t t' st dir rp rest
    unfold fallbackLoop
    simp only [ih]

theorem renderStage_ttsEq (o : Oracle) (t t' : Nat → TtsOut) (st : St) (dir : String)
    (gv : GenResult) (rs : Bool) :
    renderStage { o with tts := t } st dir gv rs =
      renderStage { o with tts := t' } st dir gv rs := by
  unfold renderStage
  simp only [fallbackLoop_ttsEq o t t']
  rfl

theorem MRel_tryBody (o : Oracle) (t t' : Nat → TtsOut) :
    MRel (fun _ _ => True) (tryBody { o with tts := t }) (tryBody { o with tts := t' }) := by
  unfold tryBody
  simp only [bind_def]
  refine MRel_bind (MRel_of_eq rfl Eq (fun _ => rfl)) ?_
  rintro a _ rfl
  refine MRel_bind (MRel_of_eq rfl Eq (fun _ => rfl)) ?_
  rintro sB _ rfl
  refine MRel_bind (MRel_of_eq rfl Eq (fun _ => rfl)) ?_
  rintro sC _ rfl
  refine MRel_bind (MRel_of_eq rfl Eq (fun _ => rfl)) ?_
  rintro u _ rfl
  refine MRel_bind (MRel_of_eq rfl Eq (fun _ => rfl)) ?_
  rintro sE _ rfl
  refine MRel_bind (MRel_of_eq rfl Eq (fun _ => rfl)) ?_
  rintro gv _ rfl
  refine MRel_bind (MRel_of_eq rfl Eq (fun _ => rfl)) ?_
  rintro u2 _ rfl
  refine MRel_bind (MRel_of_eq rfl Eq (fun _ => rfl)) ?_
  rintro dir _ rfl
  refine MRel_bind (MRel_of_eq rfl Eq (fun _ => rfl)) ?_
  rintro u3 _ rfl
  refine MRel_bind (MRel_of_eq rfl Eq (fun _ => rfl)) ?_
  rintro u4 _ rfl
  refine MRel_bind (MRel_of_eq rfl Eq (fun _ => rfl)) ?_
  rintro u5 _ rfl
  refine MRel_bind (MRel_of_eq rfl Eq (fun _ => rfl)) ?_
  rintro remSaved _ rfl
  refine MRel_bind (MRel_of_eq rfl Eq (fun _ => rfl)) ?_
  rintro u6 _ rfl
  refine MRel_bind
    (MRel_of_eq (renderStage_ttsEq o t t' _ dir gv remSaved) Eq (fun _ => rfl)) ?_
  rintro rj _ rfl
  rcases rj with ⟨sJ, chron⟩
  refine MRel_bind (MRel_ttsStage o t t' sJ dir gv) ?_
  rintro ⟨sK, audio1⟩ ⟨sK2, audio2⟩ hK
  have hKs : sK = sK2 := hK
  subst hKs
  exact MRel_mergeStage _ sK dir gv chron audio1 audio2

theorem tts_oracle_status_invariant (o : Oracle) (t t' : Nat → TtsOut) :
    statusesOf (runGeneration { o with tts := t }).1 =
      statusesOf (runGeneration { o with tts := t' }).1 := by
  have hbody := MRel_tryBody o t t'
  unfold runGeneration
  rw [show MsaveState { o with tts := t' } (st0 { o with tts := t' }) 0 =
      MsaveState { o with tts := t } (st0 { o with tts := t }) 0 from rfl]
  rcases hs0 : MsaveState { o with tts := t } (st0 { o with tts := t }) 0 with ⟨r0, t0, e0, n0⟩
  rcases r0 with e | a
  · rfl
  · obtain ⟨ht, hn, hres⟩ := hbody n0
    rcases h1 : tryBody { o with tts := t } n0 with ⟨r1, tr1, ev1, n1⟩
    rcases h2 : tryBody { o with tts := t' } n0 with ⟨r2, tr2, ev2, n2⟩
    rw [h1, h2] at ht hn hres
    simp only [] at ht hn hres
    subst hn
    rcases hres with ⟨a1, b1, ha1, hb1, _⟩ | ⟨e1, e2, he1, he2⟩
    · subst ha1
      subst hb1
      simp only [h1, h2, statusesOf_append, ht]
    · subst he1
      subst he2
      rcases e1 with ⟨msg1, stx1⟩
      rcases e2 with ⟨msg2, stx2⟩
      simp only [h1, h2, MsaveState,
        show ({ o with tts := t } : Oracle).save = o.save from rfl,
        show ({ o with tts := t' } : Oracle).save = o.save from rfl]
      by_cases hsv : o.save n1
      · simp [hsv, statusesOf_append, ht, statusesOf, snapOf]
        exact ht
      · simp [hsv, statusesOf_append, ht, statusesOf]
        exact ht

/-- Claim C8: (i) a scene index whose narration script is empty or absent
is never attempted and never receives an audio artifact; (ii) an audio
artifact exists for an index only if some synthesis attempt for that index
succeeded (failures — engine error, missing or zero-byte output — yield no
artifact); (iii) the persisted status sequence of the whole job is
invariant under the narration oracle: no synthesis outcome (including a
raised exception) can make the job end `failed`. -/
theorem narration_nonfatal :
    (∀ (dir : String) (o : Nat → TtsOut) (scenes : List Scene) (scripts : Dict) (idx : Nat),
      (dlookup idx scripts).getD "" = "" →
      (Ev.ttsAttempt idx ∉ (generateSceneNarrations dir o scenes scripts).2) ∧
      (∀ l, (generateSceneNarrations dir o scenes scripts).1 = .ok l →
        ∀ c, (idx, c) ∉ l)) ∧
    (∀ (dir : String) (o : Nat → TtsOut) (scenes : List Scene) (scripts : Dict)
        (l : List (Nat × String)) (idx : Nat) (c : String),
      (generateSceneNarrations dir o scenes scripts).1 = .ok l → (idx, c) ∈ l →
      c = audioPath dir idx ∧
      ∃ m, (generateSceneNarrations dir o scenes scripts).2.get? m =
          some (Ev.ttsAttempt idx) ∧ o m = .success) ∧
    (∀ (o : Oracle) (t t' : Nat → TtsOut),
      statusesOf (runGeneration { o with tts := t }).1 =
        statusesOf (runGeneration { o with tts := t' }).1) := by
  refine ⟨?_, ?_, tts_oracle_status_invariant⟩
  · intro dir o scenes scripts idx h
    exact gsnAux_skip dir o scripts scenes 0 idx h
  · intro dir o scenes scripts l idx c hl hmem
    have h := gsnAux_success dir o scripts scenes 0 l idx c hl hmem
    rcases h with ⟨hc, m, hev, hsucc⟩
    exact ⟨hc, m, hev, by simpa using hsucc⟩

/-- Witness for `narration_nonfatal` at concrete inputs: scene index 1 has
an empty script and is neither attempted nor given audio; and a concrete
job's status trace is unchanged between an always-succeeding and an
always-failing narration engine. -/
theorem narration_nonfatal_witness :
    (Ev.ttsAttempt 1 ∉ (generateSceneNarrations "d" (fun _ => .failure) c8scenes c8scripts).2) ∧
    (statusesOf (runGeneration { oracleBase with tts := fun _ => .success }).1 =
      statusesOf (runGeneration { oracleBase with tts := fun _ => .failure }).1) := by
  refine ⟨(narration_nonfatal.1 "d" (fun _ => .failure) c8scenes c8scripts 1 (by decide)).1, ?_⟩
  exact narration_nonfatal.2.2 oracleBase (fun _ => .success) (fun _ => .failure)

/-! ### Trace and result combinators for the status state machine -/

theorem emitsNT_Mpure (a : α) : EmitsNT (Mpure a) := by
  intro n s hs
  simp [Mpure] at hs

theorem emitsNT_Mthrow (st : St) (msg : String) : EmitsNT (Mthrow st msg : M α) := by
  intro n s hs
  simp [Mthrow] at hs

theorem emitsNT_MliftE (st : St) (e : Except String α) : EmitsNT (MliftE st e) := by
  rcases e with e | a
  · exact emitsNT_Mthrow st e
  · exact emitsNT_Mpure a

theorem emitsNT_Memit (evs : List Ev) : EmitsNT (Memit evs) := by
  intro n s hs
  simp [Memit] at hs

theorem emitsNT_MsaveState (o : Oracle) (st : St)
    (h1 : st.status ≠ Status.complete) (h2 : st.status ≠ Status.failed) :
    EmitsNT (MsaveState o st) := by
  intro n s hs
  unfold MsaveState at hs
  split_ifs at hs with hsv
  · simp only [List.mem_singleton] at hs
    subst hs
    exact ⟨h1, h2⟩
  · simp at hs

theorem emitsNT_Mbind {x : M α} {f : α → M β}
    (hx : EmitsNT x) (hf : ∀ a, EmitsNT (f a)) : EmitsNT (Mbind x f) := by
  intro n s hs
  have hx1 := hx n
  unfold Mbind at hs
  rcases h4 : x n with ⟨r, t, ev, n1⟩
  rw [h4] at hs hx1
  rcases r with e | a
  · exact hx1 s hs
  · have hf1 := hf a n1
    dsimp only at hs
    rcases h5 : f a n1 with ⟨r2, t2, ev2, n2⟩
    rw [h5] at hs hf1
    dsimp only at hs hx1 hf1
    rcases List.mem_append.mp hs with hm | hm
    · exact hx1 s hm
    · exact hf1 s hm

theorem emitsNT_Mcatch {x : M α} {h : String × St → M α}
    (hx : EmitsNT x) (hh : ∀ e, EmitsNT (h e)) : EmitsNT (Mcatch x h) := by
  intro n s hs
  have hx1 := hx n
  unfold Mcatch at hs
  rcases h4 : x n with ⟨r, t, ev, n1⟩
  rw [h4] at hs hx1
  rcases r with e | a
  · have hh1 := hh e n1
    dsimp only at hs
    rcases h5 : h e n1 with ⟨r2, t2, ev2, n2⟩
    rw [h5] at hs hh1
    dsimp only at hs hx1 hh1
    rcases List.mem_append.mp hs with hm | hm
    · exact hx1 s hm
    · exact hh1 s hm
  · exact hx1 s hs

theorem termOk_of_emitsNT {m : M α} (h : EmitsNT m) : TermOk m := by
  intro n i s hget hterm
  have hm := h n s (List.get?_mem hget)
  rcases hterm with ht | ht
  · exact absurd ht hm.1
  · exact absurd ht hm.2

theorem mpost_Mpure {P : α → Prop} (a : α) (h : P a) : MPost (Mpure a) P := by
  intro n b hb
  simp only [Mpure, Except.ok.injEq] at hb
  subst hb
  exact h

theorem mpost_Mthrow {P : α → Prop} (st : St) (msg : String) :
    MPost (Mthrow st msg : M α) P := by
  intro n b hb
  simp [Mthrow] at hb

theorem mpost_MliftE {P : α → Prop} (st : St) (e : Except String α)
    (h : ∀ a, e = .ok a → P a) : MPost (MliftE st e) P := by
  rcases e with er | a
  · exact mpost_Mthrow st er
  · exact mpost_Mpure a (h a rfl)

theorem mpost_Memit {P : Unit → Prop} (evs : List Ev) (h : P ()) :
    MPost (Memit evs) P := by
  intro n a _
  exact h

theorem mpost_MsaveState {P : Unit → Prop} (o : Oracle) (st : St) (h : P ()) :
    MPost (MsaveState o st) P := by
  intro n a _
  exact h

theorem mpost_Mbind {x : M α} {f : α → M β} {Q : α → Prop} {P : β → Prop}
    (hx : MPost x Q) (hf : ∀ a, Q a → MPost (f a) P) : MPost (Mbind x f) P := by
  intro n b hb
  unfold Mbind at hb
  rcases h4 : x n with ⟨r, t, ev, n1⟩
  rw [h4] at hb
  rcases r with e | a
  · simp at hb
  · dsimp only at hb
    rcases h5 : f a n1 with ⟨r2, t2, ev2, n2⟩
    rw [h5] at hb
    dsimp only at hb
    exact hf a (hx n a (by rw [h4])) n1 b (by rw [h5]; exact hb)

theorem merr_Mpure {Q : String × St → Prop} (a : α) : MErr (Mpure a) Q := by
  intro n e he
  simp [Mpure] at he

theorem merr_Mthrow {Q : String × St → Prop} (st : St) (msg : String)
    (h : Q (msg, st)) : MErr (Mthrow st msg : M α) Q := by
  intro n e he
  simp only [Mthrow, Except.error.injEq] at he
  subst he
  exact h

theorem merr_MliftE {Q : String × St → Prop} (st : St) (e : Except String α)
    (h : ∀ msg, Q (msg, st)) : MErr (MliftE st e) Q := by
  rcases e with er | a
  · exact merr_Mthrow st er (h er)
  · exact merr_Mpure a

theorem merr_Memit {Q : String × St → Prop} (evs : List Ev) : MErr (Memit evs) Q := by
  intro n e he
  simp [Memit] at he

theorem merr_MsaveState {Q : String × St → Prop} (o : Oracle) (st : St)
    (h : ∀ msg, Q (msg, st)) : MErr (MsaveState o st) Q := by
  intro n e he
  unfold MsaveState at he
  split_ifs at he with hsv
  simp only [Except.error.injEq] at he
  cases he
  exact h _

theorem merr_Mbind {x : M α} {f : α → M β} {Q : String × St → Prop}
    (hx : MErr x Q) (hf : ∀ a, MErr (f a) Q) : MErr (Mbind x f) Q := by
  intro n e he
  unfold Mbind at he
  rcases h4 : x n with ⟨r, t, ev, n1⟩
  rw [h4] at he
  rcases r with e1 | a
  · dsimp only at he
    injection he with he
    subst he
    exact hx n e1 (by rw [h4])
  · dsimp only at he
    rcases h5 : f a n1 with ⟨r2, t2, ev2, n2⟩
    rw [h5] at he
    dsimp only at he
    exact hf a n1 e (by rw [h5]; exact he)

theorem mpost_Mcatch {x : M α} {h : String × St → M α} {P : α → Prop}
    {Q : String × St → Prop} (hx : MPost x P) (he : MErr x Q)
    (hh : ∀ e, Q e → MPost (h e) P) : MPost (Mcatch x h) P := by
  intro n b hb
  unfold Mcatch at hb
  rcases h4 : x n with ⟨r, t, ev, n1⟩
  rw [h4] at hb
  rcases r with e1 | a
  · dsimp only at hb
    rcases h5 : h e1 n1 with ⟨r2, t2, ev2, n2⟩
    rw [h5] at hb
    dsimp only at hb
    exact hh e1 (he n e1 (by rw [h4])) n1 b (by rw [h5]; exact hb)
  · dsimp only at hb
    injection hb with hb
    subst hb
    exact hx n a (by rw [h4])

theorem termOk_bind {x : M α} {f : α → M β} {P : α → Prop}
    (hx : EmitsNT x) (hpost : MPost x P) (hf : ∀ a, P a → TermOk (f a)) :
    TermOk (Mbind x f) := by
  intro n i s hget hterm
  have hx1 := hx n
  show i + 1 = (Mbind x f n).2.1.length ∧ ∃ b, (Mbind x f n).1 = Except.ok b
  unfold Mbind at hget ⊢
  rcases h4 : x n with ⟨r, t, ev, n1⟩
  rw [h4] at hget hx1
  rcases r with e | a
  · dsimp only at hget hx1 ⊢
    have hm := hx1 s (List.get?_mem hget)
    rcases hterm with ht | ht
    · exact absurd ht hm.1
    · exact absurd ht hm.2
  · have hfa := hf a (hpost n a (by rw [h4])) n1
    dsimp only at hget ⊢
    by_cases hi : i < t.length
    · rw [List.get?_append hi] at hget
      have hm := hx1 s (List.get?_mem hget)
      rcases hterm with ht | ht
      · exact absurd ht hm.1
      · exact absurd ht hm.2
    · push_neg at hi
      rw [List.get?_append_right hi] at hget
      obtain ⟨hlen, b, hok⟩ := hfa (i - t.length) s hget hterm
      refine ⟨?_, b, hok⟩
      rw [List.length_append, ← hlen]
      omega

theorem endsComplete_bind {x : M α} {f : α → M β}
    (hf : ∀ a, EndsComplete (f a)) : EndsComplete (Mbind x f) := by
  intro n b hb
  show ∃ s, ((Mbind x f n).2.1).getLast? = some s ∧ s.status = Status.complete
  unfold Mbind at hb ⊢
  rcases h4 : x n with ⟨r, t, ev, n1⟩
  rw [h4] at hb
  rcases r with e | a
  · simp at hb
  · have hfa := hf a n1
    dsimp only at hb ⊢
    obtain ⟨s, hlast, hcs⟩ := hfa b hb
    refine ⟨s, ?_, hcs⟩
    rw [List.getLast?_append_of_ne_nil]
    · exact hlast
    · intro hnil
      rw [hnil] at hlast
      simp at hlast

theorem mpost_true {m : M α} : MPost m (fun _ => True) := fun _ _ _ => trivial

theorem mpost_mono {m : M α} {P Q : α → Prop} (h : MPost m P) (hpq : ∀ a, P a → Q a) :
    MPost m Q := fun n a ha => hpq a (h n a ha)

/-! ### Non-terminal traces of the individual stages -/

theorem emitsNT_stageTopicFromDocs (o : Oracle) (st : St)
    (h1 : st.status ≠ Status.complete) (h2 : st.status ≠ Status.failed) :
    EmitsNT (stageTopicFromDocs o st) := by
  unfold stageTopicFromDocs
  split_ifs with hc
  · simp only [bind_def]
    refine emitsNT_Mbind (emitsNT_MsaveState o _ h1 h2) (fun _ => ?_)
    refine emitsNT_Mcatch ?_ (fun e => emitsNT_Mpure _)
    refine emitsNT_Mbind (emitsNT_MliftE _ _) (fun sums => ?_)
    split_ifs with h3
    · exact emitsNT_Mbind (emitsNT_MsaveState o _ h1 h2) (fun _ => emitsNT_Mpure _)
    · exact emitsNT_Mbind (emitsNT_MsaveState o _ h1 h2) (fun _ => emitsNT_Mpure _)
  · exact emitsNT_Mpure st

theorem emitsNT_stageSummarize (o : Oracle) (st : St)
    (h1 : st.status ≠ Status.complete) (h2 : st.status ≠ Status.failed) :
    EmitsNT (stageSummarize o st) := by
  unfold stageSummarize
  split_ifs with hc
  · simp only [bind_def]
    refine emitsNT_Mbind (emitsNT_MsaveState o _ h1 h2) (fun _ => ?_)
    refine emitsNT_Mcatch ?_ (fun e => emitsNT_Mpure _)
    refine emitsNT_Mbind (emitsNT_MliftE _ _) (fun r => ?_)
    split_ifs with h3
    · exact emitsNT_Mbind (emitsNT_MsaveState o _ h1 h2) (fun _ => emitsNT_Mpure _)
    · exact emitsNT_Mpure _
  · exact emitsNT_Mpure st

theorem emitsNT_stageContext (o : Oracle) (st : St)
    (h1 : st.status ≠ Status.complete) (h2 : st.status ≠ Status.failed) :
    EmitsNT (stageContext o st) := by
  unfold stageContext
  split_ifs with hc
  · refine emitsNT_Mcatch ?_ (fun e => emitsNT_Mpure _)
    simp only [bind_def]
    refine emitsNT_Mbind (emitsNT_MliftE _ _) (fun rows => ?_)
    split_ifs with h3
    · exact emitsNT_Mbind (emitsNT_MsaveState o _ h1 h2) (fun _ => emitsNT_Mpure _)
    · exact emitsNT_Mbind (emitsNT_MsaveState o _ h1 h2) (fun _ => emitsNT_Mpure _)
  · exact emitsNT_Mpure st

theorem emitsNT_writeManimStep (o : Oracle) (sH : St) (gv : GenResult) :
    EmitsNT (writeManimStep o sH gv) := by
  unfold writeManimStep
  split_ifs with hc
  · exact emitsNT_MliftE _ _
  · exact emitsNT_Mpure _

theorem emitsNT_writeRemotionStep (o : Oracle) (sH : St) (gv : GenResult) :
    EmitsNT (writeRemotionStep o sH gv) := by
  unfold writeRemotionStep
  split_ifs with hc
  · simp only [bind_def]
    exact emitsNT_Mbind (emitsNT_MliftE _ _) (fun _ => emitsNT_Mpure _)
  · exact emitsNT_Mpure _

theorem emitsNT_fallbackLoop (o : Oracle) (st : St) (dir : String) (rp : Bool) :
    ∀ (l : List ((Nat × Scene) × String)) (i k : Nat) (rs : Bool),
      EmitsNT (fallbackLoop o st dir rp l i k rs)
  | [], _, _, _ => emitsNT_Mpure _
  | ((p, s), err) :: rest, i, k, rs => by
    unfold fallbackLoop
    simp only [bind_def]
    refine emitsNT_Mbind (emitsNT_Mcatch ?_ (fun e => emitsNT_Mpure _)) (fun a => ?_)
    · refine emitsNT_Mbind (emitsNT_MliftE _ _) (fun resp => ?_)
      refine emitsNT_Mbind (emitsNT_MliftE _ _) (fun u => ?_)
      refine emitsNT_Mbind (emitsNT_Memit _) (fun u2 => ?_)
      refine emitsNT_Mbind (emitsNT_Memit _) (fun u3 => ?_)
      exact emitsNT_Mpure _
    · rcases a with ⟨c1, k1, r1⟩
      refine emitsNT_Mbind (emitsNT_fallbackLoop o st dir rp rest (i + 1) k1 r1) (fun b => ?_)
      rcases b with ⟨c2, k2, r2⟩
      exact emitsNT_Mpure _

theorem emitsNT_renderDone (o : Oracle) (st : St) (gv : GenResult)
    (chron : List (Nat × String)) (h1 : st.status ≠ Status.complete)
    (h2 : st.status ≠ Status.failed) : EmitsNT (renderDone o st gv chron) := by
  unfold renderDone
  simp only [bind_def]
  exact emitsNT_Mbind (emitsNT_MsaveState o _ h1 h2) (fun _ => emitsNT_Mpure _)

theorem emitsNT_afterManim (o : Oracle) (st : St) (dir : String) (gv : GenResult)
    (rs : Bool) (chron : List (Nat × String)) (k : Nat)
    (h1 : st.status ≠ Status.complete) (h2 : st.status ≠ Status.failed) :
    EmitsNT (afterManim o st dir gv rs chron k) := by
  unfold afterManim
  split_ifs with hc
  · simp only [bind_def]
    refine emitsNT_Mbind (emitsNT_MsaveState o _ h1 h2) (fun _ => ?_)
    refine emitsNT_Mbind (emitsNT_Memit _) (fun _ => ?_)
    exact emitsNT_renderDone o _ gv _ h1 h2
  · exact emitsNT_renderDone o st gv chron h1 h2

theorem emitsNT_renderStage (o : Oracle) (st : St) (dir : String) (gv : GenResult)
    (rs : Bool) (h1 : st.status ≠ Status.complete) (h2 : st.status ≠ Status.failed) :
    EmitsNT (renderStage o st dir gv rs) := by
  unfold renderStage
  split_ifs with hc
  · simp only [bind_def]
    refine emitsNT_Mbind (emitsNT_MsaveState o _ h1 h2) (fun _ => ?_)
    cases hms : renderManimScenes dir (optTruthy gv.manimCode) o.manim gv.manimScenes with
    | ok rd fl evs =>
      dsimp only
      refine emitsNT_Mbind (emitsNT_Memit _) (fun _ => ?_)
      split_ifs with hfl
      · refine emitsNT_Mbind (emitsNT_MsaveState o _ h1 h2) (fun _ => ?_)
        refine emitsNT_Mbind (emitsNT_fallbackLoop o _ dir _ fl 0 0 rs) (fun a => ?_)
        rcases a with ⟨fb, k1, rs1⟩
        exact emitsNT_afterManim o _ dir gv rs1 _ _ h1 h2
      · exact emitsNT_afterManim o _ dir gv rs _ _ h1 h2
    | malformed fs =>
      dsimp only
      split_ifs with hfs
      · refine emitsNT_Mbind (emitsNT_MsaveState o _ h1 h2) (fun _ => ?_)
        exact emitsNT_Mthrow _ _
      · exact emitsNT_afterManim o _ dir gv rs _ _ h1 h2
  · exact emitsNT_afterManim o st dir gv rs [] 0 h1 h2

theorem emitsNT_ttsFinish (st1 : St) (z : Except Unit (List (Nat × String)) × List Ev) :
    EmitsNT (ttsFinish st1 z) := by
  rcases z with ⟨r, ev⟩
  rcases r with u | a
  · exact emitsNT_Mbind (emitsNT_Memit _) (fun _ => emitsNT_Mpure _)
  · exact emitsNT_Mbind (emitsNT_Memit _) (fun _ => emitsNT_Mpure _)

theorem emitsNT_ttsStage (o : Oracle) (st : St) (dir : String) (gv : GenResult) :
    EmitsNT (ttsStage o st dir gv) := by
  unfold ttsStage
  simp only [bind_def]
  split_ifs with hscr
  · refine emitsNT_Mbind
      (emitsNT_MsaveState o _ (fun h => Status.noConfusion h) (fun h => Status.noConfusion h))
      (fun _ => ?_)
    exact emitsNT_ttsFinish _ _
  · exact emitsNT_Mpure _

/-! ### Success-result status of the individual stages -/

theorem mpost_stageTopicFromDocs (o : Oracle) (st : St) :
    MPost (stageTopicFromDocs o st) (fun st' => st'.status = st.status) := by
  unfold stageTopicFromDocs
  split_ifs with hc
  · simp only [bind_def]
    refine mpost_Mbind (mpost_true) (fun _ _ => ?_)
    refine mpost_Mcatch (Q := fun e => e.2.status = st.status) ?_ ?_ ?_
    · refine mpost_Mbind (mpost_MliftE _ _ (fun _ _ => trivial)) (fun sums _ => ?_)
      split_ifs with h3
      · exact mpost_Mbind (mpost_true) (fun _ _ => mpost_Mpure _ rfl)
      · exact mpost_Mbind (mpost_true) (fun _ _ => mpost_Mpure _ rfl)
    · refine merr_Mbind (merr_MliftE _ _ (fun _ => rfl)) (fun sums => ?_)
      split_ifs with h3
      · exact merr_Mbind (merr_MsaveState o _ (fun _ => rfl)) (fun _ => merr_Mpure _)
      · exact merr_Mbind (merr_MsaveState o _ (fun _ => rfl)) (fun _ => merr_Mpure _)
    · intro e hq
      exact mpost_Mpure _ hq
  · exact mpost_Mpure st rfl

theorem mpost_stageSummarize (o : Oracle) (st : St) :
    MPost (stageSummarize o st) (fun st' => st'.status = st.status) := by
  unfold stageSummarize
  split_ifs with hc
  · simp only [bind_def]
    refine mpost_Mbind (mpost_true) (fun _ _ => ?_)
    refine mpost_Mcatch (Q := fun e => e.2.status = st.status) ?_ ?_ ?_
    · refine mpost_Mbind (mpost_MliftE _ _ (fun _ _ => trivial)) (fun r _ => ?_)
      split_ifs with h3
      · exact mpost_Mbind (mpost_true) (fun _ _ => mpost_Mpure _ rfl)
      · exact mpost_Mpure _ rfl
    · refine merr_Mbind (merr_MliftE _ _ (fun _ => rfl)) (fun r => ?_)
      split_ifs with h3
      · exact merr_Mbind (merr_MsaveState o _ (fun _ => rfl)) (fun _ => merr_Mpure _)
      · exact merr_Mpure _
    · intro e hq
      exact mpost_Mpure _ hq
  · exact mpost_Mpure st rfl

theorem mpost_stageContext (o : Oracle) (st : St) :
    MPost (stageContext o st) (fun st' => st'.status = st.status) := by
  unfold stageContext
  split_ifs with hc
  · refine mpost_Mcatch (Q := fun e => e.2.status = st.status) ?_ ?_ ?_
    · simp only [bind_def]
      refine mpost_Mbind (mpost_MliftE _ _ (fun _ _ => trivial)) (fun rows _ => ?_)
      split_ifs with h3
      · exact mpost_Mbind (mpost_true) (fun _ _ => mpost_Mpure _ rfl)
      · exact mpost_Mbind (mpost_true) (fun _ _ => mpost_Mpure _ rfl)
    · refine merr_Mbind (merr_MliftE _ _ (fun _ => rfl)) (fun rows => ?_)
      dsimp only
      split_ifs with h3
      · exact merr_Mbind (merr_MsaveState o _ (fun _ => rfl)) (fun _ => merr_Mpure _)
      · exact merr_Mbind (merr_MsaveState o _ (fun _ => rfl)) (fun _ => merr_Mpure _)
    · intro e hq
      exact mpost_Mpure _ hq
  · exact mpost_Mpure st rfl

theorem mpost_renderDone (o : Oracle) (st : St) (gv : GenResult)
    (chron : List (Nat × String)) :
    MPost (renderDone o st gv chron) (fun r => r.1.status = st.status) := by
  unfold renderDone
  simp only [bind_def]
  exact mpost_Mbind (mpost_true) (fun _ _ => mpost_Mpure _ rfl)

theorem mpost_afterManim (o : Oracle) (st : St) (dir : String) (gv : GenResult)
    (rs : Bool) (chron : List (Nat × String)) (k : Nat) :
    MPost (afterManim o st dir gv rs chron k) (fun r => r.1.status = st.status) := by
  unfold afterManim
  split_ifs with hc
  · simp only [bind_def]
    refine mpost_Mbind (mpost_true) (fun _ _ => ?_)
    refine mpost_Mbind (mpost_true) (fun _ _ => ?_)
    exact mpost_renderDone o _ gv _
  · exact mpost_renderDone o st gv chron

theorem mpost_renderStage (o : Oracle) (st : St) (dir : String) (gv : GenResult)
    (rs : Bool) :
    MPost (renderStage o st dir gv rs) (fun r => r.1.status = st.status) := by
  unfold renderStage
  split_ifs with hc
  · simp only [bind_def]
    refine mpost_Mbind (mpost_true) (fun _ _ => ?_)
    cases hms : renderManimScenes dir (optTruthy gv.manimCode) o.manim gv.manimScenes with
    | ok rd fl evs =>
      dsimp only
      refine mpost_Mbind (mpost_true) (fun _ _ => ?_)
      split_ifs with hfl
      · refine mpost_Mbind (mpost_true) (fun _ _ => ?_)
        refine mpost_Mbind (mpost_true) (fun a _ => ?_)
        rcases a with ⟨fb, k1, rs1⟩
        exact mpost_afterManim o _ dir gv rs1 _ _
      · exact mpost_afterManim o _ dir gv rs _ _
    | malformed fs =>
      dsimp only
      split_ifs with hfs
      · refine mpost_Mbind (mpost_true) (fun _ _ => ?_)
        exact mpost_Mthrow _ _
      · exact mpost_afterManim o _ dir gv rs _ _
  · exact mpost_afterManim o st dir gv rs [] 0

theorem mpost_ttsFinish (st1 : St) (z : Except Unit (List (Nat × String)) × List Ev) :
    MPost (ttsFinish st1 z) (fun r => r.1 = st1) := by
  rcases z with ⟨r, ev⟩
  rcases r with u | a
  · exact mpost_Mbind (mpost_true) (fun _ _ => mpost_Mpure _ rfl)
  · exact mpost_Mbind (mpost_true) (fun _ _ => mpost_Mpure _ rfl)

theorem mpost_ttsStage (o : Oracle) (st : St) (dir : String) (gv : GenResult) :
    MPost (ttsStage o st dir gv)
      (fun r => r.1.status = st.status ∨ r.1.status = Status.tts) := by
  unfold ttsStage
  simp only [bind_def]
  split_ifs with hscr
  · refine mpost_Mbind (mpost_true) (fun _ _ => ?_)
    refine mpost_mono (mpost_ttsFinish _ _) (fun r hr => ?_)
    rw [hr]
    exact Or.inr rfl
  · exact mpost_Mpure _ (Or.inl rfl)

/-! ### The merge stage persists `complete` only as its final snapshot -/

theorem get?_pair {a b s : α} {i : Nat} (h : ([a] ++ [b]).get? i = some s) :
    (i = 0 ∧ s = a) ∨ (i = 1 ∧ s = b) := by
  rcases i with _ | _ | j
  · exact Or.inl ⟨rfl, by simpa using h.symm⟩
  · exact Or.inr ⟨rfl, by simpa using h.symm⟩
  · simp at h

theorem get?_single {a s : α} {i : Nat} (h : ([a] : List α).get? i = some s) :
    i = 0 ∧ s = a := by
  rcases i with _ | j
  · exact ⟨rfl, by simpa using h.symm⟩
  · simp at h

theorem termOk_mergeStage (o : Oracle) (st : St) (dir : String) (gv : GenResult)
    (chron audio : List (Nat × String)) :
    TermOk (mergeStage o st dir gv chron audio) := by
  intro n i s hget hterm
  unfold mergeStage MsaveState at hget ⊢
  simp only [bind_def, Mbind] at hget ⊢
  by_cases hs1 : o.save n = true
  · simp only [hs1, if_true] at hget ⊢
    by_cases hs2 : o.save (n + 1) = true
    · simp only [hs2, if_true] at hget ⊢
      rcases get?_pair hget with ⟨hi, hs⟩ | ⟨hi, hs⟩
      · subst hs
        rcases hterm with ht | ht
        · exact absurd ht (fun h => Status.noConfusion h)
        · exact absurd ht (fun h => Status.noConfusion h)
      · subst hi
        exact ⟨rfl, (), trivial⟩
    · simp only [hs2, if_false] at hget ⊢
      obtain ⟨hi, hs⟩ := get?_single hget
      subst hs
      rcases hterm with ht | ht
      · exact absurd ht (fun h => Status.noConfusion h)
      · exact absurd ht (fun h => Status.noConfusion h)
  · simp only [hs1, if_false] at hget ⊢
    simp at hget

/-! ### The whole `try:` body -/

theorem termOk_tryBody (o : Oracle) : TermOk (tryBody o) := by
  unfold tryBody
  simp only [bind_def]
  refine termOk_bind (emitsNT_MliftE _ _) mpost_true (fun a _ => ?_)
  refine termOk_bind
    (emitsNT_stageTopicFromDocs o _ (fun h => Status.noConfusion h)
      (fun h => Status.noConfusion h))
    (mpost_stageTopicFromDocs o _) (fun sB hB => ?_)
  refine termOk_bind
    (emitsNT_stageSummarize o _ (by rw [hB]; exact fun h => Status.noConfusion h)
      (by rw [hB]; exact fun h => Status.noConfusion h))
    (mpost_stageSummarize o _) (fun sC hC => ?_)
  rw [hB] at hC
  refine termOk_bind
    (emitsNT_MsaveState o _ (fun h => Status.noConfusion h) (fun h => Status.noConfusion h))
    mpost_true (fun u1 _ => ?_)
  refine termOk_bind
    (emitsNT_stageContext o _ (fun h => Status.noConfusion h) (fun h => Status.noConfusion h))
    (mpost_stageContext o _) (fun sE hE => ?_)
  refine termOk_bind (emitsNT_MliftE _ _) mpost_true (fun gv _ => ?_)
  refine termOk_bind
    (emitsNT_MsaveState o _ (by rw [hE]; exact fun h => Status.noConfusion h)
      (by rw [hE]; exact fun h => Status.noConfusion h))
    mpost_true (fun u2 _ => ?_)
  refine termOk_bind (emitsNT_MliftE _ _) mpost_true (fun dir _ => ?_)
  refine termOk_bind
    (emitsNT_MsaveState o _ (fun h => Status.noConfusion h) (fun h => Status.noConfusion h))
    mpost_true (fun u3 _ => ?_)
  refine termOk_bind (emitsNT_MliftE _ _) mpost_true (fun u4 _ => ?_)
  refine termOk_bind (emitsNT_writeManimStep o _ gv) mpost_true (fun u5 _ => ?_)
  refine termOk_bind (emitsNT_writeRemotionStep o _ gv) mpost_true (fun remSaved _ => ?_)
  refine termOk_bind
    (emitsNT_MsaveState o _ (fun h => Status.noConfusion h) (fun h => Status.noConfusion h))
    mpost_true (fun u6 _ => ?_)
  refine termOk_bind
    (emitsNT_renderStage o _ dir gv remSaved (fun h => Status.noConfusion h)
      (fun h => Status.noConfusion h))
    (mpost_renderStage o _ dir gv remSaved) (fun rj hJ => ?_)
  rcases rj with ⟨sJ, chron⟩
  refine termOk_bind (emitsNT_ttsStage o sJ dir gv) (mpost_ttsStage o sJ dir gv)
    (fun rk hK => ?_)
  rcases rk with ⟨sK, audio⟩
  exact termOk_mergeStage o sK dir gv chron audio

/-- Claim C4: job status transitions are monotonic. In the persisted
snapshot sequence of any run of `_run_generation`, a terminal status
(`complete` or `failed`) appears only as the very last snapshot; hence
once a job has been recorded `Complete` or `Failed` no further status is
recorded, and in particular a job recorded `Complete` is never
subsequently recorded `Failed`. -/
theorem status_terminal_only_last (o : Oracle) (i : Nat) (s : JobSnap)
    (hget : (traceOf o).get? i = some s)
    (hterm : s.status = Status.complete ∨ s.status = Status.failed) :
    i + 1 = (traceOf o).length := by
  unfold traceOf runGeneration at hget ⊢
  by_cases hsv0 : o.save 0 = true
  · rw [show MsaveState o (st0 o) 0 = (Except.ok (), [snapOf (st0 o)], [], 0 + 1) from by
      unfold MsaveState; rw [if_pos hsv0]] at hget ⊢
    dsimp only at hget ⊢
    rcases htb : tryBody o (0 + 1) with ⟨r, t, ev, n1⟩
    rcases r with ⟨msg, stx⟩ | a
    · rw [htb] at hget
      dsimp only at hget ⊢
      by_cases hsv1 : o.save n1 = true
      · rw [show ∀ stF, MsaveState o stF n1 = (Except.ok (), [snapOf stF], [], n1 + 1) from
          fun stF => by unfold MsaveState; rw [if_pos hsv1]] at hget ⊢
        dsimp only at hget ⊢
        by_cases hi : i < ([snapOf (st0 o)] ++ t).length
        · rw [List.get?_append hi] at hget
          rcases i with _ | j
          · simp only [List.cons_append, List.get?_cons_zero, Option.some.injEq] at hget
            subst hget
            rcases hterm with ht | ht
            · exact absurd ht (fun h => Status.noConfusion h)
            · exact absurd ht (fun h => Status.noConfusion h)
          · simp only [List.cons_append, List.get?_cons_succ, List.nil_append] at hget
            obtain ⟨hlen, b, hok⟩ := termOk_tryBody o (0 + 1) j s
              (by rw [htb]; exact hget) hterm
            rw [htb] at hok
            exact Except.noConfusion hok
        · push_neg at hi
          rw [List.get?_append_right hi] at hget
          obtain ⟨hz, hs⟩ := get?_single hget
          simp only [List.length_append, List.length_cons, List.length_nil] at hi hz ⊢
          omega
      · rw [show ∀ stF, MsaveState o stF n1 =
            (Except.error ("job save failed", stF), [], [], n1 + 1) from
          fun stF => by unfold MsaveState; rw [if_neg hsv1]] at hget ⊢
        dsimp only at hget ⊢
        rw [List.append_nil] at hget ⊢
        rcases i with _ | j
        · simp only [List.cons_append, List.get?_cons_zero, Option.some.injEq] at hget
          subst hget
          rcases hterm with ht | ht
          · exact absurd ht (fun h => Status.noConfusion h)
          · exact absurd ht (fun h => Status.noConfusion h)
        · simp only [List.cons_append, List.get?_cons_succ, List.nil_append] at hget
          obtain ⟨hlen, b, hok⟩ := termOk_tryBody o (0 + 1) j s
            (by rw [htb]; exact hget) hterm
          rw [htb] at hok
          exact Except.noConfusion hok
    · rw [htb] at hget
      dsimp only at hget ⊢
      rcases i with _ | j
      · simp only [List.cons_append, List.get?_cons_zero, Option.some.injEq] at hget
        subst hget
        rcases hterm with ht | ht
        · exact absurd ht (fun h => Status.noConfusion h)
        · exact absurd ht (fun h => Status.noConfusion h)
      · simp only [List.cons_append, List.get?_cons_succ, List.nil_append] at hget
        obtain ⟨hlen, b, hok⟩ := termOk_tryBody o (0 + 1) j s
          (by rw [htb]; exact hget) hterm
        rw [htb] at hlen
        dsimp only at hlen
        simp only [List.cons_append, List.length_cons, List.nil_append]
        omega
  · rw [show MsaveState o (st0 o) 0 =
        (Except.error ("job save failed", st0 o), [], [], 0 + 1) from by
      unfold MsaveState; rw [if_neg hsv0]] at hget ⊢
    simp at hget

/-- Witness for `status_terminal_only_last` at a concrete run: the
`oracleBase` job persists nine snapshots; the ninth (index 8) is the
`complete` one, and the theorem places it at the final position. -/
theorem status_terminal_only_last_witness :
    (traceOf oracleBase).get? 8 = some c4snap ∧
    (c4snap.status = Status.complete ∨ c4snap.status = Status.failed) ∧
    8 + 1 = (traceOf oracleBase).length :=
  ⟨by decide, Or.inl rfl,
    status_terminal_only_last oracleBase 8 c4snap (by decide) (Or.inl rfl)⟩

/-! ### The run always finishes `complete` when nothing raises -/

theorem endsComplete_mergeStage (o : Oracle) (hsave : ∀ m, o.save m = true)
    (st : St) (dir : String) (gv : GenResult) (chron audio : List (Nat × String)) :
    EndsComplete (mergeStage o st dir gv chron audio) := by
  intro n a _
  show ∃ s, ((mergeStage o st dir gv chron audio) n).2.1.getLast? = some s ∧
    s.status = Status.complete
  unfold mergeStage MsaveState
  simp only [bind_def, Mbind, hsave, if_true]
  exact ⟨_, rfl, completeSt_status _ _ _ _⟩

theorem endsComplete_tryBody (o : Oracle) (hsave : ∀ m, o.save m = true) :
    EndsComplete (tryBody o) := by
  unfold tryBody
  simp only [bind_def]
  refine endsComplete_bind (fun a => ?_)
  refine endsComplete_bind (fun sB => ?_)
  refine endsComplete_bind (fun sC => ?_)
  refine endsComplete_bind (fun u1 => ?_)
  refine endsComplete_bind (fun sE => ?_)
  refine endsComplete_bind (fun gv => ?_)
  refine endsComplete_bind (fun u2 => ?_)
  refine endsComplete_bind (fun dir => ?_)
  refine endsComplete_bind (fun u3 => ?_)
  refine endsComplete_bind (fun u4 => ?_)
  refine endsComplete_bind (fun u5 => ?_)
  refine endsComplete_bind (fun remSaved => ?_)
  refine endsComplete_bind (fun u6 => ?_)
  refine endsComplete_bind (fun rj => ?_)
  rcases rj with ⟨sJ, chron⟩
  refine endsComplete_bind (fun rk => ?_)
  rcases rk with ⟨sK, audio⟩
  exact endsComplete_mergeStage o hsave sK dir gv chron audio

/-- If the body of the `try:` returns without raising, the persisted trace
is the initial `queued` snapshot followed by the body's trace; it ends in
a `complete` snapshot and never contains a `failed` one. -/
theorem run_ok_trace (o : Oracle) (hsave : ∀ m, o.save m = true)
    {a : Unit} {t : List JobSnap} {ev : List Ev} {n1 : Nat}
    (htb : tryBody o (0 + 1) = (.ok a, t, ev, n1)) :
    (∃ s, (traceOf o).getLast? = some s ∧ s.status = Status.complete) ∧
    ∀ s ∈ traceOf o, s.status ≠ Status.failed := by
  obtain ⟨sc, hlast, hcs⟩ := endsComplete_tryBody o hsave (0 + 1) a (by rw [htb])
  rw [htb] at hlast
  dsimp only at hlast
  have htnil : t ≠ [] := by
    intro hnil
    rw [hnil] at hlast
    simp at hlast
  have htr : traceOf o = [snapOf (st0 o)] ++ t := by
    unfold traceOf runGeneration MsaveState
    rw [if_pos (hsave 0)]
    dsimp only
    rw [htb]
  constructor
  · refine ⟨sc, ?_, hcs⟩
    rw [htr, List.getLast?_append_of_ne_nil]
    · exact hlast
    · exact htnil
  · intro s hs hfail
    rw [htr] at hs
    rcases List.mem_append.mp hs with hm | hm
    · rw [List.mem_singleton.mp hm] at hfail
      exact Status.noConfusion hfail
    · obtain ⟨j, hj⟩ := List.get?_of_mem hm
      obtain ⟨hlen, b, hok⟩ := termOk_tryBody o (0 + 1) j s
        (by rw [htb]; exact hj) (Or.inr hfail)
      rw [htb] at hlen
      dsimp only at hlen
      have hl2 : t.getLast? = some s := by
        rw [List.getLast?_eq_get?]
        rw [show t.length - 1 = j by omega]
        exact hj
      rw [hl2] at hlast
      injection hlast with hlast
      rw [hlast] at hfail
      rw [hcs] at hfail
      exact Status.noConfusion hfail

/-- Claim C1 (corrected): with an empty rendered-clips mapping at the
merge stage, `merge_clips` returns `None`, yet the router persists
`merging` then `complete` and raises nothing; the complete snapshot keeps
`final_video` and `error` exactly as they were (both `null` for a job that
never set them).  Moreover, for any run whose `try:` body returns without
raising, the persisted trace ends in a `complete` snapshot and never
contains a `failed` one — there is no `Failed`/`NoRenderableScenes` path
for a job whose renders all failed. -/
theorem allRendersFail_job_completes (o : Oracle) (hsave : ∀ m, o.save m = true) :
    (∀ (st : St) (dir : String) (gv : GenResult) (chron audio : List (Nat × String))
        (n : Nat), dictOf chron = [] →
      (mergeStage o st dir gv chron audio n).1 = .ok () ∧
      statusesOf (mergeStage o st dir gv chron audio n).2.1 =
        [Status.merging, Status.complete] ∧
      ∃ s, (mergeStage o st dir gv chron audio n).2.1.getLast? = some s ∧
        s.status = Status.complete ∧ s.finalVideo = st.finalVideo ∧
        s.error = st.error) ∧
    (∀ a t ev n1, tryBody o (0 + 1) = (.ok a, t, ev, n1) →
      (∃ s, (traceOf o).getLast? = some s ∧ s.status = Status.complete) ∧
      ∀ s ∈ traceOf o, s.status ≠ Status.failed) := by
  constructor
  · intro st dir gv chron audio n hc
    unfold mergeStage MsaveState
    simp only [bind_def, Mbind, hsave, if_true, hc]
    exact ⟨by trivial, rfl, _, rfl, rfl, rfl, rfl⟩
  · exact fun a t ev n1 htb => run_ok_trace o hsave htb

/-- Witness for `allRendersFail_job_completes`: the `c1o` job (its only
scene's Manim render fails and the fallback raises) satisfies the save
hypothesis, and the merge stage applied with no rendered clips persists
exactly `merging` then `complete`. -/
theorem allRendersFail_job_completes_witness :
    (∀ m, c1o.save m = true) ∧
    statusesOf (mergeStage c1o (st0 c1o) "out" c1gv [] [] 0).2.1 =
      [Status.merging, Status.complete] :=
  ⟨fun _ => rfl,
    ((allRendersFail_job_completes c1o (fun _ => rfl)).1 (st0 c1o) "out" c1gv [] [] 0
      rfl).2.1⟩

/-! ### Runs that can never raise -/

theorem mok_Mpure (a : α) : MOk (Mpure a) := fun _ => ⟨a, rfl⟩

theorem mok_MliftE (st : St) {e : Except String α} {v : α} (h : e = .ok v) :
    MOk (MliftE st e) := by
  rw [h]
  exact fun _ => ⟨v, rfl⟩

theorem mok_MsaveState (o : Oracle) (st : St) (hsave : ∀ m, o.save m = true) :
    MOk (MsaveState o st) := by
  intro n
  unfold MsaveState
  rw [if_pos (hsave n)]
  exact ⟨(), rfl⟩

theorem mok_Mbind {x : M α} {f : α → M β} {Q : α → Prop}
    (hx : MOk x) (hq : MPost x Q) (hf : ∀ a, Q a → MOk (f a)) : MOk (Mbind x f) := by
  intro n
  obtain ⟨a, ha⟩ := hx n
  unfold Mbind
  rcases h4 : x n with ⟨r, t, ev, n1⟩
  rw [h4] at ha
  dsimp only at ha
  subst ha
  obtain ⟨b, hb⟩ := hf a (hq n a (by rw [h4])) n1
  dsimp only
  rcases h5 : f a n1 with ⟨r2, t2, ev2, n2⟩
  rw [h5] at hb
  exact ⟨b, hb⟩

theorem mok_Mcatch {x : M α} {h : String × St → M α}
    (hh : ∀ e, MOk (h e)) : MOk (Mcatch x h) := by
  intro n
  unfold Mcatch
  rcases h4 : x n with ⟨r, t, ev, n1⟩
  rcases r with e | a
  · obtain ⟨b, hb⟩ := hh e n1
    dsimp only
    exact ⟨b, hb⟩
  · exact ⟨a, rfl⟩

theorem mok_stageTopicFromDocs (o : Oracle) (hsave : ∀ m, o.save m = true) (st : St) :
    MOk (stageTopicFromDocs o st) := by
  unfold stageTopicFromDocs
  split_ifs with hc
  · simp only [bind_def]
    refine mok_Mbind (mok_MsaveState o _ hsave) mpost_true (fun _ _ => ?_)
    exact mok_Mcatch (fun e => mok_Mpure _)
  · exact mok_Mpure st

theorem mok_stageSummarize (o : Oracle) (hsave : ∀ m, o.save m = true) (st : St) :
    MOk (stageSummarize o st) := by
  unfold stageSummarize
  split_ifs with hc
  · simp only [bind_def]
    refine mok_Mbind (mok_MsaveState o _ hsave) mpost_true (fun _ _ => ?_)
    exact mok_Mcatch (fun e => mok_Mpure _)
  · exact mok_Mpure st

theorem mok_stageContext (o : Oracle) (hsave : ∀ m, o.save m = true) (st : St) :
    MOk (stageContext o st) := by
  unfold stageContext
  split_ifs with hc
  · exact mok_Mcatch (fun e => mok_Mpure _)
  · exact mok_Mpure st

theorem mok_renderDone (o : Oracle) (hsave : ∀ m, o.save m = true) (st : St)
    (gv : GenResult) (chron : List (Nat × String)) : MOk (renderDone o st gv chron) := by
  unfold renderDone
  simp only [bind_def]
  exact mok_Mbind (mok_MsaveState o _ hsave) mpost_true (fun _ _ => mok_Mpure _)

theorem mok_mergeStage (o : Oracle) (hsave : ∀ m, o.save m = true) (st : St)
    (dir : String) (gv : GenResult) (chron audio : List (Nat × String)) :
    MOk (mergeStage o st dir gv chron audio) := by
  unfold mergeStage
  simp only [bind_def]
  exact mok_Mbind (mok_MsaveState o _ hsave) mpost_true
    (fun _ _ => mok_MsaveState o _ hsave)

/-- Claim C2 (corrected): when the planning response parses to zero
scenes, `generate_video` still succeeds (there is no heuristic fallback
and no `PlanningFailed` error), the `try:` body raises nothing, and —
provided persistence succeeds — the job runs through every later stage
with an empty scene list and ends with a `complete` snapshot, never a
`failed` one. -/
theorem zeroScenes_job_completes (o : Oracle) (r d : String)
    (hsave : ∀ m, o.save m = true) (h1 : o.step1Resp = .ok r)
    (hz : parseScenePlan (scenePlanOf r) = []) (hinit : o.initOk = .ok ())
    (hdir : o.createDir = .ok d) (hplan : o.writePlanOk = true) :
    genVideoResult o = .ok ⟨scenePlanOf r, [], [], [], none, none, none⟩ ∧
    (∃ a t ev n1, tryBody o (0 + 1) = (.ok a, t, ev, n1)) ∧
    (∃ s, (traceOf o).getLast? = some s ∧ s.status = Status.complete) ∧
    (∀ s ∈ traceOf o, s.status ≠ Status.failed) := by
  have hgen : genVideoResult o = .ok ⟨scenePlanOf r, [], [], [], none, none, none⟩ := by
    unfold genVideoResult
    rw [h1]
    dsimp only [Bind.bind, Except.instMonad, Except.bind]
    rw [hz]
    rfl
  have hok : MOk (tryBody o) := by
    unfold tryBody
    simp only [bind_def]
    refine mok_Mbind (mok_MliftE _ hinit) mpost_true (fun a _ => ?_)
    refine mok_Mbind (mok_stageTopicFromDocs o hsave _) mpost_true (fun sB _ => ?_)
    refine mok_Mbind (mok_stageSummarize o hsave _) mpost_true (fun sC _ => ?_)
    refine mok_Mbind (mok_MsaveState o _ hsave) mpost_true (fun u1 _ => ?_)
    refine mok_Mbind (mok_stageContext o hsave _) mpost_true (fun sE _ => ?_)
    refine mok_Mbind (mok_MliftE _ hgen)
      (mpost_MliftE _ _ (fun gv hgv => by
        rw [hgen] at hgv
        injection hgv with h2
        try exact h2.symm
        try rfl)) (fun gv hgv => ?_)
    subst hgv
    refine mok_Mbind (mok_MsaveState o _ hsave) mpost_true (fun u2 _ => ?_)
    refine mok_Mbind (mok_MliftE _ hdir) mpost_true (fun dir _ => ?_)
    refine mok_Mbind (mok_MsaveState o _ hsave) mpost_true (fun u3 _ => ?_)
    refine mok_Mbind (mok_MliftE _ (show boolToExcept o.writePlanOk
        "failed to write scenes.md" = .ok () from by rw [hplan]; rfl))
      mpost_true (fun u4 _ => ?_)
    refine mok_Mbind (mok_Mpure ()) mpost_true (fun u5 _ => ?_)
    refine mok_Mbind (mok_Mpure false) mpost_true (fun remSaved _ => ?_)
    refine mok_Mbind (mok_MsaveState o _ hsave) mpost_true (fun u6 _ => ?_)
    refine mok_Mbind (mok_renderDone o hsave _ _ _) mpost_true (fun rj _ => ?_)
    rcases rj with ⟨sJ, chron⟩
    refine mok_Mbind (mok_Mpure _) mpost_true (fun rk _ => ?_)
    rcases rk with ⟨sK, audio⟩
    exact mok_mergeStage o hsave sK dir _ chron audio
  obtain ⟨a, ha⟩ := hok (0 + 1)
  have htb : tryBody o (0 + 1) = (.ok a, (tryBody o (0 + 1)).2.1,
      (tryBody o (0 + 1)).2.2.1, (tryBody o (0 + 1)).2.2.2) := by
    rw [← ha]
  obtain ⟨hc1, hc2⟩ := run_ok_trace o hsave htb
  exact ⟨hgen, ⟨a, _, _, _, htb⟩, hc1, hc2⟩

/-- Witness for `zeroScenes_job_completes`: the `c2o` job, whose planning
response has no scene header at all, parses to zero scenes and still ends
with a `complete` snapshot. -/
theorem zeroScenes_job_completes_witness :
    parseScenePlan (scenePlanOf "sorry, cannot help with that") = [] ∧
    (∃ s, (traceOf c2o).getLast? = some s ∧ s.status = Status.complete) :=
  ⟨by decide,
    (zeroScenes_job_completes c2o "sorry, cannot help with that" "out"
      (fun _ => rfl) rfl (by decide) rfl rfl rfl).2.2.1⟩

/-! ### Counting render attempts in the event trace -/

theorem attemptCount_nil (p : Nat) : attemptCount [] p = 0 := rfl

theorem attemptCount_append (e1 e2 : List Ev) (p : Nat) :
    attemptCount (e1 ++ e2) p = attemptCount e1 p + attemptCount e2 p := by
  unfold attemptCount
  rw [List.filter_append, List.length_append]

theorem attemptCount_cons (e : Ev) (es : List Ev) (p : Nat) :
    attemptCount (e :: es) p =
      (match e with
        | .attempt q _ => if q = p then 1 else 0
        | _ => 0) + attemptCount es p := by
  unfold attemptCount
  rcases e with ⟨q, eng⟩ | ⟨q, eng⟩ | idx
  · by_cases hq : q = p
    · simp [List.filter_cons, hq]
      omega
    · simp [List.filter_cons, hq]
  · simp [List.filter_cons]
  · simp [List.filter_cons]

theorem attemptCount_zero_of_no_attempt {es : List Ev}
    (h : ∀ e ∈ es, ∀ q eng, e ≠ Ev.attempt q eng) (p : Nat) :
    attemptCount es p = 0 := by
  induction es with
  | nil => rfl
  | cons e rest ih =>
    rw [attemptCount_cons]
    rcases e with ⟨q, eng⟩ | ⟨q, eng⟩ | idx
    · exact absurd rfl (h _ (List.mem_cons_self _ _) q eng)
    · simpa using ih (fun e he => h e (List.mem_cons_of_mem _ he))
    · simpa using ih (fun e he => h e (List.mem_cons_of_mem _ he))

theorem evnil_Mpure (a : α) : EvNil (Mpure a) := fun _ => rfl

theorem evnil_Mthrow (st : St) (msg : String) : EvNil (Mthrow st msg : M α) := fun _ => rfl

theorem evnil_MliftE (st : St) (e : Except String α) : EvNil (MliftE st e) := by
  rcases e with e | a
  · exact evnil_Mthrow st e
  · exact evnil_Mpure a

theorem evnil_MsaveState (o : Oracle) (st : St) : EvNil (MsaveState o st) := by
  intro n
  unfold MsaveState
  split_ifs <;> rfl

theorem evnil_Mbind {x : M α} {f : α → M β}
    (hx : EvNil x) (hf : ∀ a, EvNil (f a)) : EvNil (Mbind x f) := by
  intro n
  have hx1 := hx n
  unfold Mbind
  rcases h4 : x n with ⟨r, t, ev, n1⟩
  rw [h4] at hx1
  dsimp only at hx1
  subst hx1
  rcases r with e | a
  · rfl
  · have hf1 := hf a n1
    dsimp only
    rcases h5 : f a n1 with ⟨r2, t2, ev2, n2⟩
    rw [h5] at hf1
    dsimp only at hf1
    simp [hf1]

theorem evnil_Mcatch {x : M α} {h : String × St → M α}
    (hx : EvNil x) (hh : ∀ e, EvNil (h e)) : EvNil (Mcatch x h) := by
  intro n
  have hx1 := hx n
  unfold Mcatch
  rcases h4 : x n with ⟨r, t, ev, n1⟩
  rw [h4] at hx1
  dsimp only at hx1
  subst hx1
  rcases r with e | a
  · have hh1 := hh e n1
    dsimp only
    rcases h5 : h e n1 with ⟨r2, t2, ev2, n2⟩
    rw [h5] at hh1
    dsimp only at hh1
    simp [hh1]
  · rfl

theorem evpred_of_evnil {m : M α} {P : Ev → Prop} (h : EvNil m) : EvPred m P := by
  intro n e he
  rw [h n] at he
  simp at he

theorem evpred_Memit {P : Ev → Prop} (evs : List Ev) (h : ∀ e ∈ evs, P e) :
    EvPred (Memit evs) P := by
  intro n e he
  exact h e he

theorem evpred_Mbind {x : M α} {f : α → M β} {P : Ev → Prop} {Q : α → Prop}
    (hx : EvPred x P) (hq : MPost x Q) (hf : ∀ a, Q a → EvPred (f a) P) :
    EvPred (Mbind x f) P := by
  intro n e he
  have hx1 := hx n
  unfold Mbind at he
  rcases h4 : x n with ⟨r, t, ev, n1⟩
  rw [h4] at he hx1
  rcases r with e1 | a
  · exact hx1 e he
  · have hf1 := hf a (hq n a (by rw [h4])) n1
    dsimp only at he
    rcases h5 : f a n1 with ⟨r2, t2, ev2, n2⟩
    rw [h5] at he hf1
    dsimp only at he hx1 hf1
    rcases List.mem_append.mp he with hm | hm
    · exact hx1 e hm
    · exact hf1 e hm

theorem evpred_Mcatch {x : M α} {h : String × St → M α} {P : Ev → Prop}
    (hx : EvPred x P) (hh : ∀ e1, EvPred (h e1) P) : EvPred (Mcatch x h) P := by
  intro n e he
  have hx1 := hx n
  unfold Mcatch at he
  rcases h4 : x n with ⟨r, t, ev, n1⟩
  rw [h4] at he hx1
  rcases r with e1 | a
  · have hh1 := hh e1 n1
    dsimp only at he
    rcases h5 : h e1 n1 with ⟨r2, t2, ev2, n2⟩
    rw [h5] at he hh1
    dsimp only at he hx1 hh1
    rcases List.mem_append.mp he with hm | hm
    · exact hx1 e hm
    · exact hh1 e hm
  · exact hx1 e he

theorem acb_of_evnil {m : M α} {k : Nat → Nat} (h : EvNil m) : ACB m k := by
  intro n p
  rw [h n]
  exact Nat.zero_le _

theorem acb_Memit {k : Nat → Nat} (evs : List Ev)
    (h : ∀ p, attemptCount evs p ≤ k p) : ACB (Memit evs) k := fun _ p => h p

theorem acb_Mbind {x : M α} {f : α → M β} {k1 k2 : Nat → Nat}
    (hx : ACB x k1) (hf : ∀ a, ACB (f a) k2) :
    ACB (Mbind x f) (fun p => k1 p + k2 p) := by
  intro n p
  have hx1 := hx n p
  unfold Mbind
  rcases h4 : x n with ⟨r, t, ev, n1⟩
  rw [h4] at hx1
  dsimp only at hx1
  rcases r with e | a
  · exact le_trans hx1 (Nat.le_add_right _ _)
  · have hf1 := hf a n1 p
    dsimp only
    rcases h5 : f a n1 with ⟨r2, t2, ev2, n2⟩
    rw [h5] at hf1
    dsimp only at hf1
    rw [attemptCount_append]
    dsimp only
    omega

theorem acb_Mcatch {x : M α} {h : String × St → M α} {k1 k2 : Nat → Nat}
    (hx : ACB x k1) (hh : ∀ e, ACB (h e) k2) :
    ACB (Mcatch x h) (fun p => k1 p + k2 p) := by
  intro n p
  have hx1 := hx n p
  unfold Mcatch
  rcases h4 : x n with ⟨r, t, ev, n1⟩
  rw [h4] at hx1
  dsimp only at hx1
  rcases r with e | a
  · have hh1 := hh e n1 p
    dsimp only
    rcases h5 : h e n1 with ⟨r2, t2, ev2, n2⟩
    rw [h5] at hh1
    dsimp only at hh1
    rw [attemptCount_append]
    dsimp only
    omega
  · exact le_trans hx1 (Nat.le_add_right _ _)

theorem acb_mono {m : M α} {k k2 : Nat → Nat} (h : ACB m k) (hk : ∀ p, k p ≤ k2 p) :
    ACB m k2 := fun n p => le_trans (h n p) (hk p)

/-! ### Events of the render loops -/

theorem attemptCount_cons_attempt (q : Nat) (eng : Engine) (es : List Ev) (p : Nat) :
    attemptCount (Ev.attempt q eng :: es) p =
      (if q = p then 1 else 0) + attemptCount es p :=
  attemptCount_cons _ es p

theorem attemptCount_singleton_attempt (q : Nat) (eng : Engine) (p : Nat) :
    attemptCount [Ev.attempt q eng] p = (if q = p then 1 else 0) := by
  rw [attemptCount_cons_attempt, attemptCount_nil, Nat.add_zero]

theorem rmAux_events_count (dir : String) (full : List (Nat × Scene))
    (o : Nat → ManimOut) :
    ∀ (l : List (Nat × Scene)) (k p : Nat),
      attemptCount (rmAux dir full o l k).2.2 p ≤ (l.map Prod.fst).count p
  | [], _, _ => by simp [rmAux, attemptCount_nil]
  | (q, s) :: rest, k, p => by
    have ih := rmAux_events_count dir full o rest (k + 1) p
    unfold rmAux
    rcases hrec : rmAux dir full o rest (k + 1) with ⟨rd, fl, es⟩
    try rw [hrec] at ih
    dsimp only at ih
    rcases ho : o k with _ | _ | err | _ | _ <;> dsimp only <;>
      simp only [attemptCount_cons_attempt, attemptCount_singleton_attempt,
        attemptCount_nil, List.map_cons, List.count_cons, beq_iff_eq] <;>
      split_ifs with hq <;> omega

theorem rmAux_events_shape (dir : String) (full : List (Nat × Scene))
    (o : Nat → ManimOut) :
    ∀ (l : List (Nat × Scene)) (k : Nat), ∀ e ∈ (rmAux dir full o l k).2.2,
      ∃ q, e = Ev.attempt q Engine.MANIM ∧ q ∈ l.map Prod.fst
  | [], _, _, he => by simp [rmAux] at he
  | (q, s) :: rest, k, e, he => by
    have ih := rmAux_events_shape dir full o rest (k + 1)
    unfold rmAux at he
    rcases ho : o k with _ | _ | err | _ | _ <;>
      rw [ho] at he <;>
      dsimp only at he <;>
      rcases List.mem_cons.mp he with rfl | hm
    · exact ⟨q, rfl, by simp⟩
    · obtain ⟨q2, hq2, hmem⟩ := ih e hm
      exact ⟨q2, hq2, by simp [hmem]⟩
    · exact ⟨q, rfl, by simp⟩
    · obtain ⟨q2, hq2, hmem⟩ := ih e hm
      exact ⟨q2, hq2, by simp [hmem]⟩
    · exact ⟨q, rfl, by simp⟩
    · obtain ⟨q2, hq2, hmem⟩ := ih e hm
      exact ⟨q2, hq2, by simp [hmem]⟩
    · exact ⟨q, rfl, by simp⟩
    · obtain ⟨q2, hq2, hmem⟩ := ih e hm
      exact ⟨q2, hq2, by simp [hmem]⟩
    · exact ⟨q, rfl, by simp⟩
    · simp at hm

theorem rmAux_failed_mem (dir : String) (full : List (Nat × Scene))
    (o : Nat → ManimOut) :
    ∀ (l : List (Nat × Scene)) (k : Nat), ∀ q1 ∈ (rmAux dir full o l k).2.1,
      q1.1.1 ∈ l.map Prod.fst ∨ q1.1.1 ∈ full.map Prod.fst
  | [], _, _, hq1 => by simp [rmAux] at hq1
  | (q, s) :: rest, k, q1, hq1 => by
    have ih := rmAux_failed_mem dir full o rest (k + 1)
    unfold rmAux at hq1
    rcases ho : o k with _ | _ | err | _ | _ <;>
      rw [ho] at hq1 <;>
      dsimp only at hq1
    · rcases ih q1 hq1 with hm | hm
      · exact Or.inl (by simp [hm])
      · exact Or.inr hm
    · rcases List.mem_cons.mp hq1 with rfl | hm
      · exact Or.inl (by simp)
      · rcases ih q1 hm with hm2 | hm2
        · exact Or.inl (by simp [hm2])
        · exact Or.inr hm2
    · rcases List.mem_cons.mp hq1 with rfl | hm
      · exact Or.inl (by simp)
      · rcases ih q1 hm with hm2 | hm2
        · exact Or.inl (by simp [hm2])
        · exact Or.inr hm2
    · rcases List.mem_cons.mp hq1 with rfl | hm
      · exact Or.inl (by simp)
      · rcases ih q1 hm with hm2 | hm2
        · exact Or.inl (by simp [hm2])
        · exact Or.inr hm2
    · rcases List.mem_cons.mp hq1 with rfl | hm
      · exact Or.inl (by simp)
      · rw [List.mem_map] at hm
        obtain ⟨q2, hq2mem, hq2eq⟩ := hm
        rw [List.mem_filter] at hq2mem
        refine Or.inr ?_
        rw [List.mem_map]
        exact ⟨q2, hq2mem.1, by rw [← hq2eq]⟩
  termination_by l => l.length

theorem filter_gt_of_prefix_le (pre rest : List (Nat × Scene)) (cur : Nat × Scene)
    (hpw : ((pre ++ cur :: rest).map (fun q => q.2.index)).Pairwise (· ≤ ·)) :
    (pre ++ cur :: rest).filter (fun q => cur.2.index < q.2.index) =
      rest.filter (fun q => cur.2.index < q.2.index) := by
  have hpw2 : (pre ++ cur :: rest).Pairwise (fun a b => a.2.index ≤ b.2.index) :=
    List.pairwise_map.mp hpw
  have hpre : ∀ q ∈ pre, ¬ (cur.2.index < q.2.index) := by
    intro q hq
    have := (List.pairwise_append.mp hpw2).2.2 q hq cur (List.mem_cons_self _ _)
    omega
  rw [List.filter_append, List.filter_eq_nil.mpr (by
    intro q hq
    simp only [decide_eq_true_eq]
    exact fun h => hpre q hq h), List.nil_append, List.filter_cons]
  simp

theorem rmAux_failed_count (dir : String) (full : List (Nat × Scene))
    (o : Nat → ManimOut)
    (hpw : (full.map (fun q => q.2.index)).Pairwise (· ≤ ·)) :
    ∀ (l : List (Nat × Scene)) (k : Nat), l <:+ full → ∀ p,
      ((rmAux dir full o l k).2.1.map (fun q => q.1.1)).count p ≤
        (l.map Prod.fst).count p
  | [], _, _, _ => by simp [rmAux]
  | (q, s) :: rest, k, hsuf, p => by
    have hsuf2 : rest <:+ full := by
      obtain ⟨pre, hpre⟩ := hsuf
      exact ⟨pre ++ [(q, s)], by rw [← hpre]; simp⟩
    have ih := rmAux_failed_count dir full o hpw rest (k + 1) hsuf2 p
    unfold rmAux
    rcases hrec : rmAux dir full o rest (k + 1) with ⟨rd, fl, es⟩
    try rw [hrec] at ih
    dsimp only at ih
    rcases ho : o k with _ | _ | err | _ | _ <;> dsimp only
    · simp only [List.map_cons, List.count_cons, beq_iff_eq]
      omega
    · simp only [List.map_cons, List.count_cons, beq_iff_eq]
      split_ifs with hq <;> omega
    · simp only [List.map_cons, List.count_cons, beq_iff_eq]
      split_ifs with hq <;> omega
    · simp only [List.map_cons, List.count_cons, beq_iff_eq]
      split_ifs with hq <;> omega
    · obtain ⟨pre, hpre⟩ := hsuf
      have hfe : full.filter (fun q2 => s.index < q2.2.index) =
          rest.filter (fun q2 => s.index < q2.2.index) := by
        have h2 := filter_gt_of_prefix_le pre rest (q, s) (by rw [← hpre] at hpw; exact hpw)
        rw [hpre] at h2
        exact h2
      rw [hfe]
      simp only [List.map_cons, List.map_map, List.count_cons]
      have hsub : ((rest.filter (fun q2 => s.index < q2.2.index)).map
          ((fun q1 => q1.1.1) ∘ (fun q2 => (q2, manimNotFoundMsg)))).count p ≤
          (rest.map Prod.fst).count p := by
        refine List.Sublist.count_le (List.Sublist.map _ ?_) p
        exact List.filter_sublist _
      split_ifs with hq <;> omega

theorem rrAux_events_count (dir : String) (o : Nat → RemOut) :
    ∀ (l : List (Nat × Scene)) (k p : Nat),
      attemptCount (rrAux dir o l k).2.1 p ≤ (l.map Prod.fst).count p
  | [], _, _ => by simp [rrAux, attemptCount_nil]
  | (q, s) :: rest, k, p => by
    have ih := rrAux_events_count dir o rest (k + 1) p
    unfold rrAux
    rcases hrec : rrAux dir o rest (k + 1) with ⟨rd, es, k2⟩
    try rw [hrec] at ih
    dsimp only at ih
    rcases ho : o k with _ | _ | _ | _ | _ <;> dsimp only <;>
      simp only [attemptCount_cons_attempt, attemptCount_singleton_attempt,
        attemptCount_nil, List.map_cons, List.count_cons, beq_iff_eq] <;>
      split_ifs with hq <;> omega

theorem rrAux_events_shape (dir : String) (o : Nat → RemOut) :
    ∀ (l : List (Nat × Scene)) (k : Nat), ∀ e ∈ (rrAux dir o l k).2.1,
      ∃ q, e = Ev.attempt q Engine.REMOTION ∧ q ∈ l.map Prod.fst
  | [], _, _, he => by simp [rrAux] at he
  | (q, s) :: rest, k, e, he => by
    have ih := rrAux_events_shape dir o rest (k + 1)
    unfold rrAux at he
    rcases ho : o k with _ | _ | _ | _ | _ <;>
      rw [ho] at he <;>
      dsimp only at he <;>
      rcases List.mem_cons.mp he with rfl | hm
    · exact ⟨q, rfl, by simp⟩
    · obtain ⟨q2, hq2, hmem⟩ := ih e hm
      exact ⟨q2, hq2, by simp [hmem]⟩
    · exact ⟨q, rfl, by simp⟩
    · obtain ⟨q2, hq2, hmem⟩ := ih e hm
      exact ⟨q2, hq2, by simp [hmem]⟩
    · exact ⟨q, rfl, by simp⟩
    · obtain ⟨q2, hq2, hmem⟩ := ih e hm
      exact ⟨q2, hq2, by simp [hmem]⟩
    · exact ⟨q, rfl, by simp⟩
    · obtain ⟨q2, hq2, hmem⟩ := ih e hm
      exact ⟨q2, hq2, by simp [hmem]⟩
    · exact ⟨q, rfl, by simp⟩
    · simp at hm

theorem gsnAux_events_shape (dir : String) (o : Nat → TtsOut) (scripts : Dict) :
    ∀ (l : List Scene) (j : Nat), ∀ e ∈ (gsnAux dir o scripts l j).2,
      ∃ idx, e = Ev.ttsAttempt idx
  | [], _, _, he => by simp [gsnAux] at he
  | s :: rest, j, e, he => by
    have ih0 := gsnAux_events_shape dir o scripts rest j
    have ih1 := gsnAux_events_shape dir o scripts rest (j + 1)
    unfold gsnAux at he
    split_ifs at he with hsk
    · exact ih0 e he
    · rcases ho : o j with _ | _ | _ <;> rw [ho] at he <;> dsimp only at he
      · rcases hrec : gsnAux dir o scripts rest (j + 1) with ⟨r2, es2⟩
        rw [hrec] at he ih1
        rcases r2 with u | l2 <;> dsimp only at he <;>
          rcases List.mem_cons.mp he with rfl | hm
        · exact ⟨s.index, rfl⟩
        · exact ih1 e hm
        · exact ⟨s.index, rfl⟩
        · exact ih1 e hm
      · rcases hrec : gsnAux dir o scripts rest (j + 1) with ⟨r2, es2⟩
        rw [hrec] at he ih1
        dsimp only at he
        rcases List.mem_cons.mp he with rfl | hm
        · exact ⟨s.index, rfl⟩
        · exact ih1 e hm
      · rcases List.mem_singleton.mp he with rfl
        exact ⟨s.index, rfl⟩

theorem attemptCount_cons_engineSet (q : Nat) (eng : Engine) (es : List Ev) (p : Nat) :
    attemptCount (Ev.engineSet q eng :: es) p = attemptCount es p := by
  simpa using attemptCount_cons (Ev.engineSet q eng) es p

theorem evnil_stageTopicFromDocs (o : Oracle) (st : St) :
    EvNil (stageTopicFromDocs o st) := by
  unfold stageTopicFromDocs
  split_ifs with hc
  · simp only [bind_def]
    refine evnil_Mbind (evnil_MsaveState o _) (fun _ => ?_)
    refine evnil_Mcatch ?_ (fun e => evnil_Mpure _)
    refine evnil_Mbind (evnil_MliftE _ _) (fun sums => ?_)
    split_ifs with h3
    · exact evnil_Mbind (evnil_MsaveState o _) (fun _ => evnil_Mpure _)
    · exact evnil_Mbind (evnil_MsaveState o _) (fun _ => evnil_Mpure _)
  · exact evnil_Mpure st

theorem evnil_stageSummarize (o : Oracle) (st : St) :
    EvNil (stageSummarize o st) := by
  unfold stageSummarize
  split_ifs with hc
  · simp only [bind_def]
    refine evnil_Mbind (evnil_MsaveState o _) (fun _ => ?_)
    refine evnil_Mcatch ?_ (fun e => evnil_Mpure _)
    refine evnil_Mbind (evnil_MliftE _ _) (fun r => ?_)
    split_ifs with h3
    · exact evnil_Mbind (evnil_MsaveState o _) (fun _ => evnil_Mpure _)
    · exact evnil_Mpure _
  · exact evnil_Mpure st

theorem evnil_stageContext (o : Oracle) (st : St) :
    EvNil (stageContext o st) := by
  unfold stageContext
  split_ifs with hc
  · refine evnil_Mcatch ?_ (fun e => evnil_Mpure _)
    simp only [bind_def]
    refine evnil_Mbind (evnil_MliftE _ _) (fun rows => ?_)
    dsimp only
    split_ifs with h3
    · exact evnil_Mbind (evnil_MsaveState o _) (fun _ => evnil_Mpure _)
    · exact evnil_Mbind (evnil_MsaveState o _) (fun _ => evnil_Mpure _)
  · exact evnil_Mpure st

theorem evnil_writeManimStep (o : Oracle) (sH : St) (gv : GenResult) :
    EvNil (writeManimStep o sH gv) := by
  unfold writeManimStep
  split_ifs with hc
  · exact evnil_MliftE _ _
  · exact evnil_Mpure _

theorem evnil_writeRemotionStep (o : Oracle) (sH : St) (gv : GenResult) :
    EvNil (writeRemotionStep o sH gv) := by
  unfold writeRemotionStep
  split_ifs with hc
  · simp only [bind_def]
    exact evnil_Mbind (evnil_MliftE _ _) (fun _ => evnil_Mpure _)
  · exact evnil_Mpure _

theorem evnil_renderDone (o : Oracle) (st : St) (gv : GenResult)
    (chron : List (Nat × String)) : EvNil (renderDone o st gv chron) := by
  unfold renderDone
  simp only [bind_def]
  exact evnil_Mbind (evnil_MsaveState o _) (fun _ => evnil_Mpure _)

theorem evnil_mergeStage (o : Oracle) (st : St) (dir : String) (gv : GenResult)
    (chron audio : List (Nat × String)) :
    EvNil (mergeStage o st dir gv chron audio) := by
  unfold mergeStage
  simp only [bind_def]
  exact evnil_Mbind (evnil_MsaveState o _) (fun _ => evnil_MsaveState o _)

theorem acb_Mbind_post {x : M α} {f : α → M β} {k1 k2 : Nat → Nat} {Q : α → Prop}
    (hx : ACB x k1) (hq : MPost x Q) (hf : ∀ a, Q a → ACB (f a) k2) :
    ACB (Mbind x f) (fun p => k1 p + k2 p) := by
  intro n p
  have hx1 := hx n p
  unfold Mbind
  rcases h4 : x n with ⟨r, t, ev, n1⟩
  rw [h4] at hx1
  dsimp only at hx1
  rcases r with e | a
  · exact le_trans hx1 (Nat.le_add_right _ _)
  · have hf1 := hf a (hq n a (by rw [h4])) n1 p
    dsimp only
    rcases h5 : f a n1 with ⟨r2, t2, ev2, n2⟩
    rw [h5] at hf1
    dsimp only at hf1
    rw [attemptCount_append]
    dsimp only
    omega

theorem acb_fallbackLoop (o : Oracle) (st : St) (dir : String) (rp : Bool) :
    ∀ (l : List ((Nat × Scene) × String)) (i k : Nat) (rs : Bool),
      ACB (fallbackLoop o st dir rp l i k rs)
        (fun p => (l.map (fun q => q.1.1)).count p)
  | [], _, _, _ => acb_of_evnil (evnil_Mpure _)
  | ((p1, s1), err) :: rest, i, k, rs => by
    have ih := acb_fallbackLoop o st dir rp rest (i + 1)
    unfold fallbackLoop
    simp only [bind_def]
    have hMemit1 : ∀ (s2 : Scene) (k3 : Nat),
        ACB (Memit (renderRemotionScenes dir true rp o.remotion [(p1, s2)] k3).2.1)
          (fun p => if p1 = p then 1 else 0) := by
      intro s2 k3
      refine acb_Memit _ (fun p => ?_)
      by_cases hq : p1 = p
      · rw [if_pos hq]
        unfold renderRemotionScenes
        split_ifs with h
        · have h1 := rrAux_events_count dir o.remotion [(p1, s2)] k3 p
          simp only [List.map_cons, List.map_nil, List.count_cons, List.count_nil,
            beq_iff_eq, if_pos hq] at h1
          omega
        · exact Nat.zero_le 1
      · rw [if_neg hq]
        unfold renderRemotionScenes
        split_ifs with h
        · have h1 := rrAux_events_count dir o.remotion [(p1, s2)] k3 p
          simp only [List.map_cons, List.map_nil, List.count_cons, List.count_nil,
            beq_iff_eq, if_neg hq] at h1
          omega
        · exact Nat.le_refl 0
    have hset : ACB (Memit [Ev.engineSet p1 Engine.REMOTION]) (fun _ => 0) :=
      @acb_Memit (fun _ => 0) _ (fun p => by
        rw [attemptCount_cons_engineSet, attemptCount_nil])
    refine acb_mono
      (acb_Mbind
        (acb_Mcatch
          (acb_Mbind (@acb_of_evnil _ _ (fun _ => 0) (evnil_MliftE _ _)) (fun resp =>
            acb_Mbind (@acb_of_evnil _ _ (fun _ => 0) (evnil_MliftE _ _)) (fun u =>
              acb_Mbind (hMemit1 _ _) (fun u2 =>
                acb_Mbind hset
                  (fun u3 => @acb_of_evnil _ _ (fun _ => 0) (evnil_Mpure _))))))
          (fun e => @acb_of_evnil _ _ (fun _ => 0) (evnil_Mpure _)))
        (fun a => show ACB _ (fun p => (rest.map (fun q => q.1.1)).count p) from ?_))
      (fun p => ?_)
    · rcases a with ⟨c1, k1, r1⟩
      exact acb_mono (acb_Mbind (ih k1 r1) (fun z =>
        @acb_of_evnil _ _ (fun _ => 0) (evnil_Mpure _)))
        (fun p => by omega)
    · dsimp only
      simp only [List.map_cons, List.count_cons, beq_iff_eq]
      split_ifs with hq <;> omega

theorem acb_afterManim (o : Oracle) (st : St) (dir : String) (gv : GenResult)
    (rs : Bool) (chron : List (Nat × String)) (k : Nat) :
    ACB (afterManim o st dir gv rs chron k)
      (fun p => (gv.remotionScenes.map Prod.fst).count p) := by
  unfold afterManim
  split_ifs with hc
  · simp only [bind_def]
    refine acb_mono
      (acb_Mbind (@acb_of_evnil _ _ (fun _ => 0) (evnil_MsaveState o _)) (fun _ =>
        acb_Mbind
          (@acb_Memit (fun p => (gv.remotionScenes.map Prod.fst).count p) _
            (fun p => ?_))
          (fun _ => @acb_of_evnil _ _ (fun _ => 0) (evnil_renderDone o _ gv _))))
      (fun p => by omega)
    unfold renderRemotionScenes
    split_ifs with h2
    · exact rrAux_events_count dir o.remotion gv.remotionScenes k p
    · simp [attemptCount_nil]
  · exact acb_of_evnil (evnil_renderDone o st gv chron)

/-! ### Inverting `render_manim_scenes` and `generate_video` -/

theorem renderManimScenes_ok_inv {dir : String} {spy : Bool} {o : Nat → ManimOut}
    {ms : List (Nat × Scene)} {rd : List (Nat × String)}
    {fl : List ((Nat × Scene) × String)} {evs : List Ev}
    (h : renderManimScenes dir spy o ms = .ok rd fl evs) :
    rd = (rmAux dir ms o ms 0).1 ∧ fl = (rmAux dir ms o ms 0).2.1 ∧
      evs = (rmAux dir ms o ms 0).2.2 := by
  unfold renderManimScenes at h
  split_ifs at h with hpy
  · rcases hrec : rmAux dir ms o ms 0 with ⟨a, b, c⟩
    try rw [hrec] at h
    try rw [hrec]
    dsimp only at h ⊢
    injection h with h1 h2 h3
    exact ⟨h1.symm, h2.symm, h3.symm⟩

theorem genVideoResult_fields (o : Oracle) (gv : GenResult)
    (h : genVideoResult o = .ok gv) :
    gv.manimScenes = (enumScenes gv.scenes).filter (fun q => q.2.engine = Engine.MANIM) ∧
    gv.remotionScenes = (enumScenes gv.scenes).filter (fun q => q.2.engine = Engine.REMOTION) := by
  unfold genVideoResult at h
  rcases h1 : o.step1Resp with e | r
  · rw [h1] at h
    dsimp only [Bind.bind, Pure.pure, Except.instMonad, Except.bind, Except.pure] at h
    exact Except.noConfusion h
  · rw [h1] at h
    dsimp only [Bind.bind, Pure.pure, Except.instMonad, Except.bind, Except.pure] at h
    split_ifs at h with h2 h3 h3
    · injection h with h4
      rw [← h4]
      exact ⟨rfl, rfl⟩
    · rcases h3r : o.step3Resp with e3 | r3 <;> rw [h3r] at h <;>
        dsimp only [Bind.bind, Pure.pure, Except.instMonad, Except.bind, Except.pure] at h
      · exact Except.noConfusion h
      · injection h with h4
        rw [← h4]
        exact ⟨rfl, rfl⟩
    · rcases h2r : o.step2Resp with e2 | r2 <;> rw [h2r] at h <;>
        dsimp only [Bind.bind, Pure.pure, Except.instMonad, Except.bind, Except.pure] at h
      · exact Except.noConfusion h
      · injection h with h4
        rw [← h4]
        exact ⟨rfl, rfl⟩
    · rcases h2r : o.step2Resp with e2 | r2 <;> rw [h2r] at h <;>
        dsimp only [Bind.bind, Pure.pure, Except.instMonad, Except.bind, Except.pure] at h
      · exact Except.noConfusion h
      · rcases h3r : o.step3Resp with e3 | r3 <;> rw [h3r] at h <;>
          dsimp only [Bind.bind, Pure.pure, Except.instMonad, Except.bind, Except.pure] at h
        · exact Except.noConfusion h
        · injection h with h4
          rw [← h4]
          exact ⟨rfl, rfl⟩

/-! ### Scene positions occur at most once per engine list -/

theorem count_pos_filter_le_one (scenes : List Scene) (f : Nat × Scene → Bool) (p : Nat) :
    (((enumScenes scenes).filter f).map Prod.fst).count p ≤ 1 := by
  have h1 : ((enumScenes scenes).map Prod.fst).Nodup := by
    unfold enumScenes
    exact List.nodup_enum_map_fst scenes
  have hnd : (((enumScenes scenes).filter f).map Prod.fst).Nodup :=
    List.Nodup.sublist (List.Sublist.map Prod.fst (List.filter_sublist _)) h1
  exact List.nodup_iff_count_le_one.mp hnd p

theorem ms_rs_not_both (scenes : List Scene) (p : Nat)
    (h1 : p ∈ ((enumScenes scenes).filter (fun q => q.2.engine = Engine.MANIM)).map Prod.fst)
    (h2 : p ∈ ((enumScenes scenes).filter (fun q => q.2.engine = Engine.REMOTION)).map Prod.fst) :
    False := by
  rw [List.mem_map] at h1 h2
  obtain ⟨x, hx, hxp⟩ := h1
  obtain ⟨y, hy, hyp⟩ := h2
  rw [List.mem_filter] at hx hy
  rcases x with ⟨i, s⟩
  rcases y with ⟨j, t⟩
  dsimp only at hxp hyp
  have hxe := hx.2
  have hye := hy.2
  simp only [decide_eq_true_eq] at hxe hye
  have hgx : scenes[i]? = some s := List.mk_mem_enum_iff_getElem?.mp hx.1
  have hgy : scenes[j]? = some t := List.mk_mem_enum_iff_getElem?.mp hy.1
  rw [hxp, ← hyp] at hgx
  rw [hgx] at hgy
  injection hgy with hst
  rw [hst] at hxe
  rw [hxe] at hye
  exact Engine.noConfusion hye

theorem ms_rs_count (scenes : List Scene) (p : Nat) :
    2 * (((enumScenes scenes).filter (fun q => q.2.engine = Engine.MANIM)).map Prod.fst).count p
      + (((enumScenes scenes).filter (fun q => q.2.engine = Engine.REMOTION)).map Prod.fst).count p
      ≤ 2 := by
  have hm := count_pos_filter_le_one scenes (fun q => q.2.engine = Engine.MANIM) p
  have hr := count_pos_filter_le_one scenes (fun q => q.2.engine = Engine.REMOTION) p
  by_cases hp : p ∈ ((enumScenes scenes).filter (fun q => q.2.engine = Engine.MANIM)).map Prod.fst
  · have hz : (((enumScenes scenes).filter
        (fun q => q.2.engine = Engine.REMOTION)).map Prod.fst).count p = 0 :=
      List.count_eq_zero.mpr (fun hmem => ms_rs_not_both scenes p hp hmem)
    omega
  · have hz : (((enumScenes scenes).filter
        (fun q => q.2.engine = Engine.MANIM)).map Prod.fst).count p = 0 :=
      List.count_eq_zero.mpr hp
    omega

/-! ### Attempt bound over the render stage and the whole body -/

theorem acb_renderStage (o : Oracle) (st : St) (dir : String) (gv : GenResult)
    (remSaved : Bool)
    (hpw : (gv.manimScenes.map (fun q => q.2.index)).Pairwise (· ≤ ·)) :
    ACB (renderStage o st dir gv remSaved)
      (fun p => 2 * (gv.manimScenes.map Prod.fst).count p
        + (gv.remotionScenes.map Prod.fst).count p) := by
  unfold renderStage
  split_ifs with hc
  · simp only [bind_def]
    refine acb_mono (acb_Mbind (@acb_of_evnil _ _ (fun _ => 0) (evnil_MsaveState o _))
      (fun u => show ACB _ (fun p => 2 * (gv.manimScenes.map Prod.fst).count p
        + (gv.remotionScenes.map Prod.fst).count p) from ?_))
      (fun p => by omega)
    cases hms : renderManimScenes dir (optTruthy gv.manimCode) o.manim gv.manimScenes with
    | ok rd fl evs =>
      obtain ⟨hrd, hfl, hevs⟩ := renderManimScenes_ok_inv hms
      dsimp only
      refine acb_mono (acb_Mbind
        (@acb_Memit (fun p => (gv.manimScenes.map Prod.fst).count p) evs (fun p => ?_))
        (fun u2 => show ACB _ (fun p => (gv.manimScenes.map Prod.fst).count p
          + (gv.remotionScenes.map Prod.fst).count p) from ?_))
        (fun p => by omega)
      · rw [hevs]
        exact rmAux_events_count dir gv.manimScenes o.manim gv.manimScenes 0 p
      · split_ifs with hfl2
        · refine acb_mono (acb_Mbind (@acb_of_evnil _ _ (fun _ => 0) (evnil_MsaveState o _))
            (fun u3 => show ACB _ (fun p => (gv.manimScenes.map Prod.fst).count p
              + (gv.remotionScenes.map Prod.fst).count p) from ?_))
            (fun p => by omega)
          refine acb_mono (acb_Mbind
            (acb_fallbackLoop o _ dir o.remProjExists fl 0 0 remSaved)
            (fun a => show ACB _ (fun p => (gv.remotionScenes.map Prod.fst).count p) from ?_))
            (fun p => ?_)
          · rcases a with ⟨fbClips, k1, rs1⟩
            exact acb_afterManim o _ dir gv rs1 _ k1
          · have hcnt := rmAux_failed_count dir gv.manimScenes o.manim hpw gv.manimScenes 0
              (List.suffix_refl _) p
            rw [← hfl] at hcnt
            omega
        · exact acb_mono (acb_afterManim o _ dir gv remSaved rd 0) (fun p => by omega)
    | malformed fs =>
      dsimp only
      split_ifs with hfs
      · exact acb_of_evnil (evnil_Mbind (evnil_MsaveState o _) (fun _ => evnil_Mthrow _ _))
      · exact acb_mono (acb_afterManim o _ dir gv remSaved [] 0) (fun p => by omega)
  · exact acb_mono (acb_afterManim o st dir gv remSaved [] 0) (fun p => by omega)

theorem acb_zero_of_evpred {m : M α}
    (h : EvPred m (fun e => ∀ q eng, e ≠ Ev.attempt q eng)) : ACB m (fun _ => 0) := by
  intro n p
  exact le_of_eq (attemptCount_zero_of_no_attempt (h n) p)

theorem evp_ttsFinish {P : Ev → Prop} (st1 : St)
    (z : Except Unit (List (Nat × String)) × List Ev)
    (hz : ∀ e ∈ z.2, P e) : EvPred (ttsFinish st1 z) P := by
  unfold ttsFinish
  rcases z with ⟨r, evs⟩
  dsimp only at hz ⊢
  rcases r with u | l <;> simp only [bind_def] <;>
    exact evpred_Mbind (evpred_Memit _ hz) mpost_true
      (fun _ _ => evpred_of_evnil (evnil_Mpure _))

theorem evp_ttsStage {P : Ev → Prop} (o : Oracle) (st : St) (dir : String)
    (gv : GenResult) (hP : ∀ idx, P (Ev.ttsAttempt idx)) :
    EvPred (ttsStage o st dir gv) P := by
  unfold ttsStage
  simp only [bind_def]
  split_ifs with hscr
  · refine evpred_Mbind (evpred_of_evnil (evnil_MsaveState o _)) mpost_true (fun u _ => ?_)
    refine evp_ttsFinish _ _ (fun e he => ?_)
    obtain ⟨idx, hidx⟩ := gsnAux_events_shape dir o.tts _ gv.scenes 0 e he
    rw [hidx]
    exact hP idx
  · exact evpred_of_evnil (evnil_Mpure _)

theorem acb_ttsStage (o : Oracle) (st : St) (dir : String) (gv : GenResult) :
    ACB (ttsStage o st dir gv) (fun _ => 0) :=
  acb_zero_of_evpred (evp_ttsStage o st dir gv
    (fun idx q eng h => Ev.noConfusion h))

theorem acb_tryBody (o : Oracle) (hpw : (manimIdxList o).Pairwise (· ≤ ·)) :
    ACB (tryBody o) (fun _ => 2) := by
  unfold tryBody
  simp only [bind_def]
  refine acb_mono (acb_Mbind (@acb_of_evnil _ _ (fun _ => 0) (evnil_MliftE _ _))
    (fun a => show ACB _ (fun _ => 2) from ?_)) (fun p => by omega)
  refine acb_mono (acb_Mbind (@acb_of_evnil _ _ (fun _ => 0) (evnil_stageTopicFromDocs o _))
    (fun sB => show ACB _ (fun _ => 2) from ?_)) (fun p => by omega)
  refine acb_mono (acb_Mbind (@acb_of_evnil _ _ (fun _ => 0) (evnil_stageSummarize o _))
    (fun sC => show ACB _ (fun _ => 2) from ?_)) (fun p => by omega)
  refine acb_mono (acb_Mbind (@acb_of_evnil _ _ (fun _ => 0) (evnil_MsaveState o _))
    (fun u1 => show ACB _ (fun _ => 2) from ?_)) (fun p => by omega)
  refine acb_mono (acb_Mbind (@acb_of_evnil _ _ (fun _ => 0) (evnil_stageContext o _))
    (fun sE => show ACB _ (fun _ => 2) from ?_)) (fun p => by omega)
  refine acb_mono (acb_Mbind_post (@acb_of_evnil _ _ (fun _ => 0) (evnil_MliftE _ _))
    (mpost_MliftE _ _ (fun gv hgv => hgv))
    (fun gv hgv => show ACB _ (fun _ => 2) from ?_)) (fun p => by omega)
  obtain ⟨hfm, hfr⟩ := genVideoResult_fields o gv hgv
  have hsc : scenesOf o = gv.scenes := by unfold scenesOf; rw [hgv]
  have hpw2 : (gv.manimScenes.map (fun q => q.2.index)).Pairwise (· ≤ ·) := by
    rw [hfm]
    have h0 := hpw
    unfold manimIdxList at h0
    rw [hsc] at h0
    exact h0
  have hcnt2 : ∀ p, 2 * (gv.manimScenes.map Prod.fst).count p
      + (gv.remotionScenes.map Prod.fst).count p ≤ 2 := by
    intro p
    rw [hfm, hfr]
    exact ms_rs_count gv.scenes p
  refine acb_mono (acb_Mbind (@acb_of_evnil _ _ (fun _ => 0) (evnil_MsaveState o _))
    (fun u2 => show ACB _ (fun _ => 2) from ?_)) (fun p => by omega)
  refine acb_mono (acb_Mbind (@acb_of_evnil _ _ (fun _ => 0) (evnil_MliftE _ _))
    (fun dir => show ACB _ (fun _ => 2) from ?_)) (fun p => by omega)
  refine acb_mono (acb_Mbind (@acb_of_evnil _ _ (fun _ => 0) (evnil_MsaveState o _))
    (fun u3 => show ACB _ (fun _ => 2) from ?_)) (fun p => by omega)
  refine acb_mono (acb_Mbind (@acb_of_evnil _ _ (fun _ => 0) (evnil_MliftE _ _))
    (fun u4 => show ACB _ (fun _ => 2) from ?_)) (fun p => by omega)
  refine acb_mono (acb_Mbind (@acb_of_evnil _ _ (fun _ => 0) (evnil_writeManimStep o _ gv))
    (fun u5 => show ACB _ (fun _ => 2) from ?_)) (fun p => by omega)
  refine acb_mono (acb_Mbind (@acb_of_evnil _ _ (fun _ => 0) (evnil_writeRemotionStep o _ gv))
    (fun remSaved => show ACB _ (fun _ => 2) from ?_)) (fun p => by omega)
  refine acb_mono (acb_Mbind (@acb_of_evnil _ _ (fun _ => 0) (evnil_MsaveState o _))
    (fun u6 => show ACB _ (fun _ => 2) from ?_)) (fun p => by omega)
  refine acb_mono (acb_Mbind
    (acb_mono (acb_renderStage o _ dir gv remSaved hpw2) (fun p => hcnt2 p))
    (fun rj => show ACB _ (fun _ => 0) from ?_)) (fun p => by omega)
  rcases rj with ⟨sJ, chron⟩
  refine acb_mono (acb_Mbind (acb_ttsStage o sJ dir gv)
    (fun rk => show ACB _ (fun _ => 0) from ?_)) (fun p => by omega)
  rcases rk with ⟨sK, audio⟩
  exact acb_of_evnil (evnil_mergeStage o sK dir gv chron audio)

/-! ### The per-event invariant of the fallback direction -/

theorem evOkC3_attempt_manim (o : Oracle) {q : Nat}
    (h : originalEngine o q = some Engine.MANIM) :
    evOkC3 o (Ev.attempt q Engine.MANIM) := by
  constructor
  · intro p eng he
    exact Ev.noConfusion he
  · intro p he
    injection he with h1 h2
    exact h1 ▸ h

theorem evOkC3_attempt_remotion (o : Oracle) (q : Nat) :
    evOkC3 o (Ev.attempt q Engine.REMOTION) := by
  constructor
  · intro p eng he
    exact Ev.noConfusion he
  · intro p he
    injection he with h1 h2
    exact Engine.noConfusion h2

theorem evOkC3_engineSet (o : Oracle) {q : Nat}
    (h : originalEngine o q = some Engine.MANIM) :
    evOkC3 o (Ev.engineSet q Engine.REMOTION) := by
  constructor
  · intro p eng he
    injection he with h1 h2
    exact ⟨h2.symm, h1 ▸ h⟩
  · intro p he
    exact Ev.noConfusion he

theorem evOkC3_ttsAttempt (o : Oracle) (idx : Nat) :
    evOkC3 o (Ev.ttsAttempt idx) :=
  ⟨fun p eng he => Ev.noConfusion he, fun p he => Ev.noConfusion he⟩

theorem evp_fallbackLoop (o : Oracle) (st : St) (dir : String) (rp : Bool) :
    ∀ (l : List ((Nat × Scene) × String)) (i k : Nat) (rs : Bool),
      (∀ x ∈ l, originalEngine o x.1.1 = some Engine.MANIM) →
      EvPred (fallbackLoop o st dir rp l i k rs) (evOkC3 o)
  | [], _, _, _, _ => evpred_of_evnil (evnil_Mpure _)
  | ((p1, s1), err) :: rest, i, k, rs, hl => by
    have ih := evp_fallbackLoop o st dir rp rest (i + 1)
    have hp1 : originalEngine o p1 = some Engine.MANIM :=
      hl _ (List.mem_cons_self _ _)
    have hrest : ∀ x ∈ rest, originalEngine o x.1.1 = some Engine.MANIM :=
      fun x hx => hl x (List.mem_cons_of_mem _ hx)
    unfold fallbackLoop
    simp only [bind_def]
    refine evpred_Mbind (evpred_Mcatch ?_ (fun e => evpred_of_evnil (evnil_Mpure _)))
      mpost_true (fun a _ => ?_)
    · refine evpred_Mbind (evpred_of_evnil (evnil_MliftE _ _)) mpost_true (fun resp _ => ?_)
      refine evpred_Mbind (evpred_of_evnil (evnil_MliftE _ _)) mpost_true (fun u _ => ?_)
      refine evpred_Mbind (evpred_Memit _ (fun e he => ?_)) mpost_true (fun u2 _ => ?_)
      · revert he
        unfold renderRemotionScenes
        split_ifs with h2
        · intro he
          obtain ⟨q, hq, hqm⟩ := rrAux_events_shape dir o.remotion _ _ e he
          rw [hq]
          exact evOkC3_attempt_remotion o q
        · intro he
          simp at he
      · refine evpred_Mbind (evpred_Memit _ (fun e he => ?_)) mpost_true
          (fun u3 _ => evpred_of_evnil (evnil_Mpure _))
        rcases List.mem_singleton.mp he with rfl
        exact evOkC3_engineSet o hp1
    · rcases a with ⟨c1, k1, r1⟩
      refine evpred_Mbind (ih k1 r1 hrest) mpost_true (fun z _ => ?_)
      rcases z with ⟨a2, b2, c2⟩
      exact evpred_of_evnil (evnil_Mpure _)

theorem evp_afterManim (o : Oracle) (st : St) (dir : String) (gv : GenResult)
    (rs : Bool) (chron : List (Nat × String)) (k : Nat) :
    EvPred (afterManim o st dir gv rs chron k) (evOkC3 o) := by
  unfold afterManim
  split_ifs with hc
  · simp only [bind_def]
    refine evpred_Mbind (evpred_of_evnil (evnil_MsaveState o _)) mpost_true (fun u _ => ?_)
    refine evpred_Mbind (evpred_Memit _ (fun e he => ?_)) mpost_true
      (fun u2 _ => evpred_of_evnil (evnil_renderDone o _ gv _))
    revert he
    unfold renderRemotionScenes
    split_ifs with h2
    · intro he
      obtain ⟨q, hq, hqm⟩ := rrAux_events_shape dir o.remotion _ _ e he
      rw [hq]
      exact evOkC3_attempt_remotion o q
    · intro he
      simp at he
  · exact evpred_of_evnil (evnil_renderDone o st gv chron)

theorem evp_renderStage (o : Oracle) (st : St) (dir : String) (gv : GenResult)
    (remSaved : Bool)
    (hms : ∀ q ∈ gv.manimScenes.map Prod.fst, originalEngine o q = some Engine.MANIM) :
    EvPred (renderStage o st dir gv remSaved) (evOkC3 o) := by
  unfold renderStage
  split_ifs with hc
  · simp only [bind_def]
    refine evpred_Mbind (evpred_of_evnil (evnil_MsaveState o _)) mpost_true (fun u _ => ?_)
    cases hrm : renderManimScenes dir (optTruthy gv.manimCode) o.manim gv.manimScenes with
    | ok rd fl evs =>
      obtain ⟨hrd, hfl, hevs⟩ := renderManimScenes_ok_inv hrm
      dsimp only
      refine evpred_Mbind (evpred_Memit _ (fun e he => ?_)) mpost_true (fun u2 _ => ?_)
      · rw [hevs] at he
        obtain ⟨q, hq, hqm⟩ :=
          rmAux_events_shape dir gv.manimScenes o.manim gv.manimScenes 0 e he
        rw [hq]
        exact evOkC3_attempt_manim o (hms q hqm)
      · split_ifs with hfl2
        · refine evpred_Mbind (evpred_of_evnil (evnil_MsaveState o _)) mpost_true
            (fun u3 _ => ?_)
          refine evpred_Mbind (evp_fallbackLoop o _ dir o.remProjExists fl 0 0 remSaved ?_)
            mpost_true (fun a _ => ?_)
          · intro x hx
            rcases rmAux_failed_mem dir gv.manimScenes o.manim gv.manimScenes 0 x
              (by rw [← hfl]; exact hx) with hm | hm
            · exact hms _ hm
            · exact hms _ hm
          · rcases a with ⟨fb, k1, rs1⟩
            exact evp_afterManim o _ dir gv rs1 _ k1
        · exact evp_afterManim o _ dir gv remSaved rd 0
    | malformed fs =>
      dsimp only
      split_ifs with hfs
      · exact evpred_Mbind (evpred_of_evnil (evnil_MsaveState o _)) mpost_true
          (fun u3 _ => evpred_of_evnil (evnil_Mthrow _ _))
      · exact evp_afterManim o _ dir gv remSaved [] 0
  · exact evp_afterManim o st dir gv remSaved [] 0

theorem evp_tryBody (o : Oracle) : EvPred (tryBody o) (evOkC3 o) := by
  unfold tryBody
  simp only [bind_def]
  refine evpred_Mbind (evpred_of_evnil (evnil_MliftE _ _)) mpost_true (fun a _ => ?_)
  refine evpred_Mbind (evpred_of_evnil (evnil_stageTopicFromDocs o _)) mpost_true
    (fun sB _ => ?_)
  refine evpred_Mbind (evpred_of_evnil (evnil_stageSummarize o _)) mpost_true
    (fun sC _ => ?_)
  refine evpred_Mbind (evpred_of_evnil (evnil_MsaveState o _)) mpost_true (fun u1 _ => ?_)
  refine evpred_Mbind (evpred_of_evnil (evnil_stageContext o _)) mpost_true
    (fun sE _ => ?_)
  refine evpred_Mbind (evpred_of_evnil (evnil_MliftE _ _))
    (mpost_MliftE _ _ (fun gv hgv => hgv)) (fun gv hgv => ?_)
  have hms : ∀ q ∈ gv.manimScenes.map Prod.fst, originalEngine o q = some Engine.MANIM := by
    intro q hq
    rw [List.mem_map] at hq
    obtain ⟨x, hx, hxq⟩ := hq
    rw [(genVideoResult_fields o gv hgv).1] at hx
    rw [List.mem_filter] at hx
    have hx2 := hx.2
    simp only [decide_eq_true_eq] at hx2
    rcases x with ⟨i, s⟩
    dsimp only at hxq hx2
    have hget : gv.scenes[i]? = some s := List.mk_mem_enum_iff_getElem?.mp hx.1
    unfold originalEngine
    have hsc : scenesOf o = gv.scenes := by unfold scenesOf; rw [hgv]
    rw [hsc, ← hxq]
    simp [List.get?_eq_getElem?, hget, hx2]
  refine evpred_Mbind (evpred_of_evnil (evnil_MsaveState o _)) mpost_true (fun u2 _ => ?_)
  refine evpred_Mbind (evpred_of_evnil (evnil_MliftE _ _)) mpost_true (fun dir _ => ?_)
  refine evpred_Mbind (evpred_of_evnil (evnil_MsaveState o _)) mpost_true (fun u3 _ => ?_)
  refine evpred_Mbind (evpred_of_evnil (evnil_MliftE _ _)) mpost_true (fun u4 _ => ?_)
  refine evpred_Mbind (evpred_of_evnil (evnil_writeManimStep o _ gv)) mpost_true
    (fun u5 _ => ?_)
  refine evpred_Mbind (evpred_of_evnil (evnil_writeRemotionStep o _ gv)) mpost_true
    (fun remSaved _ => ?_)
  refine evpred_Mbind (evpred_of_evnil (evnil_MsaveState o _)) mpost_true (fun u6 _ => ?_)
  refine evpred_Mbind (evp_renderStage o _ dir gv remSaved hms) mpost_true (fun rj _ => ?_)
  rcases rj with ⟨sJ, chron⟩
  refine evpred_Mbind (evp_ttsStage o sJ dir gv (fun idx => evOkC3_ttsAttempt o idx))
    mpost_true (fun rk _ => ?_)
  rcases rk with ⟨sK, audio⟩
  exact evpred_of_evnil (evnil_mergeStage o sK dir gv chron audio)

/-! ### From the body to the whole run -/

theorem eventsOf_cases (o : Oracle) :
    eventsOf o = [] ∨ ∃ n, eventsOf o = (tryBody o n).2.2.1 := by
  unfold eventsOf runGeneration
  by_cases hsv : o.save 0 = true
  · rw [show MsaveState o (st0 o) 0 = (Except.ok (), [snapOf (st0 o)], [], 0 + 1) from by
      unfold MsaveState; rw [if_pos hsv]]
    dsimp only
    rcases htb : tryBody o (0 + 1) with ⟨r, t, ev, n1⟩
    rcases r with ⟨msg, stx⟩ | a
    · try rw [htb]
      dsimp only
      unfold MsaveState
      split_ifs with h2 <;> dsimp only <;>
        exact Or.inr ⟨0 + 1, by rw [htb]; simp⟩
    · try rw [htb]
      dsimp only
      exact Or.inr ⟨0 + 1, by rw [htb]; simp⟩
  · rw [show MsaveState o (st0 o) 0 =
        (Except.error ("job save failed", st0 o), [], [], 0 + 1) from by
      unfold MsaveState; rw [if_neg hsv]]
    dsimp only
    exact Or.inl rfl

/-- Claim C3 (corrected): when the MANIM-tagged scenes appear in
non-decreasing index order, every scene position receives at most two
render attempts in the whole run; unconditionally, the engine field is
only ever reassigned to `REMOTION` and only for scenes originally parsed
as `MANIM`, and a `MANIM` render attempt only ever hits a scene
originally parsed as `MANIM` (so a scene originally tagged `REMOTION` is
only ever rendered under `REMOTION`). The sortedness hypothesis is
necessary: with descending indices the `FileNotFoundError` handler of
`render_manim_scenes` re-queues already-attempted scenes and a scene can
get three attempts. -/
theorem render_attempts_bounded (o : Oracle) :
    ((manimIdxList o).Pairwise (· ≤ ·) →
      ∀ p, attemptCount (eventsOf o) p ≤ 2) ∧
    (∀ e ∈ eventsOf o, ∀ p eng, e = Ev.engineSet p eng →
      eng = Engine.REMOTION ∧ originalEngine o p = some Engine.MANIM) ∧
    (∀ e ∈ eventsOf o, ∀ p, e = Ev.attempt p Engine.MANIM →
      originalEngine o p = some Engine.MANIM) := by
  rcases eventsOf_cases o with h | ⟨n, h⟩
  · rw [h]
    refine ⟨fun _ p => by rw [attemptCount_nil]; omega, ?_, ?_⟩
    · intro e he
      simp at he
    · intro e he
      simp at he
  · rw [h]
    exact ⟨fun hpw p => acb_tryBody o hpw n p,
      fun e he p eng hee => (evp_tryBody o n e he).1 p eng hee,
      fun e he p hee => (evp_tryBody o n e he).2 p hee⟩

theorem render_attempts_bounded_witness :
    (manimIdxList c3w).Pairwise (· ≤ ·) ∧ attemptCount (eventsOf c3w) 0 ≤ 2 :=
  ⟨by decide, (render_attempts_bounded c3w).1 (by decide) 0⟩

end VideoGen
